import Mathlib

/-!
Verification development for the ava-to-jest codemod
(src/from-ava-to-jest.ts).

The transformer parses one source file, runs six tree passes in order
(removeImport, generateSharedContext, updateSharedContextReferences,
adjustTestDefinitions, updateAssertions, rewriteTestCallExpression) and
prints the result.  We embed the syntax trees the passes inspect as an
untyped node datatype mirroring the jscodeshift AST (nodes are dynamic
objects there, so statements can sit in expression slots and vice versa),
and each pass as a total function on trees.  Printing (recast/prettier)
is an external collaborator and is not modelled.

Modelling conventions, kept uniform across the file:
- a JS object-literal lookup table becomes a function into Option String;
- a variable declaration with a single declarator is flattened into one
  node carrying kind, name, type annotation and initializer (the codemod
  only ever inspects and builds single-declarator declarations);
- absent optional AST fields (init, typeParameters) are the node
  mkMissing, and a JS out-of-range array access yields the node mkUndef,
  the image of the JS undefined value;
- function parameters are identifier names (the code only reads
  params[0].name and clears whole parameter lists);
- jscodeshift find/forEach/replaceWith is a bottom-up structural rewrite:
  every matched site in the original tree is rewritten, nested matches
  included, and replacement nodes are built from already-rewritten
  children.
-/

namespace AvaToJest

/-- Marker string for the throws/notThrows special case, from the source
constant SPECIAL_THROWS_CASE. -/
def SPECIAL_THROWS_CASE : String := "(special throws case)"

/-- Marker string for the true/false special case, from the source
constant SPECIAL_BOOL. -/
def SPECIAL_BOOL : String := "(special bool case)"

/-- Marker string for the plan special case, from the source constant
SPECIAL_PLAN_CASE. -/
def SPECIAL_PLAN_CASE : String := "(special plan case)"

/-- The assertion rule table tPropertiesMap: origin assertion name to
destination matcher name or special-case marker. -/
def tPropertiesMap (p : String) : Option String :=
  if p = "ok" then some "toBeTruthy"
  else if p = "truthy" then some "toBeTruthy"
  else if p = "falsy" then some "toBeFalsy"
  else if p = "notOk" then some "toBeFalsy"
  else if p = "true" then some SPECIAL_BOOL
  else if p = "false" then some SPECIAL_BOOL
  else if p = "is" then some "toBe"
  else if p = "not" then some "not.toBe"
  else if p = "same" then some "toEqual"
  else if p = "deepEqual" then some "toEqual"
  else if p = "notSame" then some "not.toEqual"
  else if p = "notDeepEqual" then some "not.toEqual"
  else if p = "throws" then some SPECIAL_THROWS_CASE
  else if p = "notThrows" then some SPECIAL_THROWS_CASE
  else if p = "regex" then some "toMatch"
  else if p = "notRegex" then some "not.toMatch"
  else if p = "ifError" then some "toBeFalsy"
  else if p = "error" then some "toBeFalsy"
  else if p = "plan" then some SPECIAL_PLAN_CASE
  else if p = "snapshot" then some "toMatchSnapshot"
  else none

/-- The excluded assertion names tPropertiesNotMapped (end, fail, pass):
calls using them are not even matched by the assertion pass. -/
def tPropertiesNotMapped (p : String) : Bool :=
  p = "end" || p = "fail" || p = "pass"

/-- The lifecycle/modifier rule table avaToJestLifecycleMethods. -/
def avaToJestLifecycleMethods (p : String) : Option String :=
  if p = "before" then some "beforeAll"
  else if p = "after" then some "afterAll"
  else if p = "beforeEach" then some "beforeEach"
  else if p = "afterEach" then some "afterEach"
  else if p = "only" then some "test.only"
  else if p = "skip" then some "test.skip"
  else if p = "failing" then some "test.skip"
  else if p = "todo" then some "test.todo"
  else none

mutual

/-- Untyped AST node, mirroring the jscodeshift node kinds the six passes
inspect or build.  Node kinds are not segregated into statements and
expressions: the real AST is dynamic, and the assertion pass does place
an ExpressionStatement into expression slots. -/
inductive Node : Type where
  | ident (name : String)
  | strLit (v : String)
  | numLit (v : Nat)
  | nullLit
  | mkUndef
  | mkMissing
  | member (obj : Node) (prop : String)
  | call (callee : Node) (args : NodeList)
  | arrowFn (params : List String) (body : NodeList)
  | funcExpr (params : List String) (body : NodeList)
  | objectExpr (props : NodeList)
  | objectProp (key : String) (value : Node)
  | tsAs (e : Node) (ann : Node)
  | importDecl (source : String)
  | varDecl (kind : String) (name : String) (tyAnn : Node) (init : Node)
  | typeAlias (name : String) (ty : Node)
  | exprStmt (e : Node)
  | typeRef (name : String) (typeArgs : Node)
  | typeParamInst (params : NodeList)
  | typeLit (members : NodeList)
  | propSig (key : String) (ty : Node)
  | otherMember
  | numberKw
  | stringKw
  deriving DecidableEq, Repr

/-- A list of nodes (program body, argument list, block body, object
properties, type members). -/
inductive NodeList : Type where
  | nil
  | cons (head : Node) (tail : NodeList)
  deriving DecidableEq, Repr

end

/-- Build a NodeList from a Lean list (notation helper). -/
def nl : List Node → NodeList
  | [] => .nil
  | h :: t => .cons h (nl t)

/-- Length of a NodeList. -/
def nlLen : NodeList → Nat
  | .nil => 0
  | .cons _ t => nlLen t + 1

/-- JS array indexing: out-of-range access yields the undefined value. -/
def jsAt : NodeList → Nat → Node
  | .nil, _ => .mkUndef
  | .cons h _, 0 => h
  | .cons _ t, n + 1 => jsAt t n

/-- Map a function over a NodeList (the function is arbitrary, not
recursive through this definition). -/
def nlMap (f : Node → Node) : NodeList → NodeList
  | .nil => .nil
  | .cons h t => .cons (f h) (nlMap f t)

mutual

/-- Generic bottom-up rewrite: rewrite every child, then apply the step
function to the reconstructed node.  Each jscodeshift pass is mapBU of
its per-node step: find collects every matching path of the tree, and
forEach rewrites each matched site, nested matches included. -/
def mapBU (f : Node → Node) : Node → Node
  | .ident s => f (.ident s)
  | .strLit v => f (.strLit v)
  | .numLit v => f (.numLit v)
  | .nullLit => f .nullLit
  | .mkUndef => f .mkUndef
  | .mkMissing => f .mkMissing
  | .member obj prop => f (.member (mapBU f obj) prop)
  | .call c args => f (.call (mapBU f c) (mapBUL f args))
  | .arrowFn ps body => f (.arrowFn ps (mapBUL f body))
  | .funcExpr ps body => f (.funcExpr ps (mapBUL f body))
  | .objectExpr props => f (.objectExpr (mapBUL f props))
  | .objectProp k v => f (.objectProp k (mapBU f v))
  | .tsAs e ann => f (.tsAs (mapBU f e) (mapBU f ann))
  | .importDecl s => f (.importDecl s)
  | .varDecl k n ty init => f (.varDecl k n (mapBU f ty) (mapBU f init))
  | .typeAlias n ty => f (.typeAlias n (mapBU f ty))
  | .exprStmt e => f (.exprStmt (mapBU f e))
  | .typeRef n ta => f (.typeRef n (mapBU f ta))
  | .typeParamInst ps => f (.typeParamInst (mapBUL f ps))
  | .typeLit ms => f (.typeLit (mapBUL f ms))
  | .propSig k ty => f (.propSig k (mapBU f ty))
  | .otherMember => f .otherMember
  | .numberKw => f .numberKw
  | .stringKw => f .stringKw

/-- Elementwise mapBU over a NodeList. -/
def mapBUL (f : Node → Node) : NodeList → NodeList
  | .nil => .nil
  | .cons h t => .cons (mapBU f h) (mapBUL f t)

end

mutual

/-- Does some subterm (the node itself included) satisfy p? -/
def anyN (p : Node → Bool) : Node → Bool
  | .ident s => p (.ident s)
  | .strLit v => p (.strLit v)
  | .numLit v => p (.numLit v)
  | .nullLit => p .nullLit
  | .mkUndef => p .mkUndef
  | .mkMissing => p .mkMissing
  | .member obj prop => p (.member obj prop) || anyN p obj
  | .call c args => p (.call c args) || anyN p c || anyNL p args
  | .arrowFn ps body => p (.arrowFn ps body) || anyNL p body
  | .funcExpr ps body => p (.funcExpr ps body) || anyNL p body
  | .objectExpr props => p (.objectExpr props) || anyNL p props
  | .objectProp k v => p (.objectProp k v) || anyN p v
  | .tsAs e ann => p (.tsAs e ann) || anyN p e || anyN p ann
  | .importDecl s => p (.importDecl s)
  | .varDecl k n ty init => p (.varDecl k n ty init) || anyN p ty || anyN p init
  | .typeAlias n ty => p (.typeAlias n ty) || anyN p ty
  | .exprStmt e => p (.exprStmt e) || anyN p e
  | .typeRef n ta => p (.typeRef n ta) || anyN p ta
  | .typeParamInst ps => p (.typeParamInst ps) || anyNL p ps
  | .typeLit ms => p (.typeLit ms) || anyNL p ms
  | .propSig k ty => p (.propSig k ty) || anyN p ty
  | .otherMember => p .otherMember
  | .numberKw => p .numberKw
  | .stringKw => p .stringKw

/-- Does some subterm of some element satisfy p? -/
def anyNL (p : Node → Bool) : NodeList → Bool
  | .nil => false
  | .cons h t => anyN p h || anyNL p t

end

mutual

/-- Number of subterm occurrences satisfying p. -/
def cntN (p : Node → Bool) : Node → Nat
  | .ident s => if p (.ident s) then 1 else 0
  | .strLit v => if p (.strLit v) then 1 else 0
  | .numLit v => if p (.numLit v) then 1 else 0
  | .nullLit => if p .nullLit then 1 else 0
  | .mkUndef => if p .mkUndef then 1 else 0
  | .mkMissing => if p .mkMissing then 1 else 0
  | .member obj prop => (if p (.member obj prop) then 1 else 0) + cntN p obj
  | .call c args => (if p (.call c args) then 1 else 0) + cntN p c + cntNL p args
  | .arrowFn ps body => (if p (.arrowFn ps body) then 1 else 0) + cntNL p body
  | .funcExpr ps body => (if p (.funcExpr ps body) then 1 else 0) + cntNL p body
  | .objectExpr props => (if p (.objectExpr props) then 1 else 0) + cntNL p props
  | .objectProp k v => (if p (.objectProp k v) then 1 else 0) + cntN p v
  | .tsAs e ann => (if p (.tsAs e ann) then 1 else 0) + cntN p e + cntN p ann
  | .importDecl s => if p (.importDecl s) then 1 else 0
  | .varDecl k n ty init => (if p (.varDecl k n ty init) then 1 else 0) + cntN p ty + cntN p init
  | .typeAlias n ty => (if p (.typeAlias n ty) then 1 else 0) + cntN p ty
  | .exprStmt e => (if p (.exprStmt e) then 1 else 0) + cntN p e
  | .typeRef n ta => (if p (.typeRef n ta) then 1 else 0) + cntN p ta
  | .typeParamInst ps => (if p (.typeParamInst ps) then 1 else 0) + cntNL p ps
  | .typeLit ms => (if p (.typeLit ms) then 1 else 0) + cntNL p ms
  | .propSig k ty => (if p (.propSig k ty) then 1 else 0) + cntN p ty
  | .otherMember => if p .otherMember then 1 else 0
  | .numberKw => if p .numberKw then 1 else 0
  | .stringKw => if p .stringKw then 1 else 0

/-- Number of subterm occurrences satisfying p across a NodeList. -/
def cntNL (p : Node → Bool) : NodeList → Nat
  | .nil => 0
  | .cons h t => cntN p h + cntNL p t

end

/-- First-result choice on Option, used to chain pre-order searches. -/
def oor : Option Node → Option Node → Option Node
  | some x, _ => some x
  | none, b => b

mutual

/-- Pre-order search: the first subterm satisfying p (the node itself is
visited before its children, children in field order). -/
def findN (p : Node → Bool) : Node → Option Node
  | .ident s => if p (.ident s) then some (.ident s) else none
  | .strLit v => if p (.strLit v) then some (.strLit v) else none
  | .numLit v => if p (.numLit v) then some (.numLit v) else none
  | .nullLit => if p .nullLit then some .nullLit else none
  | .mkUndef => if p .mkUndef then some .mkUndef else none
  | .mkMissing => if p .mkMissing then some .mkMissing else none
  | .member obj prop =>
    if p (.member obj prop) then some (.member obj prop) else findN p obj
  | .call c args =>
    if p (.call c args) then some (.call c args) else oor (findN p c) (findNL p args)
  | .arrowFn ps body =>
    if p (.arrowFn ps body) then some (.arrowFn ps body) else findNL p body
  | .funcExpr ps body =>
    if p (.funcExpr ps body) then some (.funcExpr ps body) else findNL p body
  | .objectExpr props =>
    if p (.objectExpr props) then some (.objectExpr props) else findNL p props
  | .objectProp k v =>
    if p (.objectProp k v) then some (.objectProp k v) else findN p v
  | .tsAs e ann =>
    if p (.tsAs e ann) then some (.tsAs e ann) else oor (findN p e) (findN p ann)
  | .importDecl s => if p (.importDecl s) then some (.importDecl s) else none
  | .varDecl k n ty init =>
    if p (.varDecl k n ty init) then some (.varDecl k n ty init)
    else oor (findN p ty) (findN p init)
  | .typeAlias n ty =>
    if p (.typeAlias n ty) then some (.typeAlias n ty) else findN p ty
  | .exprStmt e => if p (.exprStmt e) then some (.exprStmt e) else findN p e
  | .typeRef n ta => if p (.typeRef n ta) then some (.typeRef n ta) else findN p ta
  | .typeParamInst ps =>
    if p (.typeParamInst ps) then some (.typeParamInst ps) else findNL p ps
  | .typeLit ms => if p (.typeLit ms) then some (.typeLit ms) else findNL p ms
  | .propSig k ty => if p (.propSig k ty) then some (.propSig k ty) else findN p ty
  | .otherMember => if p .otherMember then some .otherMember else none
  | .numberKw => if p .numberKw then some .numberKw else none
  | .stringKw => if p .stringKw then some .stringKw else none

/-- Pre-order search across a NodeList. -/
def findNL (p : Node → Bool) : NodeList → Option Node
  | .nil => none
  | .cons h t => oor (findN p h) (findNL p t)

end

/-! Pass 1: removeImport.  The source finds every ImportDeclaration whose
source value is the string ava and prunes it.  Import declarations are
top-level statements, so the pass is a filter on the program body. -/

/-- Is this node an import declaration of the ava package? -/
def isAvaImport : Node → Bool
  | .importDecl s => s = "ava"
  | _ => false

/-- The removeImport pass: prune every import declaration whose source is
the ava package identifier from the program body. -/
def removeImport : NodeList → NodeList
  | .nil => .nil
  | .cons h t => if isAvaImport h then removeImport t else .cons h (removeImport t)

/-! Pass 3: updateSharedContextReferences.  Every member expression whose
object is the identifier t and whose property is the identifier context
is replaced by the identifier sharedContext. -/

/-- Does this node match the t.context member-expression pattern of
updateSharedContextReferences? -/
def isTCtx : Node → Bool
  | .member obj prop => decide (obj = .ident "t" ∧ prop = "context")
  | _ => false

/-- Per-node step of updateSharedContextReferences: replace a matched
t.context member expression by the identifier sharedContext. -/
def uscrStep (n : Node) : Node :=
  if isTCtx n then .ident "sharedContext" else n

/-- The updateSharedContextReferences pass on a node. -/
def uscrN : Node → Node := mapBU uscrStep

/-- The updateSharedContextReferences pass on a program body. -/
def uscrL : NodeList → NodeList := mapBUL uscrStep

/-! Pass 4: adjustTestDefinitions.  Every call whose callee is the bare
identifier test, with more than one argument whose second argument is an
arrow function or function expression, gets that function's parameter
list cleared. -/

/-- Clear the parameter list of the second element when the list has more
than one element and that element is a function value (the body of the
adjustTestDefinitions forEach).  Clearing an already-empty list is the
identity, exactly as in the source (guarded by params.length greater
than zero there, with the same resulting tree). -/
def clearParamsAt1 : NodeList → NodeList
  | .cons a0 (.cons (.arrowFn _ body) t) => .cons a0 (.cons (.arrowFn [] body) t)
  | .cons a0 (.cons (.funcExpr _ body) t) => .cons a0 (.cons (.funcExpr [] body) t)
  | l => l

/-- Per-node step of adjustTestDefinitions. -/
def adjStep (n : Node) : Node :=
  match n with
  | .call c args => if c = .ident "test" then .call c (clearParamsAt1 args) else n
  | _ => n

/-- The adjustTestDefinitions pass on a node. -/
def adjN : Node → Node := mapBU adjStep

/-- The adjustTestDefinitions pass on a program body. -/
def adjL : NodeList → NodeList := mapBUL adjStep

/-! Pass 5: updateAssertions.  Every call whose callee is a member access
off the identifier t, with a property outside the excluded set, is
looked up in tPropertiesMap and rewritten (or warned about and left). -/

/-- The property name of a callee matching the updateAssertions find
pattern: a member access whose object carries the name t.  Only an
identifier object carries a name. -/
def tCallProp : Node → Option String
  | .member (.ident nm) prop => if nm = "t" then some prop else none
  | _ => none

/-- Build the replacement node for a matched assertion whose rule-table
entry is dest, from the (already rewritten) argument list.  Mirrors the
four branches of updateAssertions: the special bool, plan and throws
constructions, and the generic expect(args0).dest(args1) rename.  The
replacement is wrapped in an ExpressionStatement exactly as in the
source (j.expressionStatement), and argument access is JS indexing, so a
missing second argument becomes the undefined value. -/
def uaBuild (prop dest : String) (targs : NodeList) : Node :=
  if dest = SPECIAL_BOOL then
    .exprStmt (.call
      (.member (.call (.ident "expect") (nl [jsAt targs 0]))
        (if prop = "true" then "toBeTruthy" else "toBeFalsy"))
      .nil)
  else if dest = SPECIAL_PLAN_CASE then
    .exprStmt (.call (.member (.ident "expect") "assertions") (nl [jsAt targs 0]))
  else if dest = SPECIAL_THROWS_CASE then
    .exprStmt (.call
      (.member (.call (.ident "expect") (nl [.funcExpr [] .nil]))
        (if prop = "throws" then "toThrow" else "not.toThrow"))
      (if 1 < nlLen targs then nl [jsAt targs 1] else .nil))
  else
    .exprStmt (.call
      (.member (.call (.ident "expect") (nl [jsAt targs 0])) dest)
      (nl [jsAt targs 1]))

/-- Per-node step of updateAssertions: rewrite a matched assertion call
through the rule table; an excluded property is not matched at all, and
an unmapped property is warned about and left unconverted. -/
def uaStep (n : Node) : Node :=
  match n with
  | .call c args =>
    match tCallProp c with
    | some prop =>
      if tPropertiesNotMapped prop then n
      else
        match tPropertiesMap prop with
        | none => n
        | some dest => uaBuild prop dest args
    | none => n
  | _ => n

/-- The updateAssertions pass on a node. -/
def uaN : Node → Node := mapBU uaStep

/-- The updateAssertions pass on a program body. -/
def uaL : NodeList → NodeList := mapBUL uaStep

/-- The diagnostic message of updateAssertions for an unmapped assertion
name (console.warn). -/
def uaWarnMsg (prop : String) : String :=
  "\"" ++ prop ++ "\" is currently not supported"

/-- Does this node produce an updateAssertions diagnostic: a matched
assertion call whose property is neither excluded nor in the table? -/
def uaWarnsHere (n : Node) : Bool :=
  match n with
  | .call c _ =>
    match tCallProp c with
    | some prop => !tPropertiesNotMapped prop && (tPropertiesMap prop).isNone
    | none => false
  | _ => false

mutual

/-- Diagnostics emitted by updateAssertions while scanning a node: one
warning per visited call site with an unmapped assertion name. -/
def uaWarnN : Node → List String
  | .ident _ => []
  | .strLit _ => []
  | .numLit _ => []
  | .nullLit => []
  | .mkUndef => []
  | .mkMissing => []
  | .member obj _ => uaWarnN obj
  | .call c args =>
    (if uaWarnsHere (.call c args) then
      [uaWarnMsg ((tCallProp c).getD "")] else []) ++ uaWarnN c ++ uaWarnNL args
  | .arrowFn _ body => uaWarnNL body
  | .funcExpr _ body => uaWarnNL body
  | .objectExpr props => uaWarnNL props
  | .objectProp _ v => uaWarnN v
  | .tsAs e ann => uaWarnN e ++ uaWarnN ann
  | .importDecl _ => []
  | .varDecl _ _ ty init => uaWarnN ty ++ uaWarnN init
  | .typeAlias _ ty => uaWarnN ty
  | .exprStmt e => uaWarnN e
  | .typeRef _ ta => uaWarnN ta
  | .typeParamInst ps => uaWarnNL ps
  | .typeLit ms => uaWarnNL ms
  | .propSig _ ty => uaWarnN ty
  | .otherMember => []
  | .numberKw => []
  | .stringKw => []

/-- Diagnostics emitted by updateAssertions while scanning a NodeList. -/
def uaWarnNL : NodeList → List String
  | .nil => []
  | .cons h t => uaWarnN h ++ uaWarnNL t

end

/-! Pass 6: rewriteTestCallExpression.  Every call whose callee is a
member expression whose object carries the name test is matched; when
the property is in the lifecycle table the callee becomes the
destination identifier, a leading string-literal title is shifted off,
and a leading parameter named t of the (post-shift) second argument is
removed. -/

/-- The property name of a callee matching the rewriteTestCallExpression
find pattern: a member expression whose object carries the name test. -/
def testCallProp : Node → Option String
  | .member (.ident nm) prop => if nm = "test" then some prop else none
  | _ => none

/-- Drop a leading string-literal title argument (j.Literal check plus a
string typeof check, then shift). -/
def dropTitle : NodeList → NodeList
  | .cons (.strLit _) t => t
  | l => l

/-- Remove a leading parameter named t from the function value found at
index 1 of the (already title-shifted) argument list, as the source does
by reading path.node.arguments[1] after the shift. -/
def stripParamT : NodeList → NodeList
  | .cons a0 (.cons (.arrowFn ("t" :: ps) body) t) =>
    .cons a0 (.cons (.arrowFn ps body) t)
  | .cons a0 (.cons (.funcExpr ("t" :: ps) body) t) =>
    .cons a0 (.cons (.funcExpr ps body) t)
  | l => l

/-- Per-node step of rewriteTestCallExpression. -/
def rwStep (n : Node) : Node :=
  match n with
  | .call c args =>
    match testCallProp c with
    | some prop =>
      match avaToJestLifecycleMethods prop with
      | some dest => .call (.ident dest) (stripParamT (dropTitle args))
      | none => n
    | none => n
  | _ => n

/-- The rewriteTestCallExpression pass on a node. -/
def rwN : Node → Node := mapBU rwStep

/-- The rewriteTestCallExpression pass on a program body. -/
def rwL : NodeList → NodeList := mapBUL rwStep

/-! Pass 2: generateSharedContext.  Find the first variable declarator
named test; require its initializer to be a TSAsExpression annotated by
a TSTypeReference with a nonempty type-parameter list whose first
parameter is a TSTypeLiteral; then insert a type alias before and a
sharedContext variable after every statement holding a matched test
declarator, and remove the first matched declarator.  Any failed check
aborts the pass with a log message and no tree mutation. -/

/-- Is this node a variable declarator named test (the find pattern of
generateSharedContext)? -/
def isTestDecl : Node → Bool
  | .varDecl _ nm _ _ => nm = "test"
  | _ => false

/-- Build the object-literal fields of the sharedContext variable: one
null-initialized field per simple property signature of the type
literal; any other member shape is skipped (the filter(Boolean) of the
source). -/
def mkProps : NodeList → NodeList
  | .nil => .nil
  | .cons (.propSig k _) t => .cons (.objectProp k .nullLit) (mkProps t)
  | .cons _ t => mkProps t

/-- Check the shape of the found test declarator and build the inserted
nodes: the SharedContextType alias for the first type parameter, and the
sharedContext variable annotated with a reference to the alias and
initialized with null-valued fields.  Returns none on any of the
precondition failures (no or wrong initializer shape, no type
parameters, first parameter not an inline type literal). -/
def checkShape : Node → Option (Node × Node)
  | .varDecl _ _ _ (.tsAs _ (.typeRef _ (.typeParamInst (.cons ty0 _)))) =>
    match ty0 with
    | .typeLit ms =>
      some (.typeAlias "SharedContextType" ty0,
        .varDecl "const" "sharedContext"
          (.typeRef "SharedContextType" .mkMissing)
          (.objectExpr (mkProps ms)))
    | _ => none
  | _ => none

/-- The precondition failures of generateSharedContext on the found test
declarator's initializer, as the spec enumerates them: no initializer or
an initializer that is not a type-assertion annotated by a
type-reference, a missing or empty type-parameter list, or a first type
parameter that is not an inline type literal. -/
def gscFail (init : Node) : Bool :=
  match init with
  | .tsAs _ (.typeRef _ (.typeParamInst (.cons ty0 _))) =>
    match ty0 with
    | .typeLit _ => false
    | _ => true
  | _ => true

mutual

/-- Surgery of generateSharedContext inside one node: rewrite every
NodeList of the node with gsL, threading the has-removed flag in
pre-order. -/
def gsN (al nv : Node) : Bool → Node → Node × Bool
  | r, .ident s => (.ident s, r)
  | r, .strLit v => (.strLit v, r)
  | r, .numLit v => (.numLit v, r)
  | r, .nullLit => (.nullLit, r)
  | r, .mkUndef => (.mkUndef, r)
  | r, .mkMissing => (.mkMissing, r)
  | r, .member obj prop =>
    let (o2, r2) := gsN al nv r obj
    (.member o2 prop, r2)
  | r, .call c args =>
    let (c2, r2) := gsN al nv r c
    let (a2, r3) := gsL al nv r2 args
    (.call c2 a2, r3)
  | r, .arrowFn ps body =>
    let (b2, r2) := gsL al nv r body
    (.arrowFn ps b2, r2)
  | r, .funcExpr ps body =>
    let (b2, r2) := gsL al nv r body
    (.funcExpr ps b2, r2)
  | r, .objectExpr props =>
    let (p2, r2) := gsL al nv r props
    (.objectExpr p2, r2)
  | r, .objectProp k v =>
    let (v2, r2) := gsN al nv r v
    (.objectProp k v2, r2)
  | r, .tsAs e ann =>
    let (e2, r2) := gsN al nv r e
    let (a2, r3) := gsN al nv r2 ann
    (.tsAs e2 a2, r3)
  | r, .importDecl s => (.importDecl s, r)
  | r, .varDecl k n ty init =>
    let (t2, r2) := gsN al nv r ty
    let (i2, r3) := gsN al nv r2 init
    (.varDecl k n t2 i2, r3)
  | r, .typeAlias n ty =>
    let (t2, r2) := gsN al nv r ty
    (.typeAlias n t2, r2)
  | r, .exprStmt e =>
    let (e2, r2) := gsN al nv r e
    (.exprStmt e2, r2)
  | r, .typeRef n ta =>
    let (t2, r2) := gsN al nv r ta
    (.typeRef n t2, r2)
  | r, .typeParamInst ps =>
    let (p2, r2) := gsL al nv r ps
    (.typeParamInst p2, r2)
  | r, .typeLit ms =>
    let (m2, r2) := gsL al nv r ms
    (.typeLit m2, r2)
  | r, .propSig k ty =>
    let (t2, r2) := gsN al nv r ty
    (.propSig k t2, r2)
  | r, .otherMember => (.otherMember, r)
  | r, .numberKw => (.numberKw, r)
  | r, .stringKw => (.stringKw, r)

/-- Surgery of generateSharedContext on a NodeList: around every element
matching the test-declarator pattern, insert the alias before and the
new variable after (the source inserts at the statement of every found
declarator); the first matched element in pre-order is removed (the
source removes only the path at index zero of the found collection),
later ones are kept with their children processed. -/
def gsL (al nv : Node) : Bool → NodeList → NodeList × Bool
  | r, .nil => (.nil, r)
  | r, .cons h t =>
    if isTestDecl h then
      if r then
        let (h2, r2) := gsN al nv true h
        let (t2, r3) := gsL al nv r2 t
        (.cons al (.cons h2 (.cons nv t2)), r3)
      else
        let (t2, r2) := gsL al nv true t
        (.cons al (.cons nv t2), r2)
    else
      let (h2, r2) := gsN al nv r h
      let (t2, r3) := gsL al nv r2 t
      (.cons h2 t2, r3)

end

/-- The generateSharedContext pass: find the first test declarator, check
its shape, and either soft-abort with no mutation or perform the
insert/replace surgery. -/
def generateSharedContext (l : NodeList) : NodeList :=
  match findNL isTestDecl l with
  | none => l
  | some d =>
    match checkShape d with
    | none => l
    | some (al, nv) => (gsL al nv false l).1

/-- The full six-pass pipeline of the transformer, in source order. -/
def pipeline (l : NodeList) : NodeList :=
  rwL (uaL (adjL (uscrL (generateSharedContext (removeImport l)))))

/-- Node kinds that are well-formed in an expression position of the
destination AST (the position a matched assertion call occupies). -/
def isExprKind : Node → Bool
  | .ident _ => true
  | .strLit _ => true
  | .numLit _ => true
  | .nullLit => true
  | .member _ _ => true
  | .call _ _ => true
  | .arrowFn _ _ => true
  | .funcExpr _ _ => true
  | .objectExpr _ => true
  | .tsAs _ _ => true
  | _ => false

/-- One-level child map: apply g to every direct child of the node
(non-recursive; mapBU f equals f after mapC (mapBU f)). -/
def mapC (g : Node → Node) : Node → Node
  | .ident s => .ident s
  | .strLit v => .strLit v
  | .numLit v => .numLit v
  | .nullLit => .nullLit
  | .mkUndef => .mkUndef
  | .mkMissing => .mkMissing
  | .member obj prop => .member (g obj) prop
  | .call c args => .call (g c) (nlMap g args)
  | .arrowFn ps body => .arrowFn ps (nlMap g body)
  | .funcExpr ps body => .funcExpr ps (nlMap g body)
  | .objectExpr props => .objectExpr (nlMap g props)
  | .objectProp k v => .objectProp k (g v)
  | .tsAs e ann => .tsAs (g e) (g ann)
  | .importDecl s => .importDecl s
  | .varDecl k n ty init => .varDecl k n (g ty) (g init)
  | .typeAlias n ty => .typeAlias n (g ty)
  | .exprStmt e => .exprStmt (g e)
  | .typeRef n ta => .typeRef n (g ta)
  | .typeParamInst ps => .typeParamInst (nlMap g ps)
  | .typeLit ms => .typeLit (nlMap g ms)
  | .propSig k ty => .propSig k (g ty)
  | .otherMember => .otherMember
  | .numberKw => .numberKw
  | .stringKw => .stringKw

/-- One-level child search: does some strict subterm satisfy anyN p
(non-recursive; anyN p equals p or-ed with anyC p). -/
def anyC (p : Node → Bool) : Node → Bool
  | .ident _ => false
  | .strLit _ => false
  | .numLit _ => false
  | .nullLit => false
  | .mkUndef => false
  | .mkMissing => false
  | .member obj _ => anyN p obj
  | .call c args => anyN p c || anyNL p args
  | .arrowFn _ body => anyNL p body
  | .funcExpr _ body => anyNL p body
  | .objectExpr props => anyNL p props
  | .objectProp _ v => anyN p v
  | .tsAs e ann => anyN p e || anyN p ann
  | .importDecl _ => false
  | .varDecl _ _ ty init => anyN p ty || anyN p init
  | .typeAlias _ ty => anyN p ty
  | .exprStmt e => anyN p e
  | .typeRef _ ta => anyN p ta
  | .typeParamInst ps => anyNL p ps
  | .typeLit ms => anyNL p ms
  | .propSig _ ty => anyN p ty
  | .otherMember => false
  | .numberKw => false
  | .stringKw => false

/-- Does some top-level element of the program body satisfy p? -/
def anyTop (p : Node → Bool) : NodeList → Bool
  | .nil => false
  | .cons h t => p h || anyTop p t

/-- Residual match pattern of adjustTestDefinitions: a call of the bare
test identifier whose argument list the pass would still change. -/
def badAdj : Node → Bool
  | .call c args => decide (c = .ident "test") && decide (clearParamsAt1 args ≠ args)
  | _ => false

/-- Residual match pattern of updateAssertions: an assertion call off the
identifier t whose property is mapped by the rule table (excluded and
unmapped properties are left alone by the pass, so they are not
residual). -/
def badUA : Node → Bool
  | .call c _ =>
    match tCallProp c with
    | some prop => !tPropertiesNotMapped prop && (tPropertiesMap prop).isSome
    | none => false
  | _ => false

/-- Residual match pattern of rewriteTestCallExpression: a call off the
test identifier whose property is in the lifecycle table. -/
def badRW : Node → Bool
  | .call c _ =>
    match testCallProp c with
    | some prop => (avaToJestLifecycleMethods prop).isSome
    | none => false
  | _ => false

/-- Residual match pattern of generateSharedContext in a converted tree:
a test declarator that would pass the shape check. -/
def badShape (n : Node) : Bool :=
  isTestDecl n && (checkShape n).isSome

/-- A test declarator sitting in a direct non-list child slot of this
node.  In a parse-produced tree a variable declaration only occurs as an
element of a statement list, which is where the surgery of
generateSharedContext inserts and removes; this predicate flags the
degenerate placements our untyped node type cannot exclude. -/
def wpBad : Node → Bool
  | .member obj _ => isTestDecl obj
  | .call c _ => isTestDecl c
  | .objectProp _ v => isTestDecl v
  | .tsAs e ann => isTestDecl e || isTestDecl ann
  | .varDecl _ _ ty init => isTestDecl ty || isTestDecl init
  | .typeAlias _ ty => isTestDecl ty
  | .exprStmt e => isTestDecl e
  | .typeRef _ ta => isTestDecl ta
  | .propSig _ ty => isTestDecl ty
  | _ => false

/-- Keep the elements of a NodeList satisfying p (generic filter). -/
def nlFilter (p : Node → Bool) : NodeList → NodeList
  | .nil => .nil
  | .cons h t => if p h then .cons h (nlFilter p t) else nlFilter p t

/-- Number of top-level ava import declarations. -/
def avaCount : NodeList → Nat
  | .nil => 0
  | .cons h t => (if isAvaImport h then 1 else 0) + avaCount t

/-! Concrete example programs used by the counterexamples and witnesses. -/

/-- The inline context type literal with fields a and b (a of number
type, b of string type). -/
def ctxTy : Node := .typeLit (nl [.propSig "a" .numberKw, .propSig "b" .stringKw])

/-- The test-registration variable declaration
const test = anyTestFn as TestFn of the context type. -/
def testVar : Node :=
  .varDecl "const" "test" .mkMissing
    (.tsAs (.ident "anyTestFn") (.typeRef "TestFn" (.typeParamInst (nl [ctxTy]))))

/-- A test call whose callback reads t.context:
test of a title and an arrow function over t whose body reads
t.context.a as a statement. -/
def useStmt : Node :=
  .exprStmt (.call (.ident "test")
    (nl [.strLit "t1", .arrowFn ["t"]
      (nl [.exprStmt (.member (.member (.ident "t") "context") "a")])]))

/-- Input program for the shared-context scenario: the typed test
variable followed by a test call using t.context. -/
def prog4 : NodeList := nl [testVar, useStmt]

/-- Expected output of the shared-context passes on prog4. -/
def prog4Out : NodeList :=
  nl [.typeAlias "SharedContextType" ctxTy,
    .varDecl "const" "sharedContext"
      (.typeRef "SharedContextType" .mkMissing)
      (.objectExpr (nl [.objectProp "a" .nullLit, .objectProp "b" .nullLit])),
    .exprStmt (.call (.ident "test")
      (nl [.strLit "t1", .arrowFn []
        (nl [.exprStmt (.member (.ident "sharedContext") "a")])]))]

/-- Input program with two well-formed test declarators, refuting
pipeline idempotence. -/
def prog7 : NodeList := nl [testVar, testVar]

/-- Input program with two ava import declarations and one other
statement, refuting the zero-or-one shrink bound. -/
def prog8 : NodeList :=
  nl [.importDecl "ava", .importDecl "ava", .exprStmt (.ident "x")]

/-- Witness program for the amended idempotence claim: an ava import,
one well-formed test declarator, a context reference and an assertion. -/
def prog7W : NodeList :=
  nl [.importDecl "ava", testVar, useStmt,
    .exprStmt (.call (.member (.ident "t") "is") (nl [.ident "a", .ident "b"]))]

/-- A test declarator strictly below a node (as a proper subterm).  When
no subterm of the program satisfies this, test declarators occur only as
top-level statements, which is where a parse of a real input file puts
the test-registration variable declaration. -/
def innerTest (n : Node) : Bool := anyC isTestDecl n

/-- The nesting pattern under which the path semantics of
updateAssertions loses a conversion: a convertible assertion call
carrying another convertible assertion call somewhere inside its own
argument list.  The find of the pass collects matches of the original
tree outer-first, and replaceWith rebuilds the replaced call's argument
slots as fresh arrays, so the nested match is replaced only along its
stale path, into the detached original array. -/
def uaNest : Node → Bool
  | .call c args => badUA (.call c args) && anyNL badUA args
  | _ => false

/-- Does this node make an updateAssertions builder throw: a convertible
assertion call with fewer arguments than its branch reads.  The source
builds the argument arrays of the replacement from args with JS
indexing; an out-of-range index yields the undefined value, and the
ast-types call-expression builder rejects an undefined array element by
throwing, which crashes the whole transform.  The throws branch guards
its args[1] access behind an arity test and uses a synthesized
placeholder instead of args[0], so it never throws; excluded and
unmapped names build nothing. -/
def uaArgCrash : Node → Bool
  | .call c args =>
    match tCallProp c with
    | some prop =>
      if tPropertiesNotMapped prop then false
      else
        match tPropertiesMap prop with
        | none => false
        | some dest =>
          if dest = SPECIAL_THROWS_CASE then false
          else if dest = SPECIAL_BOOL then decide (nlLen args = 0)
          else if dest = SPECIAL_PLAN_CASE then decide (nlLen args = 0)
          else decide (nlLen args < 2)
    | none => false
  | _ => false

mutual

/-- One run of updateAssertions with the path semantics of the source.
The find collects every matching call of the original tree outer-first;
replaceWith rebuilds a replaced call's argument slots as fresh arrays,
so a convertible call sitting directly in such a slot is replaced only
along its stale path (the splice lands in the detached original
arguments array) and survives unconverted in the output, while matches
deeper inside a reused argument node splice into arrays the rebuilt
tree still shares.  The Boolean argument records whether the node
itself sits in a freshly rebuilt slot, i.e. whether its own head
conversion is lost; every other position is live.  A replaced call's
replacement is built by uaBuild over its argument nodes processed as
such slots (the element count, which the throws branch consults, is
unchanged by that processing).  The branches that would make a builder
throw are cut off beforehand by the uaArgCrash scan of the caller, so
the undefined slot values they read never reach an output. -/
def cvN : Bool → Node → Node
  | lost, .call c args =>
    match tCallProp c with
    | some prop =>
      if tPropertiesNotMapped prop then .call (cvN false c) (cvL args)
      else
        match tPropertiesMap prop with
        | none => .call (cvN false c) (cvL args)
        | some dest =>
          if lost then .call c (cvL args)
          else uaBuild prop dest (cvD args)
    | none => .call (cvN false c) (cvL args)
  | _, .ident s => .ident s
  | _, .strLit v => .strLit v
  | _, .numLit v => .numLit v
  | _, .nullLit => .nullLit
  | _, .mkUndef => .mkUndef
  | _, .mkMissing => .mkMissing
  | _, .member obj prop => .member (cvN false obj) prop
  | _, .arrowFn ps body => .arrowFn ps (cvL body)
  | _, .funcExpr ps body => .funcExpr ps (cvL body)
  | _, .objectExpr props => .objectExpr (cvL props)
  | _, .objectProp k v => .objectProp k (cvN false v)
  | _, .tsAs e ann => .tsAs (cvN false e) (cvN false ann)
  | _, .importDecl s => .importDecl s
  | _, .varDecl k n ty init => .varDecl k n (cvN false ty) (cvN false init)
  | _, .typeAlias n ty => .typeAlias n (cvN false ty)
  | _, .exprStmt e => .exprStmt (cvN false e)
  | _, .typeRef n ta => .typeRef n (cvN false ta)
  | _, .typeParamInst ps => .typeParamInst (cvL ps)
  | _, .typeLit ms => .typeLit (cvL ms)
  | _, .propSig k ty => .propSig k (cvN false ty)
  | _, .otherMember => .otherMember
  | _, .numberKw => .numberKw
  | _, .stringKw => .stringKw

/-- One run of updateAssertions over a live statement or element list. -/
def cvL : NodeList → NodeList
  | .nil => .nil
  | .cons h t => .cons (cvN false h) (cvL t)

/-- One run of updateAssertions over the argument list of a replaced
call: every element sits in a freshly rebuilt slot, so its own head
conversion is lost while its interior is processed live. -/
def cvD : NodeList → NodeList
  | .nil => .nil
  | .cons h t => .cons (cvN true h) (cvD t)

end

/-- The updateAssertions pass with its failure behavior: if any builder
of any collected match throws (the callback of forEach runs for every
collected path, whether or not its replacement will land), the whole
transform crashes with no output; otherwise the conversion with path
semantics is performed. -/
def uaRunL (l : NodeList) : Option NodeList :=
  if anyNL uaArgCrash l then none else some (cvL l)

/-- The six-pass pipeline with the faithful assertion pass: the first
four passes as in pipeline, then updateAssertions with its crash
behavior (a thrown builder aborts the whole transform, so nothing runs
after it and the file produces no output), then the lifecycle rewrite. -/
def pipelineR (l : NodeList) : Option NodeList :=
  match uaRunL (adjL (uscrL (generateSharedContext (removeImport l)))) with
  | none => none
  | some z => some (rwL z)

/-! Basic lemmas about the list helpers and the generic combinators. -/

theorem oor_some (x : Node) (b : Option Node) : oor (some x) b = some x := rfl

theorem oor_none (b : Option Node) : oor none b = b := rfl

theorem oor_isSome (a b : Option Node) : (oor a b).isSome = (a.isSome || b.isSome) := by
  cases a <;> simp [oor]

theorem oor_eq_some (a b : Option Node) (d : Node) :
    oor a b = some d ↔ (a = some d ∨ (a = none ∧ b = some d)) := by
  cases a <;> simp [oor]

theorem nlLen_nlMap (f : Node → Node) : ∀ l, nlLen (nlMap f l) = nlLen l
  | .nil => rfl
  | .cons _ t => by simp [nlMap, nlLen, nlLen_nlMap f t]

theorem mapBUL_eq_nlMap (f : Node → Node) : ∀ l, mapBUL f l = nlMap (mapBU f) l
  | .nil => rfl
  | .cons h t => by simp [mapBUL, nlMap, mapBUL_eq_nlMap f t]

theorem nlLen_mapBUL (f : Node → Node) (l : NodeList) : nlLen (mapBUL f l) = nlLen l := by
  rw [mapBUL_eq_nlMap, nlLen_nlMap]

theorem mapBU_eq (f : Node → Node) (x : Node) :
    mapBU f x = f (mapC (mapBU f) x) := by
  cases x <;> simp [mapBU, mapC, mapBUL_eq_nlMap]

theorem anyN_eq (p : Node → Bool) (x : Node) :
    anyN p x = (p x || anyC p x) := by
  cases x <;> simp [anyN, anyC, Bool.or_assoc]

theorem anyN_jsAt (p : Node → Bool) (hu : p .mkUndef = false) :
    ∀ (l : NodeList) (i : Nat), anyNL p l = false → anyN p (jsAt l i) = false
  | .nil, i, _ => by cases i <;> simp [jsAt, anyN, hu]
  | .cons h t, 0, hl => by
    simp only [anyNL, Bool.or_eq_false_iff] at hl
    simpa [jsAt] using hl.1
  | .cons h t, i + 1, hl => by
    simp only [anyNL, Bool.or_eq_false_iff] at hl
    simpa [jsAt] using anyN_jsAt p hu t i hl.2

theorem anyNL_nl (p : Node → Bool) : ∀ xs : List Node,
    anyNL p (nl xs) = xs.any (anyN p)
  | [] => rfl
  | x :: xs => by simp [nl, anyNL, anyNL_nl p xs]

/-! Generic establishment: if the step function, applied to any node with
p-free children, yields a p-free result, then the bottom-up pass yields
a p-free tree on every input. -/

mutual

theorem anyN_mapBU (p : Node → Bool) (f : Node → Node)
    (hf : ∀ x, anyC p x = false → anyN p (f x) = false) :
    ∀ n : Node, anyN p (mapBU f n) = false
  | .ident s => by simpa [mapBU] using hf _ (by simp [anyC])
  | .strLit v => by simpa [mapBU] using hf _ (by simp [anyC])
  | .numLit v => by simpa [mapBU] using hf _ (by simp [anyC])
  | .nullLit => by simpa [mapBU] using hf _ (by simp [anyC])
  | .mkUndef => by simpa [mapBU] using hf _ (by simp [anyC])
  | .mkMissing => by simpa [mapBU] using hf _ (by simp [anyC])
  | .member obj prop => by
    simpa [mapBU] using hf _ (by simpa [anyC] using anyN_mapBU p f hf obj)
  | .call c args => by
    simpa [mapBU] using hf _
      (by simp [anyC, anyN_mapBU p f hf c, anyNL_mapBUL p f hf args])
  | .arrowFn ps body => by
    simpa [mapBU] using hf _ (by simpa [anyC] using anyNL_mapBUL p f hf body)
  | .funcExpr ps body => by
    simpa [mapBU] using hf _ (by simpa [anyC] using anyNL_mapBUL p f hf body)
  | .objectExpr props => by
    simpa [mapBU] using hf _ (by simpa [anyC] using anyNL_mapBUL p f hf props)
  | .objectProp k v => by
    simpa [mapBU] using hf _ (by simpa [anyC] using anyN_mapBU p f hf v)
  | .tsAs e ann => by
    simpa [mapBU] using hf _
      (by simp [anyC, anyN_mapBU p f hf e, anyN_mapBU p f hf ann])
  | .importDecl s => by simpa [mapBU] using hf _ (by simp [anyC])
  | .varDecl k n ty init => by
    simpa [mapBU] using hf _
      (by simp [anyC, anyN_mapBU p f hf ty, anyN_mapBU p f hf init])
  | .typeAlias n ty => by
    simpa [mapBU] using hf _ (by simpa [anyC] using anyN_mapBU p f hf ty)
  | .exprStmt e => by
    simpa [mapBU] using hf _ (by simpa [anyC] using anyN_mapBU p f hf e)
  | .typeRef n ta => by
    simpa [mapBU] using hf _ (by simpa [anyC] using anyN_mapBU p f hf ta)
  | .typeParamInst ps => by
    simpa [mapBU] using hf _ (by simpa [anyC] using anyNL_mapBUL p f hf ps)
  | .typeLit ms => by
    simpa [mapBU] using hf _ (by simpa [anyC] using anyNL_mapBUL p f hf ms)
  | .propSig k ty => by
    simpa [mapBU] using hf _ (by simpa [anyC] using anyN_mapBU p f hf ty)
  | .otherMember => by simpa [mapBU] using hf _ (by simp [anyC])
  | .numberKw => by simpa [mapBU] using hf _ (by simp [anyC])
  | .stringKw => by simpa [mapBU] using hf _ (by simp [anyC])

theorem anyNL_mapBUL (p : Node → Bool) (f : Node → Node)
    (hf : ∀ x, anyC p x = false → anyN p (f x) = false) :
    ∀ l : NodeList, anyNL p (mapBUL f l) = false
  | .nil => by simp [mapBUL, anyNL]
  | .cons h t => by
    simp [mapBUL, anyNL, anyN_mapBU p f hf h, anyNL_mapBUL p f hf t]

end

/-! Generic identity: if the step function fixes every node at which the
bad pattern p is absent from the whole subtree, then the bottom-up pass
fixes every p-free tree. -/

mutual

theorem mapBU_id (p : Node → Bool) (f : Node → Node)
    (hf : ∀ x, p x = false → anyC p x = false → f x = x) :
    ∀ n : Node, anyN p n = false → mapBU f n = n
  | .ident s, h => by simpa [mapBU] using hf _ (by simpa [anyN] using h) (by simp [anyC])
  | .strLit v, h => by simpa [mapBU] using hf _ (by simpa [anyN] using h) (by simp [anyC])
  | .numLit v, h => by simpa [mapBU] using hf _ (by simpa [anyN] using h) (by simp [anyC])
  | .nullLit, h => by simpa [mapBU] using hf _ (by simpa [anyN] using h) (by simp [anyC])
  | .mkUndef, h => by simpa [mapBU] using hf _ (by simpa [anyN] using h) (by simp [anyC])
  | .mkMissing, h => by simpa [mapBU] using hf _ (by simpa [anyN] using h) (by simp [anyC])
  | .member obj prop, h => by
    simp only [anyN, Bool.or_eq_false_iff] at h
    rw [mapBU, mapBU_id p f hf obj h.2]
    exact hf _ h.1 (by simpa [anyC] using h.2)
  | .call c args, h => by
    simp only [anyN, Bool.or_eq_false_iff] at h
    rw [mapBU, mapBU_id p f hf c h.1.2, mapBUL_id p f hf args h.2]
    exact hf _ h.1.1 (by simp [anyC, h.1.2, h.2])
  | .arrowFn ps body, h => by
    simp only [anyN, Bool.or_eq_false_iff] at h
    rw [mapBU, mapBUL_id p f hf body h.2]
    exact hf _ h.1 (by simpa [anyC] using h.2)
  | .funcExpr ps body, h => by
    simp only [anyN, Bool.or_eq_false_iff] at h
    rw [mapBU, mapBUL_id p f hf body h.2]
    exact hf _ h.1 (by simpa [anyC] using h.2)
  | .objectExpr props, h => by
    simp only [anyN, Bool.or_eq_false_iff] at h
    rw [mapBU, mapBUL_id p f hf props h.2]
    exact hf _ h.1 (by simpa [anyC] using h.2)
  | .objectProp k v, h => by
    simp only [anyN, Bool.or_eq_false_iff] at h
    rw [mapBU, mapBU_id p f hf v h.2]
    exact hf _ h.1 (by simpa [anyC] using h.2)
  | .tsAs e ann, h => by
    simp only [anyN, Bool.or_eq_false_iff] at h
    rw [mapBU, mapBU_id p f hf e h.1.2, mapBU_id p f hf ann h.2]
    exact hf _ h.1.1 (by simp [anyC, h.1.2, h.2])
  | .importDecl s, h => by
    simpa [mapBU] using hf _ (by simpa [anyN] using h) (by simp [anyC])
  | .varDecl k n ty init, h => by
    simp only [anyN, Bool.or_eq_false_iff] at h
    rw [mapBU, mapBU_id p f hf ty h.1.2, mapBU_id p f hf init h.2]
    exact hf _ h.1.1 (by simp [anyC, h.1.2, h.2])
  | .typeAlias n ty, h => by
    simp only [anyN, Bool.or_eq_false_iff] at h
    rw [mapBU, mapBU_id p f hf ty h.2]
    exact hf _ h.1 (by simpa [anyC] using h.2)
  | .exprStmt e, h => by
    simp only [anyN, Bool.or_eq_false_iff] at h
    rw [mapBU, mapBU_id p f hf e h.2]
    exact hf _ h.1 (by simpa [anyC] using h.2)
  | .typeRef n ta, h => by
    simp only [anyN, Bool.or_eq_false_iff] at h
    rw [mapBU, mapBU_id p f hf ta h.2]
    exact hf _ h.1 (by simpa [anyC] using h.2)
  | .typeParamInst ps, h => by
    simp only [anyN, Bool.or_eq_false_iff] at h
    rw [mapBU, mapBUL_id p f hf ps h.2]
    exact hf _ h.1 (by simpa [anyC] using h.2)
  | .typeLit ms, h => by
    simp only [anyN, Bool.or_eq_false_iff] at h
    rw [mapBU, mapBUL_id p f hf ms h.2]
    exact hf _ h.1 (by simpa [anyC] using h.2)
  | .propSig k ty, h => by
    simp only [anyN, Bool.or_eq_false_iff] at h
    rw [mapBU, mapBU_id p f hf ty h.2]
    exact hf _ h.1 (by simpa [anyC] using h.2)
  | .otherMember, h => by
    simpa [mapBU] using hf _ (by simpa [anyN] using h) (by simp [anyC])
  | .numberKw, h => by
    simpa [mapBU] using hf _ (by simpa [anyN] using h) (by simp [anyC])
  | .stringKw, h => by
    simpa [mapBU] using hf _ (by simpa [anyN] using h) (by simp [anyC])

theorem mapBUL_id (p : Node → Bool) (f : Node → Node)
    (hf : ∀ x, p x = false → anyC p x = false → f x = x) :
    ∀ l : NodeList, anyNL p l = false → mapBUL f l = l
  | .nil, _ => rfl
  | .cons h t, hl => by
    simp only [anyNL, Bool.or_eq_false_iff] at hl
    rw [mapBUL, mapBU_id p f hf h hl.1, mapBUL_id p f hf t hl.2]

end

/-! Generic preservation: a bad pattern absent from a tree stays absent
through a bottom-up pass when (a) the step maps pattern-free nodes with
pattern-free children to pattern-free trees and (b) rewriting the
children of a pattern-free node cannot make the pattern appear at it. -/

mutual

theorem anyN_mapBU_pres (p : Node → Bool) (f : Node → Node)
    (hstep : ∀ x, p x = false → anyC p x = false → anyN p (f x) = false)
    (hhead : ∀ x, p x = false → p (mapC (mapBU f) x) = false) :
    ∀ n : Node, anyN p n = false → anyN p (mapBU f n) = false
  | .ident s, h => by
    simpa [mapBU] using hstep _ (by simpa [anyN] using h) (by simp [anyC])
  | .strLit v, h => by
    simpa [mapBU] using hstep _ (by simpa [anyN] using h) (by simp [anyC])
  | .numLit v, h => by
    simpa [mapBU] using hstep _ (by simpa [anyN] using h) (by simp [anyC])
  | .nullLit, h => by
    simpa [mapBU] using hstep _ (by simpa [anyN] using h) (by simp [anyC])
  | .mkUndef, h => by
    simpa [mapBU] using hstep _ (by simpa [anyN] using h) (by simp [anyC])
  | .mkMissing, h => by
    simpa [mapBU] using hstep _ (by simpa [anyN] using h) (by simp [anyC])
  | .member obj prop, h => by
    simp only [anyN, Bool.or_eq_false_iff] at h
    have ih := anyN_mapBU_pres p f hstep hhead obj h.2
    have hh := hhead (.member obj prop) h.1
    simpa [mapBU] using hstep _ (by simpa [mapC] using hh) (by simpa [anyC] using ih)
  | .call c args, h => by
    simp only [anyN, Bool.or_eq_false_iff] at h
    have ih1 := anyN_mapBU_pres p f hstep hhead c h.1.2
    have ih2 := anyNL_mapBUL_pres p f hstep hhead args h.2
    have hh := hhead (.call c args) h.1.1
    simpa [mapBU] using hstep _ (by simpa [mapC, mapBUL_eq_nlMap] using hh)
      (by simp [anyC, ih1, ih2])
  | .arrowFn ps body, h => by
    simp only [anyN, Bool.or_eq_false_iff] at h
    have ih := anyNL_mapBUL_pres p f hstep hhead body h.2
    have hh := hhead (.arrowFn ps body) h.1
    simpa [mapBU] using hstep _ (by simpa [mapC, mapBUL_eq_nlMap] using hh)
      (by simpa [anyC] using ih)
  | .funcExpr ps body, h => by
    simp only [anyN, Bool.or_eq_false_iff] at h
    have ih := anyNL_mapBUL_pres p f hstep hhead body h.2
    have hh := hhead (.funcExpr ps body) h.1
    simpa [mapBU] using hstep _ (by simpa [mapC, mapBUL_eq_nlMap] using hh)
      (by simpa [anyC] using ih)
  | .objectExpr props, h => by
    simp only [anyN, Bool.or_eq_false_iff] at h
    have ih := anyNL_mapBUL_pres p f hstep hhead props h.2
    have hh := hhead (.objectExpr props) h.1
    simpa [mapBU] using hstep _ (by simpa [mapC, mapBUL_eq_nlMap] using hh)
      (by simpa [anyC] using ih)
  | .objectProp k v, h => by
    simp only [anyN, Bool.or_eq_false_iff] at h
    have ih := anyN_mapBU_pres p f hstep hhead v h.2
    have hh := hhead (.objectProp k v) h.1
    simpa [mapBU] using hstep _ (by simpa [mapC] using hh) (by simpa [anyC] using ih)
  | .tsAs e ann, h => by
    simp only [anyN, Bool.or_eq_false_iff] at h
    have ih1 := anyN_mapBU_pres p f hstep hhead e h.1.2
    have ih2 := anyN_mapBU_pres p f hstep hhead ann h.2
    have hh := hhead (.tsAs e ann) h.1.1
    simpa [mapBU] using hstep _ (by simpa [mapC] using hh) (by simp [anyC, ih1, ih2])
  | .importDecl s, h => by
    simpa [mapBU] using hstep _ (by simpa [anyN] using h) (by simp [anyC])
  | .varDecl k n ty init, h => by
    simp only [anyN, Bool.or_eq_false_iff] at h
    have ih1 := anyN_mapBU_pres p f hstep hhead ty h.1.2
    have ih2 := anyN_mapBU_pres p f hstep hhead init h.2
    have hh := hhead (.varDecl k n ty init) h.1.1
    simpa [mapBU] using hstep _ (by simpa [mapC] using hh) (by simp [anyC, ih1, ih2])
  | .typeAlias n ty, h => by
    simp only [anyN, Bool.or_eq_false_iff] at h
    have ih := anyN_mapBU_pres p f hstep hhead ty h.2
    have hh := hhead (.typeAlias n ty) h.1
    simpa [mapBU] using hstep _ (by simpa [mapC] using hh) (by simpa [anyC] using ih)
  | .exprStmt e, h => by
    simp only [anyN, Bool.or_eq_false_iff] at h
    have ih := anyN_mapBU_pres p f hstep hhead e h.2
    have hh := hhead (.exprStmt e) h.1
    simpa [mapBU] using hstep _ (by simpa [mapC] using hh) (by simpa [anyC] using ih)
  | .typeRef n ta, h => by
    simp only [anyN, Bool.or_eq_false_iff] at h
    have ih := anyN_mapBU_pres p f hstep hhead ta h.2
    have hh := hhead (.typeRef n ta) h.1
    simpa [mapBU] using hstep _ (by simpa [mapC] using hh) (by simpa [anyC] using ih)
  | .typeParamInst ps, h => by
    simp only [anyN, Bool.or_eq_false_iff] at h
    have ih := anyNL_mapBUL_pres p f hstep hhead ps h.2
    have hh := hhead (.typeParamInst ps) h.1
    simpa [mapBU] using hstep _ (by simpa [mapC, mapBUL_eq_nlMap] using hh)
      (by simpa [anyC] using ih)
  | .typeLit ms, h => by
    simp only [anyN, Bool.or_eq_false_iff] at h
    have ih := anyNL_mapBUL_pres p f hstep hhead ms h.2
    have hh := hhead (.typeLit ms) h.1
    simpa [mapBU] using hstep _ (by simpa [mapC, mapBUL_eq_nlMap] using hh)
      (by simpa [anyC] using ih)
  | .propSig k ty, h => by
    simp only [anyN, Bool.or_eq_false_iff] at h
    have ih := anyN_mapBU_pres p f hstep hhead ty h.2
    have hh := hhead (.propSig k ty) h.1
    simpa [mapBU] using hstep _ (by simpa [mapC] using hh) (by simpa [anyC] using ih)
  | .otherMember, h => by
    simpa [mapBU] using hstep _ (by simpa [anyN] using h) (by simp [anyC])
  | .numberKw, h => by
    simpa [mapBU] using hstep _ (by simpa [anyN] using h) (by simp [anyC])
  | .stringKw, h => by
    simpa [mapBU] using hstep _ (by simpa [anyN] using h) (by simp [anyC])

theorem anyNL_mapBUL_pres (p : Node → Bool) (f : Node → Node)
    (hstep : ∀ x, p x = false → anyC p x = false → anyN p (f x) = false)
    (hhead : ∀ x, p x = false → p (mapC (mapBU f) x) = false) :
    ∀ l : NodeList, anyNL p l = false → anyNL p (mapBUL f l) = false
  | .nil, _ => rfl
  | .cons h t, hl => by
    simp only [anyNL, Bool.or_eq_false_iff] at hl
    simp [mapBUL, anyNL, anyN_mapBU_pres p f hstep hhead h hl.1,
      anyNL_mapBUL_pres p f hstep hhead t hl.2]

end

/-! Counting subterm occurrences: relation to anyN, monotonicity,
additivity on disjoint patterns, and a self-occurrence bound. -/

mutual

theorem cntN_eq_zero (p : Node → Bool) :
    ∀ n : Node, (cntN p n = 0) = (anyN p n = false)
  | .ident s => by cases hp : p (.ident s) <;> simp [cntN, anyN, hp]
  | .strLit v => by cases hp : p (.strLit v) <;> simp [cntN, anyN, hp]
  | .numLit v => by cases hp : p (.numLit v) <;> simp [cntN, anyN, hp]
  | .nullLit => by cases hp : p .nullLit <;> simp [cntN, anyN, hp]
  | .mkUndef => by cases hp : p .mkUndef <;> simp [cntN, anyN, hp]
  | .mkMissing => by cases hp : p .mkMissing <;> simp [cntN, anyN, hp]
  | .member obj prop => by
    cases hp : p (.member obj prop) <;>
      simp [cntN, anyN, hp, cntN_eq_zero p obj]
  | .call c args => by
    cases hp : p (.call c args) <;>
      simp [cntN, anyN, hp, cntN_eq_zero p c, cntNL_eq_zero p args]
  | .arrowFn ps body => by
    cases hp : p (.arrowFn ps body) <;>
      simp [cntN, anyN, hp, cntNL_eq_zero p body]
  | .funcExpr ps body => by
    cases hp : p (.funcExpr ps body) <;>
      simp [cntN, anyN, hp, cntNL_eq_zero p body]
  | .objectExpr props => by
    cases hp : p (.objectExpr props) <;>
      simp [cntN, anyN, hp, cntNL_eq_zero p props]
  | .objectProp k v => by
    cases hp : p (.objectProp k v) <;> simp [cntN, anyN, hp, cntN_eq_zero p v]
  | .tsAs e ann => by
    cases hp : p (.tsAs e ann) <;>
      simp [cntN, anyN, hp, cntN_eq_zero p e, cntN_eq_zero p ann]
  | .importDecl s => by cases hp : p (.importDecl s) <;> simp [cntN, anyN, hp]
  | .varDecl k n ty init => by
    cases hp : p (.varDecl k n ty init) <;>
      simp [cntN, anyN, hp, cntN_eq_zero p ty, cntN_eq_zero p init]
  | .typeAlias n ty => by
    cases hp : p (.typeAlias n ty) <;> simp [cntN, anyN, hp, cntN_eq_zero p ty]
  | .exprStmt e => by
    cases hp : p (.exprStmt e) <;> simp [cntN, anyN, hp, cntN_eq_zero p e]
  | .typeRef n ta => by
    cases hp : p (.typeRef n ta) <;> simp [cntN, anyN, hp, cntN_eq_zero p ta]
  | .typeParamInst ps => by
    cases hp : p (.typeParamInst ps) <;>
      simp [cntN, anyN, hp, cntNL_eq_zero p ps]
  | .typeLit ms => by
    cases hp : p (.typeLit ms) <;> simp [cntN, anyN, hp, cntNL_eq_zero p ms]
  | .propSig k ty => by
    cases hp : p (.propSig k ty) <;> simp [cntN, anyN, hp, cntN_eq_zero p ty]
  | .otherMember => by cases hp : p .otherMember <;> simp [cntN, anyN, hp]
  | .numberKw => by cases hp : p .numberKw <;> simp [cntN, anyN, hp]
  | .stringKw => by cases hp : p .stringKw <;> simp [cntN, anyN, hp]

theorem cntNL_eq_zero (p : Node → Bool) :
    ∀ l : NodeList, (cntNL p l = 0) = (anyNL p l = false)
  | .nil => by simp [cntNL, anyNL]
  | .cons h t => by
    simp [cntNL, anyNL, cntN_eq_zero p h, cntNL_eq_zero p t]

end

theorem le_cntN_self (p : Node → Bool) (n : Node) (hp : p n = true) :
    1 ≤ cntN p n := by
  cases n <;> simp [cntN, hp] <;> omega

theorem ite_le_ite (a b : Bool) (h : a = true → b = true) :
    (if a then (1 : Nat) else 0) ≤ (if b then 1 else 0) := by
  cases a with
  | false => simp
  | true => simp [h rfl]

theorem ite_or_disj (a b : Bool) (hd : ¬(a = true ∧ b = true)) :
    (if (a || b) then (1 : Nat) else 0) = (if a then 1 else 0) + (if b then 1 else 0) := by
  cases a <;> cases b <;> simp_all

mutual

theorem cntN_mono (p q : Node → Bool) (h : ∀ x, p x = true → q x = true) :
    ∀ n : Node, cntN p n ≤ cntN q n
  | .ident s => ite_le_ite _ _ (h _)
  | .strLit v => ite_le_ite _ _ (h _)
  | .numLit v => ite_le_ite _ _ (h _)
  | .nullLit => ite_le_ite _ _ (h _)
  | .mkUndef => ite_le_ite _ _ (h _)
  | .mkMissing => ite_le_ite _ _ (h _)
  | .member obj prop => by
    have h0 := ite_le_ite (p (.member obj prop)) (q (.member obj prop)) (h _)
    have h1 := cntN_mono p q h obj
    simp only [cntN]; omega
  | .call c args => by
    have h0 := ite_le_ite (p (.call c args)) (q (.call c args)) (h _)
    have h1 := cntN_mono p q h c
    have h2 := cntNL_mono p q h args
    simp only [cntN]; omega
  | .arrowFn ps body => by
    have h0 := ite_le_ite (p (.arrowFn ps body)) (q (.arrowFn ps body)) (h _)
    have h1 := cntNL_mono p q h body
    simp only [cntN]; omega
  | .funcExpr ps body => by
    have h0 := ite_le_ite (p (.funcExpr ps body)) (q (.funcExpr ps body)) (h _)
    have h1 := cntNL_mono p q h body
    simp only [cntN]; omega
  | .objectExpr props => by
    have h0 := ite_le_ite (p (.objectExpr props)) (q (.objectExpr props)) (h _)
    have h1 := cntNL_mono p q h props
    simp only [cntN]; omega
  | .objectProp k v => by
    have h0 := ite_le_ite (p (.objectProp k v)) (q (.objectProp k v)) (h _)
    have h1 := cntN_mono p q h v
    simp only [cntN]; omega
  | .tsAs e ann => by
    have h0 := ite_le_ite (p (.tsAs e ann)) (q (.tsAs e ann)) (h _)
    have h1 := cntN_mono p q h e
    have h2 := cntN_mono p q h ann
    simp only [cntN]; omega
  | .importDecl s => ite_le_ite _ _ (h _)
  | .varDecl k n ty init => by
    have h0 := ite_le_ite (p (.varDecl k n ty init)) (q (.varDecl k n ty init)) (h _)
    have h1 := cntN_mono p q h ty
    have h2 := cntN_mono p q h init
    simp only [cntN]; omega
  | .typeAlias n ty => by
    have h0 := ite_le_ite (p (.typeAlias n ty)) (q (.typeAlias n ty)) (h _)
    have h1 := cntN_mono p q h ty
    simp only [cntN]; omega
  | .exprStmt e => by
    have h0 := ite_le_ite (p (.exprStmt e)) (q (.exprStmt e)) (h _)
    have h1 := cntN_mono p q h e
    simp only [cntN]; omega
  | .typeRef n ta => by
    have h0 := ite_le_ite (p (.typeRef n ta)) (q (.typeRef n ta)) (h _)
    have h1 := cntN_mono p q h ta
    simp only [cntN]; omega
  | .typeParamInst ps => by
    have h0 := ite_le_ite (p (.typeParamInst ps)) (q (.typeParamInst ps)) (h _)
    have h1 := cntNL_mono p q h ps
    simp only [cntN]; omega
  | .typeLit ms => by
    have h0 := ite_le_ite (p (.typeLit ms)) (q (.typeLit ms)) (h _)
    have h1 := cntNL_mono p q h ms
    simp only [cntN]; omega
  | .propSig k ty => by
    have h0 := ite_le_ite (p (.propSig k ty)) (q (.propSig k ty)) (h _)
    have h1 := cntN_mono p q h ty
    simp only [cntN]; omega
  | .otherMember => ite_le_ite _ _ (h _)
  | .numberKw => ite_le_ite _ _ (h _)
  | .stringKw => ite_le_ite _ _ (h _)

theorem cntNL_mono (p q : Node → Bool) (h : ∀ x, p x = true → q x = true) :
    ∀ l : NodeList, cntNL p l ≤ cntNL q l
  | .nil => le_refl _
  | .cons hd t => by
    have h1 := cntN_mono p q h hd
    have h2 := cntNL_mono p q h t
    simp only [cntNL]; omega

end

mutual

theorem cntN_add_disj (p q : Node → Bool) (h : ∀ x, ¬(p x = true ∧ q x = true)) :
    ∀ n : Node, cntN (fun x => p x || q x) n = cntN p n + cntN q n
  | .ident s => ite_or_disj _ _ (h _)
  | .strLit v => ite_or_disj _ _ (h _)
  | .numLit v => ite_or_disj _ _ (h _)
  | .nullLit => ite_or_disj _ _ (h _)
  | .mkUndef => ite_or_disj _ _ (h _)
  | .mkMissing => ite_or_disj _ _ (h _)
  | .member obj prop => by
    have h0 := ite_or_disj (p (.member obj prop)) (q (.member obj prop)) (h _)
    have h1 := cntN_add_disj p q h obj
    simp only [cntN]; omega
  | .call c args => by
    have h0 := ite_or_disj (p (.call c args)) (q (.call c args)) (h _)
    have h1 := cntN_add_disj p q h c
    have h2 := cntNL_add_disj p q h args
    simp only [cntN]; omega
  | .arrowFn ps body => by
    have h0 := ite_or_disj (p (.arrowFn ps body)) (q (.arrowFn ps body)) (h _)
    have h1 := cntNL_add_disj p q h body
    simp only [cntN]; omega
  | .funcExpr ps body => by
    have h0 := ite_or_disj (p (.funcExpr ps body)) (q (.funcExpr ps body)) (h _)
    have h1 := cntNL_add_disj p q h body
    simp only [cntN]; omega
  | .objectExpr props => by
    have h0 := ite_or_disj (p (.objectExpr props)) (q (.objectExpr props)) (h _)
    have h1 := cntNL_add_disj p q h props
    simp only [cntN]; omega
  | .objectProp k v => by
    have h0 := ite_or_disj (p (.objectProp k v)) (q (.objectProp k v)) (h _)
    have h1 := cntN_add_disj p q h v
    simp only [cntN]; omega
  | .tsAs e ann => by
    have h0 := ite_or_disj (p (.tsAs e ann)) (q (.tsAs e ann)) (h _)
    have h1 := cntN_add_disj p q h e
    have h2 := cntN_add_disj p q h ann
    simp only [cntN]; omega
  | .importDecl s => ite_or_disj _ _ (h _)
  | .varDecl k n ty init => by
    have h0 := ite_or_disj (p (.varDecl k n ty init)) (q (.varDecl k n ty init)) (h _)
    have h1 := cntN_add_disj p q h ty
    have h2 := cntN_add_disj p q h init
    simp only [cntN]; omega
  | .typeAlias n ty => by
    have h0 := ite_or_disj (p (.typeAlias n ty)) (q (.typeAlias n ty)) (h _)
    have h1 := cntN_add_disj p q h ty
    simp only [cntN]; omega
  | .exprStmt e => by
    have h0 := ite_or_disj (p (.exprStmt e)) (q (.exprStmt e)) (h _)
    have h1 := cntN_add_disj p q h e
    simp only [cntN]; omega
  | .typeRef n ta => by
    have h0 := ite_or_disj (p (.typeRef n ta)) (q (.typeRef n ta)) (h _)
    have h1 := cntN_add_disj p q h ta
    simp only [cntN]; omega
  | .typeParamInst ps => by
    have h0 := ite_or_disj (p (.typeParamInst ps)) (q (.typeParamInst ps)) (h _)
    have h1 := cntNL_add_disj p q h ps
    simp only [cntN]; omega
  | .typeLit ms => by
    have h0 := ite_or_disj (p (.typeLit ms)) (q (.typeLit ms)) (h _)
    have h1 := cntNL_add_disj p q h ms
    simp only [cntN]; omega
  | .propSig k ty => by
    have h0 := ite_or_disj (p (.propSig k ty)) (q (.propSig k ty)) (h _)
    have h1 := cntN_add_disj p q h ty
    simp only [cntN]; omega
  | .otherMember => ite_or_disj _ _ (h _)
  | .numberKw => ite_or_disj _ _ (h _)
  | .stringKw => ite_or_disj _ _ (h _)

theorem cntNL_add_disj (p q : Node → Bool) (h : ∀ x, ¬(p x = true ∧ q x = true)) :
    ∀ l : NodeList, cntNL (fun x => p x || q x) l = cntNL p l + cntNL q l
  | .nil => rfl
  | .cons hd t => by
    have h1 := cntN_add_disj p q h hd
    have h2 := cntNL_add_disj p q h t
    simp only [cntNL]; omega

end

/-! Properties of the pre-order search findN: its success mirrors anyN,
a found node satisfies the pattern, occurs in the tree, and carries no
more occurrences of any pattern than the whole tree. -/

mutual

theorem findN_isSome (p : Node → Bool) :
    ∀ n : Node, (findN p n).isSome = anyN p n
  | .ident s => by cases hp : p (.ident s) <;> simp [findN, anyN, hp]
  | .strLit v => by cases hp : p (.strLit v) <;> simp [findN, anyN, hp]
  | .numLit v => by cases hp : p (.numLit v) <;> simp [findN, anyN, hp]
  | .nullLit => by cases hp : p .nullLit <;> simp [findN, anyN, hp]
  | .mkUndef => by cases hp : p .mkUndef <;> simp [findN, anyN, hp]
  | .mkMissing => by cases hp : p .mkMissing <;> simp [findN, anyN, hp]
  | .member obj prop => by
    cases hp : p (.member obj prop) <;>
      simp [findN, anyN, hp, findN_isSome p obj]
  | .call c args => by
    cases hp : p (.call c args) <;>
      simp [findN, anyN, hp, oor_isSome, findN_isSome p c, findNL_isSome p args,
        Bool.or_assoc]
  | .arrowFn ps body => by
    cases hp : p (.arrowFn ps body) <;>
      simp [findN, anyN, hp, findNL_isSome p body]
  | .funcExpr ps body => by
    cases hp : p (.funcExpr ps body) <;>
      simp [findN, anyN, hp, findNL_isSome p body]
  | .objectExpr props => by
    cases hp : p (.objectExpr props) <;>
      simp [findN, anyN, hp, findNL_isSome p props]
  | .objectProp k v => by
    cases hp : p (.objectProp k v) <;> simp [findN, anyN, hp, findN_isSome p v]
  | .tsAs e ann => by
    cases hp : p (.tsAs e ann) <;>
      simp [findN, anyN, hp, oor_isSome, findN_isSome p e, findN_isSome p ann,
        Bool.or_assoc]
  | .importDecl s => by cases hp : p (.importDecl s) <;> simp [findN, anyN, hp]
  | .varDecl k n ty init => by
    cases hp : p (.varDecl k n ty init) <;>
      simp [findN, anyN, hp, oor_isSome, findN_isSome p ty, findN_isSome p init,
        Bool.or_assoc]
  | .typeAlias n ty => by
    cases hp : p (.typeAlias n ty) <;> simp [findN, anyN, hp, findN_isSome p ty]
  | .exprStmt e => by
    cases hp : p (.exprStmt e) <;> simp [findN, anyN, hp, findN_isSome p e]
  | .typeRef n ta => by
    cases hp : p (.typeRef n ta) <;> simp [findN, anyN, hp, findN_isSome p ta]
  | .typeParamInst ps => by
    cases hp : p (.typeParamInst ps) <;>
      simp [findN, anyN, hp, findNL_isSome p ps]
  | .typeLit ms => by
    cases hp : p (.typeLit ms) <;> simp [findN, anyN, hp, findNL_isSome p ms]
  | .propSig k ty => by
    cases hp : p (.propSig k ty) <;> simp [findN, anyN, hp, findN_isSome p ty]
  | .otherMember => by cases hp : p .otherMember <;> simp [findN, anyN, hp]
  | .numberKw => by cases hp : p .numberKw <;> simp [findN, anyN, hp]
  | .stringKw => by cases hp : p .stringKw <;> simp [findN, anyN, hp]

theorem findNL_isSome (p : Node → Bool) :
    ∀ l : NodeList, (findNL p l).isSome = anyNL p l
  | .nil => rfl
  | .cons h t => by
    simp [findNL, anyNL, oor_isSome, findN_isSome p h, findNL_isSome p t]

end

theorem findN_none (p : Node → Bool) (n : Node) :
    (findN p n = none) ↔ (anyN p n = false) := by
  have h := findN_isSome p n
  cases hf : findN p n <;> rw [hf] at h <;> simp_all

theorem findNL_none (p : Node → Bool) (l : NodeList) :
    (findNL p l = none) ↔ (anyNL p l = false) := by
  have h := findNL_isSome p l
  cases hf : findNL p l <;> rw [hf] at h <;> simp_all

mutual

theorem findN_some_p (p : Node → Bool) :
    ∀ (n d : Node), findN p n = some d → p d = true
  | .ident s, d, h => by
    by_cases hp : p (.ident s) = true
    · rw [findN, if_pos hp] at h; injection h with h2; subst h2; exact hp
    · rw [findN, if_neg hp] at h; exact Option.noConfusion h
  | .strLit v, d, h => by
    by_cases hp : p (.strLit v) = true
    · rw [findN, if_pos hp] at h; injection h with h2; subst h2; exact hp
    · rw [findN, if_neg hp] at h; exact Option.noConfusion h
  | .numLit v, d, h => by
    by_cases hp : p (.numLit v) = true
    · rw [findN, if_pos hp] at h; injection h with h2; subst h2; exact hp
    · rw [findN, if_neg hp] at h; exact Option.noConfusion h
  | .nullLit, d, h => by
    by_cases hp : p .nullLit = true
    · rw [findN, if_pos hp] at h; injection h with h2; subst h2; exact hp
    · rw [findN, if_neg hp] at h; exact Option.noConfusion h
  | .mkUndef, d, h => by
    by_cases hp : p .mkUndef = true
    · rw [findN, if_pos hp] at h; injection h with h2; subst h2; exact hp
    · rw [findN, if_neg hp] at h; exact Option.noConfusion h
  | .mkMissing, d, h => by
    by_cases hp : p .mkMissing = true
    · rw [findN, if_pos hp] at h; injection h with h2; subst h2; exact hp
    · rw [findN, if_neg hp] at h; exact Option.noConfusion h
  | .member obj prop, d, h => by
    by_cases hp : p (.member obj prop) = true
    · rw [findN, if_pos hp] at h; injection h with h2; subst h2; exact hp
    · rw [findN, if_neg hp] at h; exact findN_some_p p obj d h
  | .call c args, d, h => by
    by_cases hp : p (.call c args) = true
    · rw [findN, if_pos hp] at h; injection h with h2; subst h2; exact hp
    · rw [findN, if_neg hp, oor_eq_some] at h
      rcases h with h | ⟨_, h⟩
      · exact findN_some_p p c d h
      · exact findNL_some_p p args d h
  | .arrowFn ps body, d, h => by
    by_cases hp : p (.arrowFn ps body) = true
    · rw [findN, if_pos hp] at h; injection h with h2; subst h2; exact hp
    · rw [findN, if_neg hp] at h; exact findNL_some_p p body d h
  | .funcExpr ps body, d, h => by
    by_cases hp : p (.funcExpr ps body) = true
    · rw [findN, if_pos hp] at h; injection h with h2; subst h2; exact hp
    · rw [findN, if_neg hp] at h; exact findNL_some_p p body d h
  | .objectExpr props, d, h => by
    by_cases hp : p (.objectExpr props) = true
    · rw [findN, if_pos hp] at h; injection h with h2; subst h2; exact hp
    · rw [findN, if_neg hp] at h; exact findNL_some_p p props d h
  | .objectProp k v, d, h => by
    by_cases hp : p (.objectProp k v) = true
    · rw [findN, if_pos hp] at h; injection h with h2; subst h2; exact hp
    · rw [findN, if_neg hp] at h; exact findN_some_p p v d h
  | .tsAs e ann, d, h => by
    by_cases hp : p (.tsAs e ann) = true
    · rw [findN, if_pos hp] at h; injection h with h2; subst h2; exact hp
    · rw [findN, if_neg hp, oor_eq_some] at h
      rcases h with h | ⟨_, h⟩
      · exact findN_some_p p e d h
      · exact findN_some_p p ann d h
  | .importDecl s, d, h => by
    by_cases hp : p (.importDecl s) = true
    · rw [findN, if_pos hp] at h; injection h with h2; subst h2; exact hp
    · rw [findN, if_neg hp] at h; exact Option.noConfusion h
  | .varDecl k n ty init, d, h => by
    by_cases hp : p (.varDecl k n ty init) = true
    · rw [findN, if_pos hp] at h; injection h with h2; subst h2; exact hp
    · rw [findN, if_neg hp, oor_eq_some] at h
      rcases h with h | ⟨_, h⟩
      · exact findN_some_p p ty d h
      · exact findN_some_p p init d h
  | .typeAlias n ty, d, h => by
    by_cases hp : p (.typeAlias n ty) = true
    · rw [findN, if_pos hp] at h; injection h with h2; subst h2; exact hp
    · rw [findN, if_neg hp] at h; exact findN_some_p p ty d h
  | .exprStmt e, d, h => by
    by_cases hp : p (.exprStmt e) = true
    · rw [findN, if_pos hp] at h; injection h with h2; subst h2; exact hp
    · rw [findN, if_neg hp] at h; exact findN_some_p p e d h
  | .typeRef n ta, d, h => by
    by_cases hp : p (.typeRef n ta) = true
    · rw [findN, if_pos hp] at h; injection h with h2; subst h2; exact hp
    · rw [findN, if_neg hp] at h; exact findN_some_p p ta d h
  | .typeParamInst ps, d, h => by
    by_cases hp : p (.typeParamInst ps) = true
    · rw [findN, if_pos hp] at h; injection h with h2; subst h2; exact hp
    · rw [findN, if_neg hp] at h; exact findNL_some_p p ps d h
  | .typeLit ms, d, h => by
    by_cases hp : p (.typeLit ms) = true
    · rw [findN, if_pos hp] at h; injection h with h2; subst h2; exact hp
    · rw [findN, if_neg hp] at h; exact findNL_some_p p ms d h
  | .propSig k ty, d, h => by
    by_cases hp : p (.propSig k ty) = true
    · rw [findN, if_pos hp] at h; injection h with h2; subst h2; exact hp
    · rw [findN, if_neg hp] at h; exact findN_some_p p ty d h
  | .otherMember, d, h => by
    by_cases hp : p .otherMember = true
    · rw [findN, if_pos hp] at h; injection h with h2; subst h2; exact hp
    · rw [findN, if_neg hp] at h; exact Option.noConfusion h
  | .numberKw, d, h => by
    by_cases hp : p .numberKw = true
    · rw [findN, if_pos hp] at h; injection h with h2; subst h2; exact hp
    · rw [findN, if_neg hp] at h; exact Option.noConfusion h
  | .stringKw, d, h => by
    by_cases hp : p .stringKw = true
    · rw [findN, if_pos hp] at h; injection h with h2; subst h2; exact hp
    · rw [findN, if_neg hp] at h; exact Option.noConfusion h

theorem findNL_some_p (p : Node → Bool) :
    ∀ (l : NodeList) (d : Node), findNL p l = some d → p d = true
  | .cons hd t, d, h => by
    rw [findNL, oor_eq_some] at h
    rcases h with h | ⟨_, h⟩
    · exact findN_some_p p hd d h
    · exact findNL_some_p p t d h

end

theorem anyN_self (q : Node → Bool) (n : Node) (h : q n = true) :
    anyN q n = true := by
  rw [anyN_eq, h, Bool.true_or]

mutual

theorem findN_occ (p : Node → Bool) :
    ∀ (n d : Node), findN p n = some d →
      (∀ q : Node → Bool, q d = true → anyN q n = true) ∧
      (∀ q : Node → Bool, cntN q d ≤ cntN q n)
  | .ident s, d, h => by
    by_cases hp : p (.ident s) = true
    · rw [findN, if_pos hp] at h; injection h with h2; subst h2
      exact ⟨fun q hq => anyN_self q _ hq, fun q => le_refl _⟩
    · rw [findN, if_neg hp] at h; exact Option.noConfusion h
  | .strLit v, d, h => by
    by_cases hp : p (.strLit v) = true
    · rw [findN, if_pos hp] at h; injection h with h2; subst h2
      exact ⟨fun q hq => anyN_self q _ hq, fun q => le_refl _⟩
    · rw [findN, if_neg hp] at h; exact Option.noConfusion h
  | .numLit v, d, h => by
    by_cases hp : p (.numLit v) = true
    · rw [findN, if_pos hp] at h; injection h with h2; subst h2
      exact ⟨fun q hq => anyN_self q _ hq, fun q => le_refl _⟩
    · rw [findN, if_neg hp] at h; exact Option.noConfusion h
  | .nullLit, d, h => by
    by_cases hp : p .nullLit = true
    · rw [findN, if_pos hp] at h; injection h with h2; subst h2
      exact ⟨fun q hq => anyN_self q _ hq, fun q => le_refl _⟩
    · rw [findN, if_neg hp] at h; exact Option.noConfusion h
  | .mkUndef, d, h => by
    by_cases hp : p .mkUndef = true
    · rw [findN, if_pos hp] at h; injection h with h2; subst h2
      exact ⟨fun q hq => anyN_self q _ hq, fun q => le_refl _⟩
    · rw [findN, if_neg hp] at h; exact Option.noConfusion h
  | .mkMissing, d, h => by
    by_cases hp : p .mkMissing = true
    · rw [findN, if_pos hp] at h; injection h with h2; subst h2
      exact ⟨fun q hq => anyN_self q _ hq, fun q => le_refl _⟩
    · rw [findN, if_neg hp] at h; exact Option.noConfusion h
  | .member obj prop, d, h => by
    by_cases hp : p (.member obj prop) = true
    · rw [findN, if_pos hp] at h; injection h with h2; subst h2
      exact ⟨fun q hq => anyN_self q _ hq, fun q => le_refl _⟩
    · rw [findN, if_neg hp] at h
      have ih := findN_occ p obj d h
      refine ⟨fun q hq => by simp [anyN, ih.1 q hq], fun q => ?_⟩
      have := ih.2 q; simp only [cntN]; omega
  | .call c args, d, h => by
    by_cases hp : p (.call c args) = true
    · rw [findN, if_pos hp] at h; injection h with h2; subst h2
      exact ⟨fun q hq => anyN_self q _ hq, fun q => le_refl _⟩
    · rw [findN, if_neg hp, oor_eq_some] at h
      rcases h with h | ⟨_, h⟩
      · have ih := findN_occ p c d h
        refine ⟨fun q hq => by simp [anyN, ih.1 q hq], fun q => ?_⟩
        have := ih.2 q; simp only [cntN]; omega
      · have ih := findNL_occ p args d h
        refine ⟨fun q hq => by simp [anyN, ih.1 q hq], fun q => ?_⟩
        have := ih.2 q; simp only [cntN]; omega
  | .arrowFn ps body, d, h => by
    by_cases hp : p (.arrowFn ps body) = true
    · rw [findN, if_pos hp] at h; injection h with h2; subst h2
      exact ⟨fun q hq => anyN_self q _ hq, fun q => le_refl _⟩
    · rw [findN, if_neg hp] at h
      have ih := findNL_occ p body d h
      refine ⟨fun q hq => by simp [anyN, ih.1 q hq], fun q => ?_⟩
      have := ih.2 q; simp only [cntN]; omega
  | .funcExpr ps body, d, h => by
    by_cases hp : p (.funcExpr ps body) = true
    · rw [findN, if_pos hp] at h; injection h with h2; subst h2
      exact ⟨fun q hq => anyN_self q _ hq, fun q => le_refl _⟩
    · rw [findN, if_neg hp] at h
      have ih := findNL_occ p body d h
      refine ⟨fun q hq => by simp [anyN, ih.1 q hq], fun q => ?_⟩
      have := ih.2 q; simp only [cntN]; omega
  | .objectExpr props, d, h => by
    by_cases hp : p (.objectExpr props) = true
    · rw [findN, if_pos hp] at h; injection h with h2; subst h2
      exact ⟨fun q hq => anyN_self q _ hq, fun q => le_refl _⟩
    · rw [findN, if_neg hp] at h
      have ih := findNL_occ p props d h
      refine ⟨fun q hq => by simp [anyN, ih.1 q hq], fun q => ?_⟩
      have := ih.2 q; simp only [cntN]; omega
  | .objectProp k v, d, h => by
    by_cases hp : p (.objectProp k v) = true
    · rw [findN, if_pos hp] at h; injection h with h2; subst h2
      exact ⟨fun q hq => anyN_self q _ hq, fun q => le_refl _⟩
    · rw [findN, if_neg hp] at h
      have ih := findN_occ p v d h
      refine ⟨fun q hq => by simp [anyN, ih.1 q hq], fun q => ?_⟩
      have := ih.2 q; simp only [cntN]; omega
  | .tsAs e ann, d, h => by
    by_cases hp : p (.tsAs e ann) = true
    · rw [findN, if_pos hp] at h; injection h with h2; subst h2
      exact ⟨fun q hq => anyN_self q _ hq, fun q => le_refl _⟩
    · rw [findN, if_neg hp, oor_eq_some] at h
      rcases h with h | ⟨_, h⟩
      · have ih := findN_occ p e d h
        refine ⟨fun q hq => by simp [anyN, ih.1 q hq], fun q => ?_⟩
        have := ih.2 q; simp only [cntN]; omega
      · have ih := findN_occ p ann d h
        refine ⟨fun q hq => by simp [anyN, ih.1 q hq], fun q => ?_⟩
        have := ih.2 q; simp only [cntN]; omega
  | .importDecl s, d, h => by
    by_cases hp : p (.importDecl s) = true
    · rw [findN, if_pos hp] at h; injection h with h2; subst h2
      exact ⟨fun q hq => anyN_self q _ hq, fun q => le_refl _⟩
    · rw [findN, if_neg hp] at h; exact Option.noConfusion h
  | .varDecl k n ty init, d, h => by
    by_cases hp : p (.varDecl k n ty init) = true
    · rw [findN, if_pos hp] at h; injection h with h2; subst h2
      exact ⟨fun q hq => anyN_self q _ hq, fun q => le_refl _⟩
    · rw [findN, if_neg hp, oor_eq_some] at h
      rcases h with h | ⟨_, h⟩
      · have ih := findN_occ p ty d h
        refine ⟨fun q hq => by simp [anyN, ih.1 q hq], fun q => ?_⟩
        have := ih.2 q; simp only [cntN]; omega
      · have ih := findN_occ p init d h
        refine ⟨fun q hq => by simp [anyN, ih.1 q hq], fun q => ?_⟩
        have := ih.2 q; simp only [cntN]; omega
  | .typeAlias n ty, d, h => by
    by_cases hp : p (.typeAlias n ty) = true
    · rw [findN, if_pos hp] at h; injection h with h2; subst h2
      exact ⟨fun q hq => anyN_self q _ hq, fun q => le_refl _⟩
    · rw [findN, if_neg hp] at h
      have ih := findN_occ p ty d h
      refine ⟨fun q hq => by simp [anyN, ih.1 q hq], fun q => ?_⟩
      have := ih.2 q; simp only [cntN]; omega
  | .exprStmt e, d, h => by
    by_cases hp : p (.exprStmt e) = true
    · rw [findN, if_pos hp] at h; injection h with h2; subst h2
      exact ⟨fun q hq => anyN_self q _ hq, fun q => le_refl _⟩
    · rw [findN, if_neg hp] at h
      have ih := findN_occ p e d h
      refine ⟨fun q hq => by simp [anyN, ih.1 q hq], fun q => ?_⟩
      have := ih.2 q; simp only [cntN]; omega
  | .typeRef n ta, d, h => by
    by_cases hp : p (.typeRef n ta) = true
    · rw [findN, if_pos hp] at h; injection h with h2; subst h2
      exact ⟨fun q hq => anyN_self q _ hq, fun q => le_refl _⟩
    · rw [findN, if_neg hp] at h
      have ih := findN_occ p ta d h
      refine ⟨fun q hq => by simp [anyN, ih.1 q hq], fun q => ?_⟩
      have := ih.2 q; simp only [cntN]; omega
  | .typeParamInst ps, d, h => by
    by_cases hp : p (.typeParamInst ps) = true
    · rw [findN, if_pos hp] at h; injection h with h2; subst h2
      exact ⟨fun q hq => anyN_self q _ hq, fun q => le_refl _⟩
    · rw [findN, if_neg hp] at h
      have ih := findNL_occ p ps d h
      refine ⟨fun q hq => by simp [anyN, ih.1 q hq], fun q => ?_⟩
      have := ih.2 q; simp only [cntN]; omega
  | .typeLit ms, d, h => by
    by_cases hp : p (.typeLit ms) = true
    · rw [findN, if_pos hp] at h; injection h with h2; subst h2
      exact ⟨fun q hq => anyN_self q _ hq, fun q => le_refl _⟩
    · rw [findN, if_neg hp] at h
      have ih := findNL_occ p ms d h
      refine ⟨fun q hq => by simp [anyN, ih.1 q hq], fun q => ?_⟩
      have := ih.2 q; simp only [cntN]; omega
  | .propSig k ty, d, h => by
    by_cases hp : p (.propSig k ty) = true
    · rw [findN, if_pos hp] at h; injection h with h2; subst h2
      exact ⟨fun q hq => anyN_self q _ hq, fun q => le_refl _⟩
    · rw [findN, if_neg hp] at h
      have ih := findN_occ p ty d h
      refine ⟨fun q hq => by simp [anyN, ih.1 q hq], fun q => ?_⟩
      have := ih.2 q; simp only [cntN]; omega
  | .otherMember, d, h => by
    by_cases hp : p .otherMember = true
    · rw [findN, if_pos hp] at h; injection h with h2; subst h2
      exact ⟨fun q hq => anyN_self q _ hq, fun q => le_refl _⟩
    · rw [findN, if_neg hp] at h; exact Option.noConfusion h
  | .numberKw, d, h => by
    by_cases hp : p .numberKw = true
    · rw [findN, if_pos hp] at h; injection h with h2; subst h2
      exact ⟨fun q hq => anyN_self q _ hq, fun q => le_refl _⟩
    · rw [findN, if_neg hp] at h; exact Option.noConfusion h
  | .stringKw, d, h => by
    by_cases hp : p .stringKw = true
    · rw [findN, if_pos hp] at h; injection h with h2; subst h2
      exact ⟨fun q hq => anyN_self q _ hq, fun q => le_refl _⟩
    · rw [findN, if_neg hp] at h; exact Option.noConfusion h

theorem findNL_occ (p : Node → Bool) :
    ∀ (l : NodeList) (d : Node), findNL p l = some d →
      (∀ q : Node → Bool, q d = true → anyNL q l = true) ∧
      (∀ q : Node → Bool, cntN q d ≤ cntNL q l)
  | .cons hd t, d, h => by
    rw [findNL, oor_eq_some] at h
    rcases h with h | ⟨_, h⟩
    · have ih := findN_occ p hd d h
      refine ⟨fun q hq => by simp [anyNL, ih.1 q hq], fun q => ?_⟩
      have := ih.2 q; simp only [cntNL]; omega
    · have ih := findNL_occ p t d h
      refine ⟨fun q hq => by simp [anyNL, ih.1 q hq], fun q => ?_⟩
      have := ih.2 q; simp only [cntNL]; omega

end

/-! Unfolding lemmas for the assertion pass at a matched call site, and
small facts about the rule table. -/

theorem notMapped_of_map (prop dest : String) (h : tPropertiesMap prop = some dest) :
    tPropertiesNotMapped prop = false := by
  by_cases he : prop = "end"
  · subst he; simp [tPropertiesMap] at h
  · by_cases hf : prop = "fail"
    · subst hf; simp [tPropertiesMap] at h
    · by_cases hp : prop = "pass"
      · subst hp; simp [tPropertiesMap] at h
      · simp [tPropertiesNotMapped, he, hf, hp]

theorem uaN_ident (s : String) : uaN (.ident s) = .ident s := rfl

theorem uaN_member_t (prop : String) :
    uaN (.member (.ident "t") prop) = .member (.ident "t") prop := rfl

theorem uaN_call_t (prop : String) (args : NodeList) :
    uaN (.call (.member (.ident "t") prop) args) =
      (if tPropertiesNotMapped prop then
        .call (.member (.ident "t") prop) (uaL args)
      else
        match tPropertiesMap prop with
        | none => .call (.member (.ident "t") prop) (uaL args)
        | some dest => uaBuild prop dest (uaL args)) := by
  show mapBU uaStep _ = _
  rw [mapBU]
  have hc : mapBU uaStep (.member (.ident "t") prop) = .member (.ident "t") prop := rfl
  rw [hc]
  show uaStep _ = _
  simp [uaStep, tCallProp, uaL]

theorem jsAt_one_undef (l : NodeList) (h : nlLen l ≤ 1) : jsAt l 1 = .mkUndef := by
  match l with
  | .nil => rfl
  | .cons a .nil => rfl
  | .cons a (.cons b t) => simp [nlLen] at h

/-- Claim C1: for every origin assertion name mapped by the rule table to
a plain destination name (not one of the three special tags), a call
t.prop of two arguments p and q already fixed by the pass is replaced by
exactly the expression expect of p, then the destination matcher applied
to q (the not-dot-qualified destination names included), wrapped in the
expression statement the source builds; the first argument becomes the
expect argument and the second the matcher argument, order preserved. -/
theorem c1_plain_rename (prop dest : String) (hmap : tPropertiesMap prop = some dest)
    (hb : dest ≠ SPECIAL_BOOL) (hpl : dest ≠ SPECIAL_PLAN_CASE)
    (hth : dest ≠ SPECIAL_THROWS_CASE) (p q : Node)
    (hp : uaN p = p) (hq : uaN q = q) :
    uaN (.call (.member (.ident "t") prop) (nl [p, q])) =
      .exprStmt (.call (.member (.call (.ident "expect") (nl [p])) dest) (nl [q])) := by
  rw [uaN_call_t, notMapped_of_map prop dest hmap]
  have hargs : uaL (nl [p, q]) = nl [p, q] := by
    simp only [uaL, mapBUL, nl]
    rw [show mapBU uaStep p = p from hp, show mapBU uaStep q = q from hq]
  simp only [if_false, Bool.false_eq_true, hmap, hargs]
  simp [uaBuild, hb, hpl, hth, nl, jsAt]

/-- Witness for C1 at the concrete entry is mapped to toBe, with
arguments a and b. -/
theorem c1_witness :
    uaN (.call (.member (.ident "t") "is") (nl [.ident "a", .ident "b"])) =
      .exprStmt (.call (.member (.call (.ident "expect") (nl [.ident "a"])) "toBe")
        (nl [.ident "b"])) :=
  c1_plain_rename "is" "toBe" (by decide) (by decide) (by decide) (by decide)
    (.ident "a") (.ident "b") rfl rfl

/-- Claim C3: an assertion call off t whose property is neither excluded
(end, fail, pass) nor a key of the rule table is left unchanged by the
assertion pass (its arguments, already fixed by the pass, included) and
produces exactly one diagnostic for it. -/
theorem c3_unmapped_diag (prop : String) (args : NodeList)
    (hnm : tPropertiesNotMapped prop = false) (hmap : tPropertiesMap prop = none)
    (hargs : uaL args = args) (hw : uaWarnNL args = []) :
    uaN (.call (.member (.ident "t") prop) args) =
      .call (.member (.ident "t") prop) args ∧
    uaWarnN (.call (.member (.ident "t") prop) args) = [uaWarnMsg prop] := by
  constructor
  · rw [uaN_call_t, hnm]
    simp only [if_false, Bool.false_eq_true, hmap, hargs]
  · simp [uaWarnN, uaWarnsHere, tCallProp, hnm, hmap, hw, uaWarnMsg]

/-- Witness for C3 at the fictitious assertion name banana with one
identifier argument. -/
theorem c3_witness :
    uaN (.call (.member (.ident "t") "banana") (nl [.ident "p"])) =
      .call (.member (.ident "t") "banana") (nl [.ident "p"]) ∧
    uaWarnN (.call (.member (.ident "t") "banana") (nl [.ident "p"])) =
      [uaWarnMsg "banana"] :=
  c3_unmapped_diag "banana" (nl [.ident "p"]) (by decide) (by decide) rfl rfl

/-- Claim C6: a throws or notThrows assertion call off t is replaced by
expect of an empty placeholder function expression followed by toThrow
(or the negated not.toThrow for notThrows); the matcher receives the
original second argument exactly when the call had more than one
argument and no argument otherwise, and the original first argument does
not appear in the result at all (the one-argument form holds for every
first argument p with no hypothesis about it). -/
theorem c6_throws (prop : String) (hpr : prop = "throws" ∨ prop = "notThrows")
    (p q : Node) (hq : uaN q = q) :
    uaN (.call (.member (.ident "t") prop) (nl [p])) =
      .exprStmt (.call
        (.member (.call (.ident "expect") (nl [.funcExpr [] .nil]))
          (if prop = "throws" then "toThrow" else "not.toThrow")) .nil) ∧
    uaN (.call (.member (.ident "t") prop) (nl [p, q])) =
      .exprStmt (.call
        (.member (.call (.ident "expect") (nl [.funcExpr [] .nil]))
          (if prop = "throws" then "toThrow" else "not.toThrow")) (nl [q])) := by
  have h1 : uaN (.call (.member (.ident "t") prop) (nl [p])) =
      uaBuild prop SPECIAL_THROWS_CASE (nl [uaN p]) := by
    rcases hpr with h | h <;> subst h <;>
      rw [uaN_call_t] <;>
      simp [tPropertiesNotMapped, tPropertiesMap, uaL, mapBUL, nl, uaN]
  have h2 : uaN (.call (.member (.ident "t") prop) (nl [p, q])) =
      uaBuild prop SPECIAL_THROWS_CASE (nl [uaN p, uaN q]) := by
    rcases hpr with h | h <;> subst h <;>
      rw [uaN_call_t] <;>
      simp [tPropertiesNotMapped, tPropertiesMap, uaL, mapBUL, nl, uaN]
  constructor
  · rw [h1]
    simp [uaBuild, SPECIAL_THROWS_CASE, SPECIAL_BOOL, SPECIAL_PLAN_CASE, nl, nlLen]
  · rw [h2]
    simp [uaBuild, SPECIAL_THROWS_CASE, SPECIAL_BOOL, SPECIAL_PLAN_CASE, nl, nlLen,
      jsAt, hq]

/-- Witness for C6 at notThrows with a one-argument and a two-argument
call. -/
theorem c6_witness :
    uaN (.call (.member (.ident "t") "notThrows") (nl [.ident "fn"])) =
      .exprStmt (.call
        (.member (.call (.ident "expect") (nl [.funcExpr [] .nil])) "not.toThrow")
        .nil) ∧
    uaN (.call (.member (.ident "t") "notThrows") (nl [.ident "fn", .ident "e"])) =
      .exprStmt (.call
        (.member (.call (.ident "expect") (nl [.funcExpr [] .nil])) "not.toThrow")
        (nl [.ident "e"])) := by
  have h := c6_throws "notThrows" (Or.inr rfl) (.ident "fn") (.ident "e") rfl
  simpa using h

/-- Claim C10, evaluated at the failing input: on a one-argument
plain-rename assertion call such as t.ok of p, the pass reads the
missing second argument (the JS access yields the undefined value) and
hands it to the ast-types call-expression builder, whose field
validation rejects an undefined argument element by throwing, so the
whole assertion pass crashes and produces no output; a two-argument
call of the same shape converts normally.  This refutes the claim that
the access is total in the sense of returning a defined node and that a
matcher call is constructed for every matched call. -/
theorem c10_crash :
    uaArgCrash (.call (.member (.ident "t") "ok") (nl [.ident "p"])) = true ∧
    uaRunL (nl [.exprStmt (.call (.member (.ident "t") "ok")
      (nl [.ident "p"]))]) = none ∧
    uaRunL (nl [.exprStmt (.call (.member (.ident "t") "is")
      (nl [.ident "a", .ident "b"]))]) =
      some (nl [.exprStmt (.exprStmt (.call
        (.member (.call (.ident "expect") (nl [.ident "a"])) "toBe")
        (nl [.ident "b"])))]) :=
  ⟨rfl, rfl, rfl⟩

/-- Claim C2, evaluated at the failing input: for
test.before of a string title and an arrow function whose first
parameter is t, the lifecycle pass rewrites the callee to beforeAll and
drops the title, but the callback keeps its t parameter: the source
reads the callback at argument index one only after the title was
shifted off, so the removal never fires on this shape, while the claim
and the spec say the parameter is removed. -/
theorem c2_param_kept :
    rwN (.call (.member (.ident "test") "before")
        (nl [.strLit "title", .arrowFn ["t"] .nil])) =
      .call (.ident "beforeAll") (nl [.arrowFn ["t"] .nil]) := rfl

/-- Claim C9, evaluated at the failing input: on the declaration
const r = t.is(a, b), the assertion pass substitutes at the matched call
expression site (the initializer, an expression position) an
ExpressionStatement node, a node kind that is not well-formed in an
expression position, refuting the well-formed-substitution invariant. -/
theorem c9_malformed_substitution :
    uaL (nl [.varDecl "const" "r" .mkMissing
        (.call (.member (.ident "t") "is") (nl [.ident "a", .ident "b"]))]) =
      nl [.varDecl "const" "r" .mkMissing
        (.exprStmt (.call (.member (.call (.ident "expect") (nl [.ident "a"])) "toBe")
          (nl [.ident "b"])))] ∧
    isExprKind (.exprStmt (.call
      (.member (.call (.ident "expect") (nl [.ident "a"])) "toBe")
      (nl [.ident "b"]))) = false :=
  ⟨rfl, rfl⟩

/-- Claim C4: on the concrete input with the test variable typed by the
inline context type with fields a and b, the shared-context extraction,
reference-rewrite and signature-adjustment passes yield exactly the tree
with the new type alias, the new sharedContext variable whose object
initializer has the fields a and b initialized to null, the original
test variable declaration removed, and the t.context access rewritten to
the sharedContext identifier (the callback parameter list also being
cleared by the signature pass). -/
theorem c4_shared_context : adjL (uscrL (generateSharedContext prog4)) = prog4Out := rfl

theorem checkShape_none_of_fail :
    ∀ (k nm : String) (ty init : Node), gscFail init = true →
      checkShape (.varDecl k nm ty init) = none := by
  intro k nm ty init hf
  cases init <;> try simp [checkShape]
  case tsAs e ann =>
    cases ann <;> try simp [checkShape]
    case typeRef n2 ta =>
      cases ta <;> try simp [checkShape]
      case typeParamInst ps =>
        cases ps with
        | nil => simp [checkShape]
        | cons ty0 rest => cases ty0 <;> simp_all [checkShape, gscFail]

/-- Claim C5: whenever a structural precondition of the shared-context
extraction pass fails (no test declarator found, or the first found test
declarator's initializer misses the type-assertion/type-reference shape,
has no type parameters, or has a first type parameter that is not an
inline type literal), the pass performs no tree mutation at all: the
whole program, the original declaration included, is returned untouched
and no declarations are inserted. -/
theorem c5_soft_abort (l : NodeList)
    (h : findNL isTestDecl l = none ∨
      ∃ k nm ty init, findNL isTestDecl l = some (.varDecl k nm ty init) ∧
        gscFail init = true) :
    generateSharedContext l = l := by
  rcases h with h | ⟨k, nm, ty, init, h1, h2⟩
  · simp [generateSharedContext, h]
  · simp [generateSharedContext, h1, checkShape_none_of_fail k nm ty init h2]

/-- Witness for C5: a program with no test variable, and a program whose
test variable has an initializer without a type assertion; both are
returned untouched. -/
theorem c5_witness :
    generateSharedContext (nl [useStmt]) = nl [useStmt] ∧
    generateSharedContext (nl [.varDecl "const" "test" .mkMissing (.ident "x")]) =
      nl [.varDecl "const" "test" .mkMissing (.ident "x")] :=
  ⟨c5_soft_abort _ (Or.inl (by decide)),
    c5_soft_abort _ (Or.inr ⟨"const", "test", .mkMissing, .ident "x", by decide, rfl⟩)⟩

/-! Lemmas about removeImport for claim C8. -/

theorem rm_filter : ∀ l : NodeList,
    removeImport l = nlFilter (fun s => !isAvaImport s) l
  | .nil => rfl
  | .cons h t => by
    by_cases ha : isAvaImport h = true <;>
      simp [removeImport, nlFilter, ha, rm_filter t]

theorem rm_len : ∀ l : NodeList, nlLen l = nlLen (removeImport l) + avaCount l
  | .nil => rfl
  | .cons h t => by
    have := rm_len t
    by_cases ha : isAvaImport h = true <;>
      simp [removeImport, nlLen, avaCount, ha] <;> omega

theorem rm_noop : ∀ l : NodeList, anyTop isAvaImport l = false → removeImport l = l
  | .nil, _ => rfl
  | .cons h t, hl => by
    simp only [anyTop, Bool.or_eq_false_iff] at hl
    simp [removeImport, hl.1, rm_noop t hl.2]

theorem rm_clean : ∀ l : NodeList, anyTop isAvaImport (removeImport l) = false
  | .nil => rfl
  | .cons h t => by
    by_cases ha : isAvaImport h = true <;>
      simp [removeImport, anyTop, ha, rm_clean t]

/-- Counterexample for claim C8: on the program with two ava import
declarations and one other statement, the import-removal pass shrinks
the top level by two statements, refuting the zero-or-one shrink bound
claimed for every input. -/
theorem c8_counterexample :
    nlLen prog8 = 3 ∧ nlLen (removeImport prog8) = 1 := ⟨rfl, rfl⟩

/-- Claim C8 as amended: the import-removal pass deletes every import
declaration whose source is the ava package identifier (keeping exactly
the other top-level statements, in order), so the top level shrinks by
exactly the number of such imports (zero or one when at most one is
present); when none is present the pass is a no-op, it is idempotent on
every input, and its output never contains an ava import. -/
theorem c8_amended (l : NodeList) :
    removeImport l = nlFilter (fun s => !isAvaImport s) l ∧
    nlLen l = nlLen (removeImport l) + avaCount l ∧
    (anyTop isAvaImport l = false → removeImport l = l) ∧
    removeImport (removeImport l) = removeImport l ∧
    anyTop isAvaImport (removeImport l) = false :=
  ⟨rm_filter l, rm_len l, rm_noop l, rm_noop _ (rm_clean l), rm_clean l⟩

/-- Witness for the amended C8: an import-free program is untouched, and
the pass is idempotent on the two-import program. -/
theorem c8_witness :
    removeImport (nl [useStmt]) = nl [useStmt] ∧
    removeImport (removeImport prog8) = removeImport prog8 :=
  ⟨(c8_amended (nl [useStmt])).2.2.1 rfl, (c8_amended prog8).2.2.2.1⟩

/-! Step-level case facts: each per-node step either fixes its input or
returns a node of one known replacement shape. -/

theorem uscrStep_cases (y : Node) :
    uscrStep y = y ∨ uscrStep y = .ident "sharedContext" := by
  unfold uscrStep; split_ifs <;> simp

theorem adjStep_cases (y : Node) :
    adjStep y = y ∨ ∃ args, adjStep y = .call (.ident "test") args := by
  cases y <;> try exact Or.inl rfl
  case call c args =>
    by_cases h : c = .ident "test"
    · exact Or.inr ⟨clearParamsAt1 args, by simp [adjStep, h]⟩
    · exact Or.inl (by simp [adjStep, h])

theorem uaBuild_isExprStmt (prop dest : String) (targs : NodeList) :
    ∃ e, uaBuild prop dest targs = .exprStmt e := by
  unfold uaBuild; split_ifs <;> exact ⟨_, rfl⟩

theorem uaStep_cases (y : Node) :
    uaStep y = y ∨ ∃ e, uaStep y = .exprStmt e := by
  cases y <;> try exact Or.inl rfl
  case call c args =>
    cases htc : tCallProp c with
    | none => exact Or.inl (by simp [uaStep, htc])
    | some prop =>
      by_cases hnm : tPropertiesNotMapped prop = true
      · exact Or.inl (by simp [uaStep, htc, hnm])
      · cases hm : tPropertiesMap prop with
        | none => exact Or.inl (by simp [uaStep, htc, hnm, hm])
        | some dest =>
          obtain ⟨e, he⟩ := uaBuild_isExprStmt prop dest args
          exact Or.inr ⟨e, by simp [uaStep, htc, hnm, hm, he]⟩

theorem rwStep_cases (y : Node) :
    rwStep y = y ∨ ∃ s args, rwStep y = .call (.ident s) args := by
  cases y <;> try exact Or.inl rfl
  case call c args =>
    cases htc : testCallProp c with
    | none => exact Or.inl (by simp [rwStep, htc])
    | some prop =>
      cases hm : avaToJestLifecycleMethods prop with
      | none => exact Or.inl (by simp [rwStep, htc, hm])
      | some dest =>
        exact Or.inr ⟨dest, stripParamT (dropTitle args), by simp [rwStep, htc, hm]⟩

/-! One-level shape inversions for mapC: a reconstructed node of a given
shape comes from a node of the same shape with rewritten children. -/

theorem mapC_ident_inv (g : Node → Node) (x : Node) (s : String)
    (h : mapC g x = .ident s) : x = .ident s := by
  cases x <;> simp only [mapC] at h <;> first
    | exact Node.noConfusion h
    | (injection h with h1; subst h1; rfl)

theorem mapC_importDecl_inv (g : Node → Node) (x : Node) (s : String)
    (h : mapC g x = .importDecl s) : x = .importDecl s := by
  cases x <;> simp only [mapC] at h <;> first
    | exact Node.noConfusion h
    | (injection h with h1; subst h1; rfl)

theorem mapC_member_inv (g : Node → Node) (x o : Node) (pr : String)
    (h : mapC g x = .member o pr) : ∃ o0, x = .member o0 pr ∧ o = g o0 := by
  cases x <;> simp only [mapC] at h <;> first
    | exact Node.noConfusion h
    | (injection h with h1 h2; subst h2; exact ⟨_, rfl, h1.symm⟩)

theorem mapC_tsAs_inv (g : Node → Node) (x e a : Node)
    (h : mapC g x = .tsAs e a) : ∃ e0 a0, x = .tsAs e0 a0 ∧ e = g e0 ∧ a = g a0 := by
  cases x <;> simp only [mapC] at h <;> first
    | exact Node.noConfusion h
    | (injection h with h1 h2; exact ⟨_, _, rfl, h1.symm, h2.symm⟩)

theorem mapC_typeRef_inv (g : Node → Node) (x : Node) (n : String) (ta : Node)
    (h : mapC g x = .typeRef n ta) : ∃ ta0, x = .typeRef n ta0 ∧ ta = g ta0 := by
  cases x <;> simp only [mapC] at h <;> first
    | exact Node.noConfusion h
    | (injection h with h1 h2; subst h1; exact ⟨_, rfl, h2.symm⟩)

theorem mapC_typeParamInst_inv (g : Node → Node) (x : Node) (ps : NodeList)
    (h : mapC g x = .typeParamInst ps) :
    ∃ ps0, x = .typeParamInst ps0 ∧ ps = nlMap g ps0 := by
  cases x <;> simp only [mapC] at h <;> first
    | exact Node.noConfusion h
    | (injection h with h1; exact ⟨_, rfl, h1.symm⟩)

theorem mapC_typeLit_inv (g : Node → Node) (x : Node) (ms : NodeList)
    (h : mapC g x = .typeLit ms) : ∃ ms0, x = .typeLit ms0 ∧ ms = nlMap g ms0 := by
  cases x <;> simp only [mapC] at h <;> first
    | exact Node.noConfusion h
    | (injection h with h1; exact ⟨_, rfl, h1.symm⟩)

theorem mapC_arrowFn_inv (g : Node → Node) (x : Node) (ps : List String) (b : NodeList)
    (h : mapC g x = .arrowFn ps b) : ∃ b0, x = .arrowFn ps b0 ∧ b = nlMap g b0 := by
  cases x <;> simp only [mapC] at h <;> first
    | exact Node.noConfusion h
    | (injection h with h1 h2; subst h1; exact ⟨_, rfl, h2.symm⟩)

theorem mapC_funcExpr_inv (g : Node → Node) (x : Node) (ps : List String) (b : NodeList)
    (h : mapC g x = .funcExpr ps b) : ∃ b0, x = .funcExpr ps b0 ∧ b = nlMap g b0 := by
  cases x <;> simp only [mapC] at h <;> first
    | exact Node.noConfusion h
    | (injection h with h1 h2; subst h1; exact ⟨_, rfl, h2.symm⟩)

theorem nlMap_cons_inv (g : Node → Node) (l : NodeList) (a : Node) (b : NodeList)
    (h : nlMap g l = .cons a b) :
    ∃ a0 b0, l = .cons a0 b0 ∧ a = g a0 ∧ b = nlMap g b0 := by
  cases l <;> simp only [nlMap] at h
  · exact NodeList.noConfusion h
  · injection h with h1 h2; exact ⟨_, _, rfl, h1.symm, h2.symm⟩

/-! Shape inversions through a whole bottom-up pass, given that the step
never builds the shape in question except by fixing its input. -/

theorem mapBU_ident_inv (f : Node → Node)
    (hf : ∀ y s, f y = .ident s → f y = y) (x : Node) (s : String)
    (h : mapBU f x = .ident s) : x = .ident s := by
  rw [mapBU_eq] at h
  have h2 := hf _ _ h
  rw [h2] at h
  exact mapC_ident_inv _ _ _ h

theorem mapBU_importDecl_inv (f : Node → Node)
    (hf : ∀ y s, f y = .importDecl s → f y = y) (x : Node) (s : String)
    (h : mapBU f x = .importDecl s) : x = .importDecl s := by
  rw [mapBU_eq] at h
  have h2 := hf _ _ h
  rw [h2] at h
  exact mapC_importDecl_inv _ _ _ h

theorem mapBU_member_inv (f : Node → Node)
    (hf : ∀ y o pr, f y = .member o pr → f y = y) (x o : Node) (pr : String)
    (h : mapBU f x = .member o pr) : ∃ o0, x = .member o0 pr ∧ o = mapBU f o0 := by
  rw [mapBU_eq] at h
  have h2 := hf _ _ _ h
  rw [h2] at h
  exact mapC_member_inv _ _ _ _ h

theorem mapBU_tsAs_inv (f : Node → Node)
    (hf : ∀ y e a, f y = .tsAs e a → f y = y) (x e a : Node)
    (h : mapBU f x = .tsAs e a) :
    ∃ e0 a0, x = .tsAs e0 a0 ∧ e = mapBU f e0 ∧ a = mapBU f a0 := by
  rw [mapBU_eq] at h
  have h2 := hf _ _ _ h
  rw [h2] at h
  exact mapC_tsAs_inv _ _ _ _ h

theorem mapBU_typeRef_inv (f : Node → Node)
    (hf : ∀ y n ta, f y = .typeRef n ta → f y = y) (x : Node) (n : String) (ta : Node)
    (h : mapBU f x = .typeRef n ta) : ∃ ta0, x = .typeRef n ta0 ∧ ta = mapBU f ta0 := by
  rw [mapBU_eq] at h
  have h2 := hf _ _ _ h
  rw [h2] at h
  exact mapC_typeRef_inv _ _ _ _ h

theorem mapBU_typeParamInst_inv (f : Node → Node)
    (hf : ∀ y ps, f y = .typeParamInst ps → f y = y) (x : Node) (ps : NodeList)
    (h : mapBU f x = .typeParamInst ps) :
    ∃ ps0, x = .typeParamInst ps0 ∧ ps = nlMap (mapBU f) ps0 := by
  rw [mapBU_eq] at h
  have h2 := hf _ _ h
  rw [h2] at h
  exact mapC_typeParamInst_inv _ _ _ h

theorem mapBU_typeLit_inv (f : Node → Node)
    (hf : ∀ y ms, f y = .typeLit ms → f y = y) (x : Node) (ms : NodeList)
    (h : mapBU f x = .typeLit ms) : ∃ ms0, x = .typeLit ms0 := by
  rw [mapBU_eq] at h
  have h2 := hf _ _ h
  rw [h2] at h
  obtain ⟨ms0, h3, _⟩ := mapC_typeLit_inv _ _ _ h
  exact ⟨ms0, h3⟩

theorem mapBU_arrowFn_inv (f : Node → Node)
    (hf : ∀ y ps b, f y = .arrowFn ps b → f y = y) (x : Node) (ps : List String)
    (b : NodeList) (h : mapBU f x = .arrowFn ps b) : ∃ b0, x = .arrowFn ps b0 := by
  rw [mapBU_eq] at h
  have h2 := hf _ _ _ h
  rw [h2] at h
  obtain ⟨b0, h3, _⟩ := mapC_arrowFn_inv _ _ _ _ h
  exact ⟨b0, h3⟩

theorem mapBU_funcExpr_inv (f : Node → Node)
    (hf : ∀ y ps b, f y = .funcExpr ps b → f y = y) (x : Node) (ps : List String)
    (b : NodeList) (h : mapBU f x = .funcExpr ps b) : ∃ b0, x = .funcExpr ps b0 := by
  rw [mapBU_eq] at h
  have h2 := hf _ _ _ h
  rw [h2] at h
  obtain ⟨b0, h3, _⟩ := mapC_funcExpr_inv _ _ _ _ h
  exact ⟨b0, h3⟩

/-! Step functions only fix inputs of the shapes they never build. -/

theorem uscrStep_fix_tsAs : ∀ y e a, uscrStep y = .tsAs e a → uscrStep y = y := by
  intro y e a hh
  rcases uscrStep_cases y with h | h
  · exact h
  · rw [h] at hh; exact Node.noConfusion hh

theorem uscrStep_fix_typeRef : ∀ y n ta, uscrStep y = .typeRef n ta → uscrStep y = y := by
  intro y n ta hh
  rcases uscrStep_cases y with h | h
  · exact h
  · rw [h] at hh; exact Node.noConfusion hh

theorem uscrStep_fix_typeParamInst : ∀ y ps, uscrStep y = .typeParamInst ps → uscrStep y = y := by
  intro y ps hh
  rcases uscrStep_cases y with h | h
  · exact h
  · rw [h] at hh; exact Node.noConfusion hh

theorem uscrStep_fix_typeLit : ∀ y ms, uscrStep y = .typeLit ms → uscrStep y = y := by
  intro y ms hh
  rcases uscrStep_cases y with h | h
  · exact h
  · rw [h] at hh; exact Node.noConfusion hh

theorem uscrStep_fix_importDecl : ∀ y s, uscrStep y = .importDecl s → uscrStep y = y := by
  intro y s hh
  rcases uscrStep_cases y with h | h
  · exact h
  · rw [h] at hh; exact Node.noConfusion hh

theorem adjStep_fix_tsAs : ∀ y e a, adjStep y = .tsAs e a → adjStep y = y := by
  intro y e a hh
  rcases adjStep_cases y with h | ⟨args, h⟩
  · exact h
  · rw [h] at hh; exact Node.noConfusion hh

theorem adjStep_fix_typeRef : ∀ y n ta, adjStep y = .typeRef n ta → adjStep y = y := by
  intro y n ta hh
  rcases adjStep_cases y with h | ⟨args, h⟩
  · exact h
  · rw [h] at hh; exact Node.noConfusion hh

theorem adjStep_fix_typeParamInst : ∀ y ps, adjStep y = .typeParamInst ps → adjStep y = y := by
  intro y ps hh
  rcases adjStep_cases y with h | ⟨args, h⟩
  · exact h
  · rw [h] at hh; exact Node.noConfusion hh

theorem adjStep_fix_typeLit : ∀ y ms, adjStep y = .typeLit ms → adjStep y = y := by
  intro y ms hh
  rcases adjStep_cases y with h | ⟨args, h⟩
  · exact h
  · rw [h] at hh; exact Node.noConfusion hh

theorem adjStep_fix_importDecl : ∀ y s, adjStep y = .importDecl s → adjStep y = y := by
  intro y s hh
  rcases adjStep_cases y with h | ⟨args, h⟩
  · exact h
  · rw [h] at hh; exact Node.noConfusion hh

theorem adjStep_fix_ident : ∀ y s, adjStep y = .ident s → adjStep y = y := by
  intro y s hh
  rcases adjStep_cases y with h | ⟨args, h⟩
  · exact h
  · rw [h] at hh; exact Node.noConfusion hh

theorem adjStep_fix_arrowFn : ∀ y ps b, adjStep y = .arrowFn ps b → adjStep y = y := by
  intro y ps b hh
  rcases adjStep_cases y with h | ⟨args, h⟩
  · exact h
  · rw [h] at hh; exact Node.noConfusion hh

theorem adjStep_fix_funcExpr : ∀ y ps b, adjStep y = .funcExpr ps b → adjStep y = y := by
  intro y ps b hh
  rcases adjStep_cases y with h | ⟨args, h⟩
  · exact h
  · rw [h] at hh; exact Node.noConfusion hh

theorem uaStep_fix_tsAs : ∀ y e a, uaStep y = .tsAs e a → uaStep y = y := by
  intro y e a hh
  rcases uaStep_cases y with h | ⟨e2, h⟩
  · exact h
  · rw [h] at hh; exact Node.noConfusion hh

theorem uaStep_fix_typeRef : ∀ y n ta, uaStep y = .typeRef n ta → uaStep y = y := by
  intro y n ta hh
  rcases uaStep_cases y with h | ⟨e2, h⟩
  · exact h
  · rw [h] at hh; exact Node.noConfusion hh

theorem uaStep_fix_typeParamInst : ∀ y ps, uaStep y = .typeParamInst ps → uaStep y = y := by
  intro y ps hh
  rcases uaStep_cases y with h | ⟨e2, h⟩
  · exact h
  · rw [h] at hh; exact Node.noConfusion hh

theorem uaStep_fix_typeLit : ∀ y ms, uaStep y = .typeLit ms → uaStep y = y := by
  intro y ms hh
  rcases uaStep_cases y with h | ⟨e2, h⟩
  · exact h
  · rw [h] at hh; exact Node.noConfusion hh

theorem uaStep_fix_importDecl : ∀ y s, uaStep y = .importDecl s → uaStep y = y := by
  intro y s hh
  rcases uaStep_cases y with h | ⟨e2, h⟩
  · exact h
  · rw [h] at hh; exact Node.noConfusion hh

theorem uaStep_fix_ident : ∀ y s, uaStep y = .ident s → uaStep y = y := by
  intro y s hh
  rcases uaStep_cases y with h | ⟨e2, h⟩
  · exact h
  · rw [h] at hh; exact Node.noConfusion hh

theorem uaStep_fix_arrowFn : ∀ y ps b, uaStep y = .arrowFn ps b → uaStep y = y := by
  intro y ps b hh
  rcases uaStep_cases y with h | ⟨e2, h⟩
  · exact h
  · rw [h] at hh; exact Node.noConfusion hh

theorem uaStep_fix_funcExpr : ∀ y ps b, uaStep y = .funcExpr ps b → uaStep y = y := by
  intro y ps b hh
  rcases uaStep_cases y with h | ⟨e2, h⟩
  · exact h
  · rw [h] at hh; exact Node.noConfusion hh

theorem uaStep_fix_member : ∀ y o pr, uaStep y = .member o pr → uaStep y = y := by
  intro y o pr hh
  rcases uaStep_cases y with h | ⟨e2, h⟩
  · exact h
  · rw [h] at hh; exact Node.noConfusion hh

theorem rwStep_fix_tsAs : ∀ y e a, rwStep y = .tsAs e a → rwStep y = y := by
  intro y e a hh
  rcases rwStep_cases y with h | ⟨s, args, h⟩
  · exact h
  · rw [h] at hh; exact Node.noConfusion hh

theorem rwStep_fix_typeRef : ∀ y n ta, rwStep y = .typeRef n ta → rwStep y = y := by
  intro y n ta hh
  rcases rwStep_cases y with h | ⟨s, args, h⟩
  · exact h
  · rw [h] at hh; exact Node.noConfusion hh

theorem rwStep_fix_typeParamInst : ∀ y ps, rwStep y = .typeParamInst ps → rwStep y = y := by
  intro y ps hh
  rcases rwStep_cases y with h | ⟨s, args, h⟩
  · exact h
  · rw [h] at hh; exact Node.noConfusion hh

theorem rwStep_fix_typeLit : ∀ y ms, rwStep y = .typeLit ms → rwStep y = y := by
  intro y ms hh
  rcases rwStep_cases y with h | ⟨s, args, h⟩
  · exact h
  · rw [h] at hh; exact Node.noConfusion hh

theorem rwStep_fix_importDecl : ∀ y s, rwStep y = .importDecl s → rwStep y = y := by
  intro y s hh
  rcases rwStep_cases y with h | ⟨s2, args, h⟩
  · exact h
  · rw [h] at hh; exact Node.noConfusion hh

theorem rwStep_fix_ident : ∀ y s, rwStep y = .ident s → rwStep y = y := by
  intro y s hh
  rcases rwStep_cases y with h | ⟨s2, args, h⟩
  · exact h
  · rw [h] at hh; exact Node.noConfusion hh

theorem rwStep_fix_arrowFn : ∀ y ps b, rwStep y = .arrowFn ps b → rwStep y = y := by
  intro y ps b hh
  rcases rwStep_cases y with h | ⟨s2, args, h⟩
  · exact h
  · rw [h] at hh; exact Node.noConfusion hh

theorem rwStep_fix_funcExpr : ∀ y ps b, rwStep y = .funcExpr ps b → rwStep y = y := by
  intro y ps b hh
  rcases rwStep_cases y with h | ⟨s2, args, h⟩
  · exact h
  · rw [h] at hh; exact Node.noConfusion hh

theorem rwStep_fix_member : ∀ y o pr, rwStep y = .member o pr → rwStep y = y := by
  intro y o pr hh
  rcases rwStep_cases y with h | ⟨s2, args, h⟩
  · exact h
  · rw [h] at hh; exact Node.noConfusion hh

/-! Helper lemmas about the small argument-list surgeries and a
monotonicity fact for anyN. -/

theorem anyN_anti (p q : Node → Bool) (h : ∀ x, p x = true → q x = true)
    (n : Node) (hq : anyN q n = false) : anyN p n = false := by
  by_contra hp
  have hp' : anyN p n = true := by simpa using hp
  have h1 : cntN p n ≠ 0 := by
    intro h0
    rw [cntN_eq_zero p n] at h0
    rw [h0] at hp'
    exact Bool.noConfusion hp'
  have h2 := cntN_mono p q h n
  have h3 : cntN q n = 0 := by rw [cntN_eq_zero]; exact hq
  omega

theorem clearParamsAt1_idem (l : NodeList) :
    clearParamsAt1 (clearParamsAt1 l) = clearParamsAt1 l := by
  match l with
  | .nil => rfl
  | .cons a0 .nil => rfl
  | .cons a0 (.cons a1 t) => cases a1 <;> rfl

theorem anyNL_clearParamsAt1 (p : Node → Bool)
    (hfa : ∀ ps b, p (.arrowFn ps b) = false)
    (hff : ∀ ps b, p (.funcExpr ps b) = false)
    (l : NodeList) (h : anyNL p l = false) : anyNL p (clearParamsAt1 l) = false := by
  match l with
  | .nil => exact h
  | .cons a0 .nil => exact h
  | .cons a0 (.cons a1 t) =>
    cases a1 <;> simp_all [clearParamsAt1, anyNL, anyN, hfa, hff]

theorem anyNL_dropTitle (p : Node → Bool) (l : NodeList)
    (h : anyNL p l = false) : anyNL p (dropTitle l) = false := by
  match l with
  | .nil => exact h
  | .cons a0 t =>
    cases a0 <;> simp_all [dropTitle, anyNL]

theorem anyNL_stripParamT (p : Node → Bool)
    (hfa : ∀ ps b, p (.arrowFn ps b) = false)
    (hff : ∀ ps b, p (.funcExpr ps b) = false)
    (l : NodeList) (h : anyNL p l = false) : anyNL p (stripParamT l) = false := by
  match l with
  | .nil => exact h
  | .cons a0 .nil => exact h
  | .cons a0 (.cons a1 t) =>
    cases a1 <;> try exact h
    case arrowFn ps b =>
      match ps with
      | [] => exact h
      | p0 :: ps2 =>
        by_cases hp : p0 = "t"
        · subst hp; simp_all [stripParamT, anyNL, anyN, hfa]
        · have he : stripParamT (.cons a0 (.cons (.arrowFn (p0 :: ps2) b) t)) =
              .cons a0 (.cons (.arrowFn (p0 :: ps2) b) t) := by
            simp [stripParamT, hp]
          rw [he]; exact h
    case funcExpr ps b =>
      match ps with
      | [] => exact h
      | p0 :: ps2 =>
        by_cases hp : p0 = "t"
        · subst hp; simp_all [stripParamT, anyNL, anyN, hff]
        · have he : stripParamT (.cons a0 (.cons (.funcExpr (p0 :: ps2) b) t)) =
              .cons a0 (.cons (.funcExpr (p0 :: ps2) b) t) := by
            simp [stripParamT, hp]
          rw [he]; exact h

theorem anyN_eq_false_of (p : Node → Bool) (x : Node)
    (h1 : p x = false) (h2 : anyC p x = false) : anyN p x = false := by
  rw [anyN_eq, h1, h2]; rfl

theorem tCallProp_inv (c : Node) (prop : String) (h : tCallProp c = some prop) :
    c = .member (.ident "t") prop := by
  match c with
  | .member (.ident nm) pr =>
    rw [tCallProp] at h
    by_cases hn : nm = "t"
    · rw [if_pos hn] at h; subst hn; injection h with h2; subst h2; rfl
    · rw [if_neg hn] at h; exact Option.noConfusion h
  | .member (.strLit v) pr => exact Option.noConfusion h
  | .member (.numLit v) pr => exact Option.noConfusion h
  | .member .nullLit pr => exact Option.noConfusion h
  | .member .mkUndef pr => exact Option.noConfusion h
  | .member .mkMissing pr => exact Option.noConfusion h
  | .member (.member o p2) pr => exact Option.noConfusion h
  | .member (.call c2 a2) pr => exact Option.noConfusion h
  | .member (.arrowFn p2 b2) pr => exact Option.noConfusion h
  | .member (.funcExpr p2 b2) pr => exact Option.noConfusion h
  | .member (.objectExpr p2) pr => exact Option.noConfusion h
  | .member (.objectProp k2 v2) pr => exact Option.noConfusion h
  | .member (.tsAs e2 a2) pr => exact Option.noConfusion h
  | .member (.importDecl s2) pr => exact Option.noConfusion h
  | .member (.varDecl k2 n2 t2 i2) pr => exact Option.noConfusion h
  | .member (.typeAlias n2 t2) pr => exact Option.noConfusion h
  | .member (.exprStmt e2) pr => exact Option.noConfusion h
  | .member (.typeRef n2 t2) pr => exact Option.noConfusion h
  | .member (.typeParamInst p2) pr => exact Option.noConfusion h
  | .member (.typeLit m2) pr => exact Option.noConfusion h
  | .member (.propSig k2 t2) pr => exact Option.noConfusion h
  | .member .otherMember pr => exact Option.noConfusion h
  | .member .numberKw pr => exact Option.noConfusion h
  | .member .stringKw pr => exact Option.noConfusion h
  | .ident s => exact Option.noConfusion h
  | .strLit v => exact Option.noConfusion h
  | .numLit v => exact Option.noConfusion h
  | .nullLit => exact Option.noConfusion h
  | .mkUndef => exact Option.noConfusion h
  | .mkMissing => exact Option.noConfusion h
  | .call c2 a2 => exact Option.noConfusion h
  | .arrowFn p2 b2 => exact Option.noConfusion h
  | .funcExpr p2 b2 => exact Option.noConfusion h
  | .objectExpr p2 => exact Option.noConfusion h
  | .objectProp k2 v2 => exact Option.noConfusion h
  | .tsAs e2 a2 => exact Option.noConfusion h
  | .importDecl s2 => exact Option.noConfusion h
  | .varDecl k2 n2 t2 i2 => exact Option.noConfusion h
  | .typeAlias n2 t2 => exact Option.noConfusion h
  | .exprStmt e2 => exact Option.noConfusion h
  | .typeRef n2 t2 => exact Option.noConfusion h
  | .typeParamInst p2 => exact Option.noConfusion h
  | .typeLit m2 => exact Option.noConfusion h
  | .propSig k2 t2 => exact Option.noConfusion h
  | .otherMember => exact Option.noConfusion h
  | .numberKw => exact Option.noConfusion h
  | .stringKw => exact Option.noConfusion h

theorem testCallProp_inv (c : Node) (prop : String) (h : testCallProp c = some prop) :
    c = .member (.ident "test") prop := by
  match c with
  | .member (.ident nm) pr =>
    rw [testCallProp] at h
    by_cases hn : nm = "test"
    · rw [if_pos hn] at h; subst hn; injection h with h2; subst h2; rfl
    · rw [if_neg hn] at h; exact Option.noConfusion h
  | .member (.strLit v) pr => exact Option.noConfusion h
  | .member (.numLit v) pr => exact Option.noConfusion h
  | .member .nullLit pr => exact Option.noConfusion h
  | .member .mkUndef pr => exact Option.noConfusion h
  | .member .mkMissing pr => exact Option.noConfusion h
  | .member (.member o p2) pr => exact Option.noConfusion h
  | .member (.call c2 a2) pr => exact Option.noConfusion h
  | .member (.arrowFn p2 b2) pr => exact Option.noConfusion h
  | .member (.funcExpr p2 b2) pr => exact Option.noConfusion h
  | .member (.objectExpr p2) pr => exact Option.noConfusion h
  | .member (.objectProp k2 v2) pr => exact Option.noConfusion h
  | .member (.tsAs e2 a2) pr => exact Option.noConfusion h
  | .member (.importDecl s2) pr => exact Option.noConfusion h
  | .member (.varDecl k2 n2 t2 i2) pr => exact Option.noConfusion h
  | .member (.typeAlias n2 t2) pr => exact Option.noConfusion h
  | .member (.exprStmt e2) pr => exact Option.noConfusion h
  | .member (.typeRef n2 t2) pr => exact Option.noConfusion h
  | .member (.typeParamInst p2) pr => exact Option.noConfusion h
  | .member (.typeLit m2) pr => exact Option.noConfusion h
  | .member (.propSig k2 t2) pr => exact Option.noConfusion h
  | .member .otherMember pr => exact Option.noConfusion h
  | .member .numberKw pr => exact Option.noConfusion h
  | .member .stringKw pr => exact Option.noConfusion h
  | .ident s => exact Option.noConfusion h
  | .strLit v => exact Option.noConfusion h
  | .numLit v => exact Option.noConfusion h
  | .nullLit => exact Option.noConfusion h
  | .mkUndef => exact Option.noConfusion h
  | .mkMissing => exact Option.noConfusion h
  | .call c2 a2 => exact Option.noConfusion h
  | .arrowFn p2 b2 => exact Option.noConfusion h
  | .funcExpr p2 b2 => exact Option.noConfusion h
  | .objectExpr p2 => exact Option.noConfusion h
  | .objectProp k2 v2 => exact Option.noConfusion h
  | .tsAs e2 a2 => exact Option.noConfusion h
  | .importDecl s2 => exact Option.noConfusion h
  | .varDecl k2 n2 t2 i2 => exact Option.noConfusion h
  | .typeAlias n2 t2 => exact Option.noConfusion h
  | .exprStmt e2 => exact Option.noConfusion h
  | .typeRef n2 t2 => exact Option.noConfusion h
  | .typeParamInst p2 => exact Option.noConfusion h
  | .typeLit m2 => exact Option.noConfusion h
  | .propSig k2 t2 => exact Option.noConfusion h
  | .otherMember => exact Option.noConfusion h
  | .numberKw => exact Option.noConfusion h
  | .stringKw => exact Option.noConfusion h

theorem adjStep_eq (x : Node) : adjStep x = x ∨
    ∃ args, x = .call (.ident "test") args ∧
      adjStep x = .call (.ident "test") (clearParamsAt1 args) := by
  cases x <;> try exact Or.inl rfl
  case call c args =>
    by_cases hc : c = .ident "test"
    · subst hc; exact Or.inr ⟨args, rfl, by simp [adjStep]⟩
    · exact Or.inl (by simp [adjStep, hc])

theorem uaStep_eq (x : Node) : uaStep x = x ∨
    ∃ args prop dest, x = .call (.member (.ident "t") prop) args ∧
      tPropertiesNotMapped prop = false ∧ tPropertiesMap prop = some dest ∧
      uaStep x = uaBuild prop dest args := by
  cases x <;> try exact Or.inl rfl
  case call c args =>
    cases htc : tCallProp c with
    | none => exact Or.inl (by simp [uaStep, htc])
    | some prop =>
      by_cases hnm : tPropertiesNotMapped prop = true
      · exact Or.inl (by simp [uaStep, htc, hnm])
      · cases hm : tPropertiesMap prop with
        | none => exact Or.inl (by simp [uaStep, htc, hnm, hm])
        | some dest =>
          have hc := tCallProp_inv c prop htc
          subst hc
          exact Or.inr ⟨args, prop, dest, rfl, by simpa using hnm, hm,
            by simp [uaStep, tCallProp, hnm, hm]⟩

theorem rwStep_eq (x : Node) : rwStep x = x ∨
    ∃ args prop dest, x = .call (.member (.ident "test") prop) args ∧
      avaToJestLifecycleMethods prop = some dest ∧
      rwStep x = .call (.ident dest) (stripParamT (dropTitle args)) := by
  cases x <;> try exact Or.inl rfl
  case call c args =>
    cases htc : testCallProp c with
    | none => exact Or.inl (by simp [rwStep, htc])
    | some prop =>
      cases hm : avaToJestLifecycleMethods prop with
      | none => exact Or.inl (by simp [rwStep, htc, hm])
      | some dest =>
        have hc := testCallProp_inv c prop htc
        subst hc
        exact Or.inr ⟨args, prop, dest, rfl, hm, by simp [rwStep, testCallProp, hm]⟩

theorem isTestDecl_mapC (g : Node → Node) (x : Node) :
    isTestDecl (mapC g x) = isTestDecl x := by
  cases x <;> simp [mapC, isTestDecl]

theorem checkShape_isSome_inv : ∀ (k nm : String) (ty init : Node),
    (checkShape (.varDecl k nm ty init)).isSome = true →
    ∃ e n2 ms rest,
      init = .tsAs e (.typeRef n2 (.typeParamInst (.cons (.typeLit ms) rest))) := by
  intro k nm ty init h
  cases init <;> try (simp [checkShape] at h)
  case tsAs e ann =>
    cases ann <;> try (simp [checkShape] at h)
    case typeRef n2 ta =>
      cases ta <;> try (simp [checkShape] at h)
      case typeParamInst ps =>
        cases ps with
        | nil => simp [checkShape] at h
        | cons ty0 rest =>
          cases ty0 <;> try (simp [checkShape] at h)
          case typeLit ms => exact ⟨e, n2, ms, rest, rfl⟩

theorem checkShape_none_mapBU (f : Node → Node)
    (hts : ∀ y e a, f y = .tsAs e a → f y = y)
    (htr : ∀ y n ta, f y = .typeRef n ta → f y = y)
    (htp : ∀ y ps, f y = .typeParamInst ps → f y = y)
    (htl : ∀ y ms, f y = .typeLit ms → f y = y)
    (k nm : String) (ty init : Node)
    (h : checkShape (.varDecl k nm ty init) = none) :
    checkShape (.varDecl k nm (mapBU f ty) (mapBU f init)) = none := by
  cases hcs : checkShape (.varDecl k nm (mapBU f ty) (mapBU f init)) with
  | none => rfl
  | some pr =>
    exfalso
    have hsome : (checkShape (.varDecl k nm (mapBU f ty) (mapBU f init))).isSome = true := by
      rw [hcs]; rfl
    obtain ⟨e, n2, ms, rest, hini⟩ := checkShape_isSome_inv _ _ _ _ hsome
    obtain ⟨e0, a0, hinit0, he, ha⟩ := mapBU_tsAs_inv f hts init _ _ hini
    obtain ⟨ta0, ha0, hta⟩ := mapBU_typeRef_inv f htr a0 n2 _ ha.symm
    obtain ⟨ps0, hta0, hps⟩ := mapBU_typeParamInst_inv f htp ta0 _ hta.symm
    obtain ⟨t00, rest0, hps0, ht00, hrest⟩ := nlMap_cons_inv (mapBU f) ps0 _ _ hps.symm
    obtain ⟨ms0, ht000⟩ := mapBU_typeLit_inv f htl t00 ms ht00.symm
    subst hinit0; subst ha0; subst hta0; subst hps0; subst ht000
    simp [checkShape] at h

theorem badShape_mapC_of (f : Node → Node)
    (hts : ∀ y e a, f y = .tsAs e a → f y = y)
    (htr : ∀ y n ta, f y = .typeRef n ta → f y = y)
    (htp : ∀ y ps, f y = .typeParamInst ps → f y = y)
    (htl : ∀ y ms, f y = .typeLit ms → f y = y)
    (x : Node) (h1 : badShape x = false) :
    badShape (mapC (mapBU f) x) = false := by
  cases x <;> try simp [badShape, mapC, isTestDecl]
  case varDecl k nm ty init =>
    intro hnm
    subst hnm
    cases hcs0 : checkShape (.varDecl k "test" ty init) with
    | some pr => exfalso; rw [badShape, hcs0] at h1; simp [isTestDecl] at h1
    | none => exact checkShape_none_mapBU f hts htr htp htl k "test" ty init hcs0

theorem badShape_mapC_uscr (x : Node) (h1 : badShape x = false) :
    badShape (mapC (mapBU uscrStep) x) = false :=
  badShape_mapC_of uscrStep uscrStep_fix_tsAs uscrStep_fix_typeRef
    uscrStep_fix_typeParamInst uscrStep_fix_typeLit x h1

theorem badShape_mapC_adj (x : Node) (h1 : badShape x = false) :
    badShape (mapC (mapBU adjStep) x) = false :=
  badShape_mapC_of adjStep adjStep_fix_tsAs adjStep_fix_typeRef
    adjStep_fix_typeParamInst adjStep_fix_typeLit x h1

theorem badShape_mapC_ua (x : Node) (h1 : badShape x = false) :
    badShape (mapC (mapBU uaStep) x) = false :=
  badShape_mapC_of uaStep uaStep_fix_tsAs uaStep_fix_typeRef
    uaStep_fix_typeParamInst uaStep_fix_typeLit x h1

theorem badShape_mapC_rw (x : Node) (h1 : badShape x = false) :
    badShape (mapC (mapBU rwStep) x) = false :=
  badShape_mapC_of rwStep rwStep_fix_tsAs rwStep_fix_typeRef
    rwStep_fix_typeParamInst rwStep_fix_typeLit x h1

theorem lifecycle_dest_ne_test (prop dest : String)
    (h : avaToJestLifecycleMethods prop = some dest) : dest ≠ "test" := by
  unfold avaToJestLifecycleMethods at h
  split_ifs at h <;> first
    | exact Option.noConfusion h
    | (injection h with h2; subst h2; decide)

/-! Generic per-pass step lemmas: applying a step to a node whose bad
pattern is absent (given suitable facts about the pattern on replacement
shells) keeps the pattern absent. -/

theorem uscr_hstep (p : Node → Bool) (hid : p (.ident "sharedContext") = false) :
    ∀ x, p x = false → anyC p x = false → anyN p (uscrStep x) = false := by
  intro x h1 h2
  rcases uscrStep_cases x with h | h
  · rw [h]; exact anyN_eq_false_of p x h1 h2
  · rw [h]; simpa [anyN] using hid

theorem adj_hstep (p : Node → Bool)
    (hcall : ∀ args, p (.call (.ident "test") args) = false)
    (hid : ∀ s, p (.ident s) = false)
    (hfa : ∀ ps b, p (.arrowFn ps b) = false)
    (hff : ∀ ps b, p (.funcExpr ps b) = false) :
    ∀ x, p x = false → anyC p x = false → anyN p (adjStep x) = false := by
  intro x h1 h2
  rcases adjStep_eq x with h | ⟨args, hx, h⟩
  · rw [h]; exact anyN_eq_false_of p x h1 h2
  · subst hx; rw [h]
    simp only [anyC, Bool.or_eq_false_iff] at h2
    rw [anyN_eq]
    simp only [anyC, hcall, Bool.false_or]
    simp [h2.1, anyNL_clearParamsAt1 p hfa hff args h2.2]

theorem ua_hstep (p : Node → Bool)
    (hbuild : ∀ prop dest targs, anyNL p targs = false →
      anyN p (uaBuild prop dest targs) = false) :
    ∀ x, p x = false → anyC p x = false → anyN p (uaStep x) = false := by
  intro x h1 h2
  rcases uaStep_eq x with h | ⟨args, prop, dest, hx, hnm, hm, h⟩
  · rw [h]; exact anyN_eq_false_of p x h1 h2
  · subst hx; rw [h]
    simp only [anyC, Bool.or_eq_false_iff] at h2
    exact hbuild prop dest args h2.2

theorem rw_hstep (p : Node → Bool)
    (hcall : ∀ prop dest args, avaToJestLifecycleMethods prop = some dest →
      p (.call (.ident dest) args) = false)
    (hid : ∀ s, p (.ident s) = false)
    (hfa : ∀ ps b, p (.arrowFn ps b) = false)
    (hff : ∀ ps b, p (.funcExpr ps b) = false) :
    ∀ x, p x = false → anyC p x = false → anyN p (rwStep x) = false := by
  intro x h1 h2
  rcases rwStep_eq x with h | ⟨args, prop, dest, hx, hm, h⟩
  · rw [h]; exact anyN_eq_false_of p x h1 h2
  · subst hx; rw [h]
    simp only [anyC, Bool.or_eq_false_iff] at h2
    rw [anyN_eq]
    simp only [anyC, hcall prop dest _ hm, Bool.false_or]
    simp [anyN, hid,
      anyNL_stripParamT p hfa hff _ (anyNL_dropTitle p args h2.2)]

/-! The replacement tree built by uaBuild contains none of the residual
patterns, provided the rewritten argument list contains none. -/

theorem uaBuild_clean_tc (prop dest : String) (targs : NodeList)
    (h : anyNL isTCtx targs = false) :
    anyN isTCtx (uaBuild prop dest targs) = false := by
  have h0 := anyN_jsAt isTCtx rfl targs 0 h
  have h1 := anyN_jsAt isTCtx rfl targs 1 h
  unfold uaBuild
  split_ifs <;> simp [anyN, anyNL, nl, isTCtx, h0, h1]

theorem uaBuild_clean_test (prop dest : String) (targs : NodeList)
    (h : anyNL isTestDecl targs = false) :
    anyN isTestDecl (uaBuild prop dest targs) = false := by
  have h0 := anyN_jsAt isTestDecl rfl targs 0 h
  have h1 := anyN_jsAt isTestDecl rfl targs 1 h
  unfold uaBuild
  split_ifs <;> simp [anyN, anyNL, nl, isTestDecl, h0, h1]

theorem uaBuild_clean_shape (prop dest : String) (targs : NodeList)
    (h : anyNL badShape targs = false) :
    anyN badShape (uaBuild prop dest targs) = false := by
  have h0 := anyN_jsAt badShape rfl targs 0 h
  have h1 := anyN_jsAt badShape rfl targs 1 h
  unfold uaBuild
  split_ifs <;> simp [anyN, anyNL, nl, badShape, isTestDecl, h0, h1]

theorem uaBuild_clean_badAdj (prop dest : String) (targs : NodeList)
    (h : anyNL badAdj targs = false) :
    anyN badAdj (uaBuild prop dest targs) = false := by
  have h0 := anyN_jsAt badAdj rfl targs 0 h
  have h1 := anyN_jsAt badAdj rfl targs 1 h
  unfold uaBuild
  split_ifs <;> simp [anyN, anyNL, nl, badAdj, h0, h1]

theorem uaBuild_clean_badUA (prop dest : String) (targs : NodeList)
    (h : anyNL badUA targs = false) :
    anyN badUA (uaBuild prop dest targs) = false := by
  have h0 := anyN_jsAt badUA rfl targs 0 h
  have h1 := anyN_jsAt badUA rfl targs 1 h
  unfold uaBuild
  split_ifs <;> simp [anyN, anyNL, nl, badUA, tCallProp, h0, h1]

/-! A node fixed by a step carries no residual match of that step. -/

theorem badAdj_false_of_fix (x : Node) (h : adjStep x = x) : badAdj x = false := by
  by_contra hb
  have hb' : badAdj x = true := by simpa using hb
  cases x <;> simp [badAdj] at hb'
  case call c args =>
    obtain ⟨hc, hcl⟩ := hb'
    subst hc
    rw [show adjStep (.call (.ident "test") args) =
        .call (.ident "test") (clearParamsAt1 args) from by simp [adjStep]] at h
    injection h with h1 h2
    exact hcl h2

theorem badUA_false_of_fix (x : Node) (h : uaStep x = x) : badUA x = false := by
  cases x <;> simp [badUA]
  case call c args =>
    cases htc : tCallProp c with
    | none => simp
    | some prop =>
      simp only []
      by_cases hnm : tPropertiesNotMapped prop = true
      · simp [hnm]
      · cases hm : tPropertiesMap prop with
        | none => simp [hm]
        | some dest =>
          exfalso
          rw [show uaStep (.call c args) = uaBuild prop dest args from by
            simp [uaStep, htc, hnm, hm]] at h
          obtain ⟨e, he⟩ := uaBuild_isExprStmt prop dest args
          rw [he] at h
          exact Node.noConfusion h

theorem badRW_false_of_fix (x : Node) (h : rwStep x = x) : badRW x = false := by
  cases x <;> simp [badRW]
  case call c args =>
    cases htc : testCallProp c with
    | none => simp
    | some prop =>
      simp only []
      cases hm : avaToJestLifecycleMethods prop with
      | none => simp [hm]
      | some dest =>
        exfalso
        have hc := testCallProp_inv c prop htc
        subst hc
        rw [show rwStep (.call (.member (.ident "test") prop) args) =
            .call (.ident dest) (stripParamT (dropTitle args)) from by
          simp [rwStep, testCallProp, hm]] at h
        injection h with h1 h2
        exact Node.noConfusion h1

/-! Head stability: rewriting the children of a node free of a residual
pattern cannot make the pattern appear at that node. -/

theorem isTCtx_mapC_of (f : Node → Node)
    (hident : ∀ y s, f y = .ident s → f y = y) :
    ∀ x, isTCtx x = false → isTCtx (mapC (mapBU f) x) = false := by
  intro x h1
  match x with
  | .member obj pr =>
    simp only [mapC, isTCtx, decide_eq_false_iff_not] at h1 ⊢
    rintro ⟨ha, hb⟩
    exact h1 ⟨mapBU_ident_inv f hident obj "t" ha, hb⟩
  | .ident s => rfl
  | .strLit v => rfl
  | .numLit v => rfl
  | .nullLit => rfl
  | .mkUndef => rfl
  | .mkMissing => rfl
  | .call c args => rfl
  | .arrowFn ps b => rfl
  | .funcExpr ps b => rfl
  | .objectExpr ps => rfl
  | .objectProp k v => rfl
  | .tsAs e a => rfl
  | .importDecl s => rfl
  | .varDecl k n ty init => rfl
  | .typeAlias n ty => rfl
  | .exprStmt e => rfl
  | .typeRef n ta => rfl
  | .typeParamInst ps => rfl
  | .typeLit ms => rfl
  | .propSig k ty => rfl
  | .otherMember => rfl
  | .numberKw => rfl
  | .stringKw => rfl

theorem clearParamsAt1_nlMap (f : Node → Node)
    (hfa : ∀ y ps b, f y = .arrowFn ps b → f y = y)
    (hff : ∀ y ps b, f y = .funcExpr ps b → f y = y)
    (args : NodeList) (h : clearParamsAt1 args = args) :
    clearParamsAt1 (nlMap (mapBU f) args) = nlMap (mapBU f) args := by
  match args with
  | .nil => rfl
  | .cons a0 .nil => rfl
  | .cons a0 (.cons a1 t) =>
    cases hA : mapBU f a1
    case arrowFn ps b =>
      obtain ⟨b0, ha1⟩ := mapBU_arrowFn_inv f hfa a1 ps b hA
      subst ha1
      have hps : ps = [] := by
        rw [show clearParamsAt1 (.cons a0 (.cons (.arrowFn ps b0) t)) =
            .cons a0 (.cons (.arrowFn [] b0) t) from rfl] at h
        injection h with h1 h2
        injection h2 with h3 h4
        injection h3 with h5 h6
        exact h5.symm
      subst hps
      rw [show nlMap (mapBU f) (.cons a0 (.cons (.arrowFn [] b0) t)) =
          .cons (mapBU f a0) (.cons (mapBU f (.arrowFn [] b0)) (nlMap (mapBU f) t))
          from rfl, hA]
      rfl
    case funcExpr ps b =>
      obtain ⟨b0, ha1⟩ := mapBU_funcExpr_inv f hff a1 ps b hA
      subst ha1
      have hps : ps = [] := by
        rw [show clearParamsAt1 (.cons a0 (.cons (.funcExpr ps b0) t)) =
            .cons a0 (.cons (.funcExpr [] b0) t) from rfl] at h
        injection h with h1 h2
        injection h2 with h3 h4
        injection h3 with h5 h6
        exact h5.symm
      subst hps
      rw [show nlMap (mapBU f) (.cons a0 (.cons (.funcExpr [] b0) t)) =
          .cons (mapBU f a0) (.cons (mapBU f (.funcExpr [] b0)) (nlMap (mapBU f) t))
          from rfl, hA]
      rfl
    all_goals
      rw [show nlMap (mapBU f) (.cons a0 (.cons a1 t)) =
          .cons (mapBU f a0) (.cons (mapBU f a1) (nlMap (mapBU f) t)) from rfl, hA]
    all_goals rfl

theorem badAdj_mapC_of (f : Node → Node)
    (hident : ∀ y s, f y = .ident s → f y = y)
    (hfa : ∀ y ps b, f y = .arrowFn ps b → f y = y)
    (hff : ∀ y ps b, f y = .funcExpr ps b → f y = y) :
    ∀ x, badAdj x = false → badAdj (mapC (mapBU f) x) = false := by
  intro x h1
  match x with
  | .call c args =>
    rw [show mapC (mapBU f) (.call c args) =
        .call (mapBU f c) (nlMap (mapBU f) args) from rfl]
    by_cases hc : mapBU f c = .ident "test"
    · have hc0 := mapBU_ident_inv f hident c "test" hc
      subst hc0
      have hcl : clearParamsAt1 args = args := by
        simp only [badAdj, Bool.and_eq_false_iff, decide_eq_false_iff_not] at h1
        rcases h1 with h1 | h1
        · exact absurd trivial h1
        · simpa using h1
      simp only [badAdj, hc, Bool.and_eq_false_iff, decide_eq_false_iff_not]
      exact Or.inr (by simp [clearParamsAt1_nlMap f hfa hff args hcl])
    · simp [badAdj, hc]
  | .ident s => rfl
  | .strLit v => rfl
  | .numLit v => rfl
  | .nullLit => rfl
  | .mkUndef => rfl
  | .mkMissing => rfl
  | .member obj pr => rfl
  | .arrowFn ps b => rfl
  | .funcExpr ps b => rfl
  | .objectExpr ps => rfl
  | .objectProp k v => rfl
  | .tsAs e a => rfl
  | .importDecl s => rfl
  | .varDecl k n ty init => rfl
  | .typeAlias n ty => rfl
  | .exprStmt e => rfl
  | .typeRef n ta => rfl
  | .typeParamInst ps => rfl
  | .typeLit ms => rfl
  | .propSig k ty => rfl
  | .otherMember => rfl
  | .numberKw => rfl
  | .stringKw => rfl

theorem badUA_mapC_rw :
    ∀ x, badUA x = false → badUA (mapC (mapBU rwStep) x) = false := by
  intro x h1
  match x with
  | .call c args =>
    rw [show mapC (mapBU rwStep) (.call c args) =
        .call (mapBU rwStep c) (nlMap (mapBU rwStep) args) from rfl]
    cases htc : tCallProp (mapBU rwStep c) with
    | none => simp [badUA, htc]
    | some prop =>
      have hFc := tCallProp_inv _ prop htc
      obtain ⟨c0, hc0, hobj⟩ := mapBU_member_inv rwStep rwStep_fix_member c _ _ hFc
      have hc00 := mapBU_ident_inv rwStep rwStep_fix_ident c0 "t" hobj.symm
      subst hc00
      subst hc0
      simp only [badUA, tCallProp, if_pos rfl] at h1
      simp only [badUA, htc]
      exact h1
  | .ident s => rfl
  | .strLit v => rfl
  | .numLit v => rfl
  | .nullLit => rfl
  | .mkUndef => rfl
  | .mkMissing => rfl
  | .member obj pr => rfl
  | .arrowFn ps b => rfl
  | .funcExpr ps b => rfl
  | .objectExpr ps => rfl
  | .objectProp k v => rfl
  | .tsAs e a => rfl
  | .importDecl s => rfl
  | .varDecl k n ty init => rfl
  | .typeAlias n ty => rfl
  | .exprStmt e => rfl
  | .typeRef n ta => rfl
  | .typeParamInst ps => rfl
  | .typeLit ms => rfl
  | .propSig k ty => rfl
  | .otherMember => rfl
  | .numberKw => rfl
  | .stringKw => rfl

/-! Establishment, identity and preservation instances for the four
bottom-up passes, at the program-body level. -/

theorem uscr_hf_tc : ∀ x, anyC isTCtx x = false → anyN isTCtx (uscrStep x) = false := by
  intro x hx
  by_cases h : isTCtx x = true
  · rw [show uscrStep x = .ident "sharedContext" from by simp [uscrStep, h]]
    rfl
  · have h' : isTCtx x = false := by simpa using h
    rw [show uscrStep x = x from by simp [uscrStep, h']]
    exact anyN_eq_false_of _ _ h' hx

theorem uscrL_est (l : NodeList) : anyNL isTCtx (uscrL l) = false :=
  anyNL_mapBUL isTCtx uscrStep uscr_hf_tc l

theorem uscrL_id (l : NodeList) (h : anyNL isTCtx l = false) : uscrL l = l :=
  mapBUL_id isTCtx uscrStep (fun x h1 _ => by simp [uscrStep, h1]) l h

theorem tc_adjL (l : NodeList) (h : anyNL isTCtx l = false) :
    anyNL isTCtx (adjL l) = false :=
  anyNL_mapBUL_pres isTCtx adjStep
    (adj_hstep isTCtx (fun _ => rfl) (fun _ => rfl) (fun _ _ => rfl) (fun _ _ => rfl))
    (isTCtx_mapC_of adjStep adjStep_fix_ident) l h

theorem tc_uaL (l : NodeList) (h : anyNL isTCtx l = false) :
    anyNL isTCtx (uaL l) = false :=
  anyNL_mapBUL_pres isTCtx uaStep (ua_hstep isTCtx uaBuild_clean_tc)
    (isTCtx_mapC_of uaStep uaStep_fix_ident) l h

theorem tc_rwL (l : NodeList) (h : anyNL isTCtx l = false) :
    anyNL isTCtx (rwL l) = false :=
  anyNL_mapBUL_pres isTCtx rwStep
    (rw_hstep isTCtx (fun _ _ _ _ => rfl) (fun _ => rfl) (fun _ _ => rfl) (fun _ _ => rfl))
    (isTCtx_mapC_of rwStep rwStep_fix_ident) l h

theorem adj_hf_badAdj : ∀ x, anyC badAdj x = false → anyN badAdj (adjStep x) = false := by
  intro x hx
  rcases adjStep_eq x with h | ⟨args, hxx, h⟩
  · rw [h]; exact anyN_eq_false_of _ _ (badAdj_false_of_fix x h) hx
  · subst hxx; rw [h]
    simp only [anyC, Bool.or_eq_false_iff] at hx
    rw [anyN_eq]
    have hba : badAdj (.call (.ident "test") (clearParamsAt1 args)) = false := by
      simp [badAdj, clearParamsAt1_idem]
    simp only [hba, Bool.false_or, anyC]
    simp [hx.1, anyNL_clearParamsAt1 badAdj (fun _ _ => rfl) (fun _ _ => rfl) args hx.2]

theorem adjL_est (l : NodeList) : anyNL badAdj (adjL l) = false :=
  anyNL_mapBUL badAdj adjStep adj_hf_badAdj l

theorem adjL_id (l : NodeList) (h : anyNL badAdj l = false) : adjL l = l := by
  refine mapBUL_id badAdj adjStep ?_ l h
  intro x h1 _
  rcases adjStep_eq x with h | ⟨args, hxx, h⟩
  · exact h
  · subst hxx
    have hcl : clearParamsAt1 args = args := by
      simp only [badAdj, Bool.and_eq_false_iff, decide_eq_false_iff_not] at h1
      rcases h1 with h1 | h1
      · exact absurd trivial h1
      · simpa using h1
    rw [h, hcl]

theorem badAdj_uaL (l : NodeList) (h : anyNL badAdj l = false) :
    anyNL badAdj (uaL l) = false :=
  anyNL_mapBUL_pres badAdj uaStep (ua_hstep badAdj uaBuild_clean_badAdj)
    (badAdj_mapC_of uaStep uaStep_fix_ident uaStep_fix_arrowFn uaStep_fix_funcExpr) l h

theorem badAdj_rwL (l : NodeList) (h : anyNL badAdj l = false) :
    anyNL badAdj (rwL l) = false :=
  anyNL_mapBUL_pres badAdj rwStep
    (rw_hstep badAdj
      (fun prop dest args hm => by
        simp [badAdj, lifecycle_dest_ne_test prop dest hm])
      (fun _ => rfl) (fun _ _ => rfl) (fun _ _ => rfl))
    (badAdj_mapC_of rwStep rwStep_fix_ident rwStep_fix_arrowFn rwStep_fix_funcExpr) l h

theorem ua_hf_badUA : ∀ x, anyC badUA x = false → anyN badUA (uaStep x) = false := by
  intro x hx
  rcases uaStep_eq x with h | ⟨args, prop, dest, hxx, hnm, hm, h⟩
  · rw [h]; exact anyN_eq_false_of _ _ (badUA_false_of_fix x h) hx
  · subst hxx; rw [h]
    simp only [anyC, Bool.or_eq_false_iff] at hx
    exact uaBuild_clean_badUA prop dest args hx.2

theorem uaL_est (l : NodeList) : anyNL badUA (uaL l) = false :=
  anyNL_mapBUL badUA uaStep ua_hf_badUA l

theorem uaL_id (l : NodeList) (h : anyNL badUA l = false) : uaL l = l := by
  refine mapBUL_id badUA uaStep ?_ l h
  intro x h1 _
  rcases uaStep_eq x with h | ⟨args, prop, dest, hxx, hnm, hm, h⟩
  · exact h
  · subst hxx
    exfalso
    simp [badUA, tCallProp, hnm, hm] at h1

theorem badUA_rwL (l : NodeList) (h : anyNL badUA l = false) :
    anyNL badUA (rwL l) = false :=
  anyNL_mapBUL_pres badUA rwStep
    (rw_hstep badUA (fun prop dest args hm => by simp [badUA, tCallProp])
      (fun _ => rfl) (fun _ _ => rfl) (fun _ _ => rfl))
    badUA_mapC_rw l h

theorem rw_hf_badRW : ∀ x, anyC badRW x = false → anyN badRW (rwStep x) = false := by
  intro x hx
  rcases rwStep_eq x with h | ⟨args, prop, dest, hxx, hm, h⟩
  · rw [h]; exact anyN_eq_false_of _ _ (badRW_false_of_fix x h) hx
  · subst hxx; rw [h]
    simp only [anyC, Bool.or_eq_false_iff] at hx
    rw [anyN_eq]
    have hbr : badRW (.call (.ident dest) (stripParamT (dropTitle args))) = false := by
      simp [badRW, testCallProp]
    simp only [hbr, Bool.false_or, anyC]
    simp [anyN, badRW, testCallProp,
      anyNL_stripParamT badRW (fun _ _ => rfl) (fun _ _ => rfl) _
        (anyNL_dropTitle badRW args hx.2)]

theorem rwL_est (l : NodeList) : anyNL badRW (rwL l) = false :=
  anyNL_mapBUL badRW rwStep rw_hf_badRW l

theorem rwL_id (l : NodeList) (h : anyNL badRW l = false) : rwL l = l := by
  refine mapBUL_id badRW rwStep ?_ l h
  intro x h1 _
  rcases rwStep_eq x with h | ⟨args, prop, dest, hxx, hm, h⟩
  · exact h
  · subst hxx
    exfalso
    simp [badRW, testCallProp, hm] at h1

theorem test_uscrL (l : NodeList) (h : anyNL isTestDecl l = false) :
    anyNL isTestDecl (uscrL l) = false :=
  anyNL_mapBUL_pres isTestDecl uscrStep (uscr_hstep isTestDecl rfl)
    (fun x h1 => by rw [isTestDecl_mapC]; exact h1) l h

theorem test_adjL (l : NodeList) (h : anyNL isTestDecl l = false) :
    anyNL isTestDecl (adjL l) = false :=
  anyNL_mapBUL_pres isTestDecl adjStep
    (adj_hstep isTestDecl (fun _ => rfl) (fun _ => rfl) (fun _ _ => rfl) (fun _ _ => rfl))
    (fun x h1 => by rw [isTestDecl_mapC]; exact h1) l h

theorem test_uaL (l : NodeList) (h : anyNL isTestDecl l = false) :
    anyNL isTestDecl (uaL l) = false :=
  anyNL_mapBUL_pres isTestDecl uaStep (ua_hstep isTestDecl uaBuild_clean_test)
    (fun x h1 => by rw [isTestDecl_mapC]; exact h1) l h

theorem test_rwL (l : NodeList) (h : anyNL isTestDecl l = false) :
    anyNL isTestDecl (rwL l) = false :=
  anyNL_mapBUL_pres isTestDecl rwStep
    (rw_hstep isTestDecl (fun _ _ _ _ => rfl) (fun _ => rfl) (fun _ _ => rfl)
      (fun _ _ => rfl))
    (fun x h1 => by rw [isTestDecl_mapC]; exact h1) l h

theorem shape_uscrL (l : NodeList) (h : anyNL badShape l = false) :
    anyNL badShape (uscrL l) = false :=
  anyNL_mapBUL_pres badShape uscrStep (uscr_hstep badShape rfl) badShape_mapC_uscr l h

theorem shape_adjL (l : NodeList) (h : anyNL badShape l = false) :
    anyNL badShape (adjL l) = false :=
  anyNL_mapBUL_pres badShape adjStep
    (adj_hstep badShape (fun _ => by simp [badShape, isTestDecl]) (fun _ => rfl)
      (fun _ _ => rfl) (fun _ _ => rfl))
    badShape_mapC_adj l h

theorem shape_uaL (l : NodeList) (h : anyNL badShape l = false) :
    anyNL badShape (uaL l) = false :=
  anyNL_mapBUL_pres badShape uaStep (ua_hstep badShape uaBuild_clean_shape)
    badShape_mapC_ua l h

theorem shape_rwL (l : NodeList) (h : anyNL badShape l = false) :
    anyNL badShape (rwL l) = false :=
  anyNL_mapBUL_pres badShape rwStep
    (rw_hstep badShape (fun _ _ _ _ => by simp [badShape, isTestDecl]) (fun _ => rfl)
      (fun _ _ => rfl) (fun _ _ => rfl))
    badShape_mapC_rw l h

/-! Preservation of the ava-import-free top level through the passes. -/

theorem ava_mapBU_of (f : Node → Node)
    (hfix : ∀ y s, f y = .importDecl s → f y = y) (x : Node)
    (h : isAvaImport x = false) : isAvaImport (mapBU f x) = false := by
  cases hI : mapBU f x <;> try rfl
  case importDecl s =>
    rw [mapBU_importDecl_inv f hfix x s hI] at h
    exact h

theorem anyTop_mapBUL (p : Node → Bool) (f : Node → Node)
    (hhd : ∀ x, p x = false → p (mapBU f x) = false) :
    ∀ l, anyTop p l = false → anyTop p (mapBUL f l) = false
  | .nil, _ => rfl
  | .cons h t, hl => by
    simp only [anyTop, Bool.or_eq_false_iff] at hl
    simp [mapBUL, anyTop, hhd h hl.1, anyTop_mapBUL p f hhd t hl.2]

theorem ava_uscrL (l : NodeList) (h : anyTop isAvaImport l = false) :
    anyTop isAvaImport (uscrL l) = false :=
  anyTop_mapBUL isAvaImport uscrStep
    (ava_mapBU_of uscrStep uscrStep_fix_importDecl) l h

theorem ava_adjL (l : NodeList) (h : anyTop isAvaImport l = false) :
    anyTop isAvaImport (adjL l) = false :=
  anyTop_mapBUL isAvaImport adjStep
    (ava_mapBU_of adjStep adjStep_fix_importDecl) l h

theorem ava_uaL (l : NodeList) (h : anyTop isAvaImport l = false) :
    anyTop isAvaImport (uaL l) = false :=
  anyTop_mapBUL isAvaImport uaStep
    (ava_mapBU_of uaStep uaStep_fix_importDecl) l h

theorem ava_rwL (l : NodeList) (h : anyTop isAvaImport l = false) :
    anyTop isAvaImport (rwL l) = false :=
  anyTop_mapBUL isAvaImport rwStep
    (ava_mapBU_of rwStep rwStep_fix_importDecl) l h

/-! The surgery of generateSharedContext is the identity on trees with no
test declarator, and it preserves node heads. -/

mutual

theorem gsN_id (al nv : Node) :
    ∀ (r : Bool) (n : Node), anyN isTestDecl n = false → gsN al nv r n = (n, r)
  | r, .ident s, _ => rfl
  | r, .strLit v, _ => rfl
  | r, .numLit v, _ => rfl
  | r, .nullLit, _ => rfl
  | r, .mkUndef, _ => rfl
  | r, .mkMissing, _ => rfl
  | r, .member obj prop, h => by
    simp only [anyN, Bool.or_eq_false_iff] at h
    simp [gsN, gsN_id al nv r obj h.2]
  | r, .call c args, h => by
    simp only [anyN, Bool.or_eq_false_iff] at h
    simp [gsN, gsN_id al nv r c h.1.2, gsL_id al nv r args h.2]
  | r, .arrowFn ps body, h => by
    simp only [anyN, Bool.or_eq_false_iff] at h
    simp [gsN, gsL_id al nv r body h.2]
  | r, .funcExpr ps body, h => by
    simp only [anyN, Bool.or_eq_false_iff] at h
    simp [gsN, gsL_id al nv r body h.2]
  | r, .objectExpr props, h => by
    simp only [anyN, Bool.or_eq_false_iff] at h
    simp [gsN, gsL_id al nv r props h.2]
  | r, .objectProp k v, h => by
    simp only [anyN, Bool.or_eq_false_iff] at h
    simp [gsN, gsN_id al nv r v h.2]
  | r, .tsAs e ann, h => by
    simp only [anyN, Bool.or_eq_false_iff] at h
    simp [gsN, gsN_id al nv r e h.1.2, gsN_id al nv r ann h.2]
  | r, .importDecl s, _ => rfl
  | r, .varDecl k n ty init, h => by
    simp only [anyN, Bool.or_eq_false_iff] at h
    simp [gsN, gsN_id al nv r ty h.1.2, gsN_id al nv r init h.2]
  | r, .typeAlias n ty, h => by
    simp only [anyN, Bool.or_eq_false_iff] at h
    simp [gsN, gsN_id al nv r ty h.2]
  | r, .exprStmt e, h => by
    simp only [anyN, Bool.or_eq_false_iff] at h
    simp [gsN, gsN_id al nv r e h.2]
  | r, .typeRef n ta, h => by
    simp only [anyN, Bool.or_eq_false_iff] at h
    simp [gsN, gsN_id al nv r ta h.2]
  | r, .typeParamInst ps, h => by
    simp only [anyN, Bool.or_eq_false_iff] at h
    simp [gsN, gsL_id al nv r ps h.2]
  | r, .typeLit ms, h => by
    simp only [anyN, Bool.or_eq_false_iff] at h
    simp [gsN, gsL_id al nv r ms h.2]
  | r, .propSig k ty, h => by
    simp only [anyN, Bool.or_eq_false_iff] at h
    simp [gsN, gsN_id al nv r ty h.2]
  | r, .otherMember, _ => rfl
  | r, .numberKw, _ => rfl
  | r, .stringKw, _ => rfl

theorem gsL_id (al nv : Node) :
    ∀ (r : Bool) (l : NodeList), anyNL isTestDecl l = false → gsL al nv r l = (l, r)
  | r, .nil, _ => rfl
  | r, .cons hd t, h => by
    simp only [anyNL, Bool.or_eq_false_iff] at h
    have hhd : isTestDecl hd = false := by
      have := h.1
      rw [anyN_eq] at this
      exact (Bool.or_eq_false_iff.mp this).1
    simp [gsL, hhd, gsN_id al nv r hd h.1, gsL_id al nv r t h.2]

end

theorem cnt_test_zero_of_ava (x : Node) (h : isAvaImport x = true) :
    cntN isTestDecl x = 0 := by
  cases x <;> simp [isAvaImport] at h <;> rfl

theorem rm_cnt_test : ∀ l : NodeList,
    cntNL isTestDecl (removeImport l) = cntNL isTestDecl l
  | .nil => rfl
  | .cons hd t => by
    by_cases ha : isAvaImport hd = true
    · simp [removeImport, ha, cntNL, cnt_test_zero_of_ava hd ha, rm_cnt_test t]
    · simp [removeImport, ha, cntNL, rm_cnt_test t]

theorem rm_wp : ∀ l : NodeList, anyNL wpBad l = false →
    anyNL wpBad (removeImport l) = false
  | .nil, h => h
  | .cons hd t, h => by
    simp only [anyNL, Bool.or_eq_false_iff] at h
    by_cases ha : isAvaImport hd = true
    · simp [removeImport, ha, rm_wp t h.2]
    · simp [removeImport, ha, anyNL, h.1, rm_wp t h.2]

theorem cnt_mkProps : ∀ ms : NodeList, cntNL isTestDecl (mkProps ms) = 0
  | .nil => rfl
  | .cons m t => by
    cases m <;> simp [mkProps, cntNL, cntN, isTestDecl, cnt_mkProps t]

theorem p_false_of_anyN (p : Node → Bool) (n : Node) (h : anyN p n = false) :
    p n = false := by
  rw [anyN_eq] at h; exact (Bool.or_eq_false_iff.mp h).1

theorem checkShape_some_full (d al nv : Node) (h : checkShape d = some (al, nv)) :
    ∃ k nm ty e n2 ms rest,
      d = .varDecl k nm ty
        (.tsAs e (.typeRef n2 (.typeParamInst (.cons (.typeLit ms) rest)))) ∧
      al = .typeAlias "SharedContextType" (.typeLit ms) ∧
      nv = .varDecl "const" "sharedContext" (.typeRef "SharedContextType" .mkMissing)
        (.objectExpr (mkProps ms)) := by
  have hsome : (checkShape d).isSome = true := by rw [h]; rfl
  cases d <;> try (simp [checkShape] at hsome)
  case varDecl k nm ty init =>
    have hsome2 : (checkShape (.varDecl k nm ty init)).isSome = true := by rw [h]; rfl
    obtain ⟨e, n2, ms, rest, hini⟩ := checkShape_isSome_inv k nm ty init hsome2
    subst hini
    have hred : checkShape (.varDecl k nm ty
        (.tsAs e (.typeRef n2 (.typeParamInst (.cons (.typeLit ms) rest))))) =
        some (.typeAlias "SharedContextType" (.typeLit ms),
          .varDecl "const" "sharedContext" (.typeRef "SharedContextType" .mkMissing)
            (.objectExpr (mkProps ms))) := rfl
    rw [hred] at h
    simp only [Option.some.injEq, Prod.mk.injEq] at h
    exact ⟨k, nm, ty, e, n2, ms, rest, rfl, h.1.symm, h.2.symm⟩

theorem gsc_none (l : NodeList) (hf : findNL isTestDecl l = none) :
    generateSharedContext l = l := by
  unfold generateSharedContext
  rw [hf]

theorem gsc_fail (l : NodeList) (d : Node) (hf : findNL isTestDecl l = some d)
    (hcs : checkShape d = none) : generateSharedContext l = l := by
  unfold generateSharedContext
  rw [hf]
  show (match checkShape d with
        | none => l
        | some (al, nv) => (gsL al nv false l).1) = l
  rw [hcs]

theorem gsc_succ (l : NodeList) (d al nv : Node) (hf : findNL isTestDecl l = some d)
    (hcs : checkShape d = some (al, nv)) :
    generateSharedContext l = (gsL al nv false l).1 := by
  unfold generateSharedContext
  rw [hf]
  show (match checkShape d with
        | none => l
        | some (al2, nv2) => (gsL al2 nv2 false l).1) = (gsL al nv false l).1
  rw [hcs]

theorem gsN_ava (al nv : Node) : ∀ (r : Bool) (n : Node),
    isAvaImport ((gsN al nv r n).1) = isAvaImport n := by
  intro r n
  cases n <;> rfl

theorem gsL_ava (al nv : Node) (hal : isAvaImport al = false)
    (hnv : isAvaImport nv = false) :
    ∀ (r : Bool) (l : NodeList), anyTop isAvaImport l = false →
      anyTop isAvaImport (gsL al nv r l).1 = false
  | r, .nil, h => h
  | r, .cons hd t, h => by
    simp only [anyTop, Bool.or_eq_false_iff] at h
    by_cases ht : isTestDecl hd = true
    · by_cases hr : r = true
      · subst hr
        rcases hP : gsN al nv true hd with ⟨h2, r2⟩
        rcases hQ : gsL al nv r2 t with ⟨t2, r3⟩
        have hh2 : isAvaImport h2 = false := by
          have hg := gsN_ava al nv true hd
          rw [hP] at hg
          rw [show ((h2, r2) : Node × Bool).1 = h2 from rfl] at hg
          rw [hg]; exact h.1
        have ht2 : anyTop isAvaImport t2 = false := by
          have hg := gsL_ava al nv hal hnv r2 t h.2
          rw [hQ] at hg
          exact hg
        simp [gsL, ht, hP, hQ, anyTop, hal, hnv, hh2, ht2]
      · have hr' : r = false := by simpa using hr
        subst hr'
        rcases hQ : gsL al nv true t with ⟨t2, r2⟩
        have ht2 : anyTop isAvaImport t2 = false := by
          have hg := gsL_ava al nv hal hnv true t h.2
          rw [hQ] at hg
          exact hg
        simp [gsL, ht, hQ, anyTop, hal, hnv, ht2]
    · rcases hP : gsN al nv r hd with ⟨h2, r2⟩
      rcases hQ : gsL al nv r2 t with ⟨t2, r3⟩
      have hh2 : isAvaImport h2 = false := by
        have hg := gsN_ava al nv r hd
        rw [hP] at hg
        rw [show ((h2, r2) : Node × Bool).1 = h2 from rfl] at hg
        rw [hg]; exact h.1
      have ht2 : anyTop isAvaImport t2 = false := by
        have hg := gsL_ava al nv hal hnv r2 t h.2
        rw [hQ] at hg
        exact hg
      simp [gsL, ht, hP, hQ, anyTop, hh2, ht2]

theorem gsc_ava (l : NodeList) (h : anyTop isAvaImport l = false) :
    anyTop isAvaImport (generateSharedContext l) = false := by
  cases hf : findNL isTestDecl l with
  | none => rw [gsc_none l hf]; exact h
  | some d =>
    cases hcs : checkShape d with
    | none => rw [gsc_fail l d hf hcs]; exact h
    | some pr =>
      obtain ⟨al2, nv2⟩ := pr
      obtain ⟨k, nm, ty, e, n2, ms, rest, hdeq, hal, hnv⟩ :=
        checkShape_some_full d al2 nv2 hcs
      rw [gsc_succ l d al2 nv2 hf hcs]
      exact gsL_ava al2 nv2 (by rw [hal]; rfl) (by rw [hnv]; rfl) false l h

theorem anyNL_anti (p q : Node → Bool) (h : ∀ x, p x = true → q x = true)
    (l : NodeList) (hq : anyNL q l = false) : anyNL p l = false := by
  by_contra hp
  have hp' : anyNL p l = true := by simpa using hp
  have h1 : cntNL p l ≠ 0 := by
    intro h0
    rw [cntNL_eq_zero p l] at h0
    rw [h0] at hp'
    exact Bool.noConfusion hp'
  have h2 := cntNL_mono p q h l
  have h3 : cntNL q l = 0 := by rw [cntNL_eq_zero]; exact hq
  omega

theorem gsc_id_of_none (l : NodeList) (h : anyNL isTestDecl l = false) :
    generateSharedContext l = l := by
  unfold generateSharedContext
  rw [(findNL_none isTestDecl l).mpr h]

theorem gsc_id_of_shape (l : NodeList) (h : anyNL badShape l = false) :
    generateSharedContext l = l := by
  cases hf : findNL isTestDecl l with
  | none => exact gsc_none l hf
  | some d =>
    cases hcs : checkShape d with
    | none => exact gsc_fail l d hf hcs
    | some pr =>
      exfalso
      have hp := findNL_some_p isTestDecl l d hf
      have hocc := (findNL_occ isTestDecl l d hf).1 badShape
        (by simp [badShape, hp, hcs])
      rw [hocc] at h
      exact Bool.noConfusion h

theorem shape_clean_of (l : NodeList) (hcnt : cntNL isTestDecl l ≤ 1)
    (hd : ∀ d, findNL isTestDecl l = some d → checkShape d = none) :
    anyNL badShape l = false := by
  cases hf : findNL isTestDecl l with
  | none =>
    have h0 := (findNL_none isTestDecl l).mp hf
    exact anyNL_anti badShape isTestDecl
      (fun x hx => by
        have hx' : (isTestDecl x && (checkShape x).isSome) = true := by
          simpa [badShape] using hx
        rw [Bool.and_eq_true] at hx'
        exact hx'.1) l h0
  | some d =>
    have hnone := hd d hf
    have hp := findNL_some_p isTestDecl l d hf
    by_contra hb
    have hb' : anyNL badShape l = true := by simpa using hb
    have h1 : cntNL badShape l ≠ 0 := by
      intro h0
      rw [cntNL_eq_zero badShape l] at h0
      rw [h0] at hb'
      exact Bool.noConfusion hb'
    have h2 := (findNL_occ isTestDecl l d hf).2 (fun x => decide (x = d))
    have h2' : 1 ≤ cntNL (fun x => decide (x = d)) l :=
      le_trans (le_cntN_self _ d (by simp)) h2
    have hadd := cntNL_add_disj badShape (fun x => decide (x = d))
      (by
        rintro x ⟨hbx, hxd⟩
        have hxd' : x = d := by simpa using hxd
        subst hxd'
        simp [badShape, hp, hnone] at hbx) l
    have hmono := cntNL_mono (fun x => badShape x || decide (x = d)) isTestDecl
      (by
        intro x hx
        rw [Bool.or_eq_true] at hx
        rcases hx with hx | hx
        · have hx' : (isTestDecl x && (checkShape x).isSome) = true := by
            simpa [badShape] using hx
          rw [Bool.and_eq_true] at hx'
          exact hx'.1
        · have hxd' : x = d := by simpa using hx
          subst hxd'
          exact hp) l
    omega

mutual

theorem gsN_rm (al nv : Node) (hal : cntN isTestDecl al = 0)
    (hnv : cntN isTestDecl nv = 0) :
    ∀ n : Node, anyN wpBad n = false → isTestDecl n = false →
      cntN isTestDecl n = 1 →
      cntN isTestDecl (gsN al nv false n).1 = 0 ∧ (gsN al nv false n).2 = true
  | .ident s, _, _, hcnt => by simp [cntN, isTestDecl] at hcnt
  | .strLit v, _, _, hcnt => by simp [cntN, isTestDecl] at hcnt
  | .numLit v, _, _, hcnt => by simp [cntN, isTestDecl] at hcnt
  | .nullLit, _, _, hcnt => by simp [cntN, isTestDecl] at hcnt
  | .mkUndef, _, _, hcnt => by simp [cntN, isTestDecl] at hcnt
  | .mkMissing, _, _, hcnt => by simp [cntN, isTestDecl] at hcnt
  | .importDecl s, _, _, hcnt => by simp [cntN, isTestDecl] at hcnt
  | .otherMember, _, _, hcnt => by simp [cntN, isTestDecl] at hcnt
  | .numberKw, _, _, hcnt => by simp [cntN, isTestDecl] at hcnt
  | .stringKw, _, _, hcnt => by simp [cntN, isTestDecl] at hcnt
  | .member obj prop, hw, _, hcnt => by
    simp only [anyN, Bool.or_eq_false_iff] at hw
    have hobj : isTestDecl obj = false := by simpa [wpBad] using hw.1
    simp [cntN, isTestDecl] at hcnt
    obtain ⟨ih1, ih2⟩ := gsN_rm al nv hal hnv obj hw.2 hobj hcnt
    rcases hP : gsN al nv false obj with ⟨o2, r2⟩
    rw [hP] at ih1 ih2
    have ih1' : cntN isTestDecl o2 = 0 := ih1
    have ih2' : r2 = true := ih2
    subst ih2'
    exact ⟨by simp [gsN, hP, cntN, isTestDecl, ih1'], by simp [gsN, hP]⟩
  | .objectProp k v, hw, _, hcnt => by
    simp only [anyN, Bool.or_eq_false_iff] at hw
    have hv : isTestDecl v = false := by simpa [wpBad] using hw.1
    simp [cntN, isTestDecl] at hcnt
    obtain ⟨ih1, ih2⟩ := gsN_rm al nv hal hnv v hw.2 hv hcnt
    rcases hP : gsN al nv false v with ⟨v2, r2⟩
    rw [hP] at ih1 ih2
    have ih1' : cntN isTestDecl v2 = 0 := ih1
    have ih2' : r2 = true := ih2
    subst ih2'
    exact ⟨by simp [gsN, hP, cntN, isTestDecl, ih1'], by simp [gsN, hP]⟩
  | .typeAlias nm ty, hw, _, hcnt => by
    simp only [anyN, Bool.or_eq_false_iff] at hw
    have hty : isTestDecl ty = false := by simpa [wpBad] using hw.1
    simp [cntN, isTestDecl] at hcnt
    obtain ⟨ih1, ih2⟩ := gsN_rm al nv hal hnv ty hw.2 hty hcnt
    rcases hP : gsN al nv false ty with ⟨t2, r2⟩
    rw [hP] at ih1 ih2
    have ih1' : cntN isTestDecl t2 = 0 := ih1
    have ih2' : r2 = true := ih2
    subst ih2'
    exact ⟨by simp [gsN, hP, cntN, isTestDecl, ih1'], by simp [gsN, hP]⟩
  | .exprStmt e, hw, _, hcnt => by
    simp only [anyN, Bool.or_eq_false_iff] at hw
    have he : isTestDecl e = false := by simpa [wpBad] using hw.1
    simp [cntN, isTestDecl] at hcnt
    obtain ⟨ih1, ih2⟩ := gsN_rm al nv hal hnv e hw.2 he hcnt
    rcases hP : gsN al nv false e with ⟨e2, r2⟩
    rw [hP] at ih1 ih2
    have ih1' : cntN isTestDecl e2 = 0 := ih1
    have ih2' : r2 = true := ih2
    subst ih2'
    exact ⟨by simp [gsN, hP, cntN, isTestDecl, ih1'], by simp [gsN, hP]⟩
  | .typeRef nm ta, hw, _, hcnt => by
    simp only [anyN, Bool.or_eq_false_iff] at hw
    have hta : isTestDecl ta = false := by simpa [wpBad] using hw.1
    simp [cntN, isTestDecl] at hcnt
    obtain ⟨ih1, ih2⟩ := gsN_rm al nv hal hnv ta hw.2 hta hcnt
    rcases hP : gsN al nv false ta with ⟨t2, r2⟩
    rw [hP] at ih1 ih2
    have ih1' : cntN isTestDecl t2 = 0 := ih1
    have ih2' : r2 = true := ih2
    subst ih2'
    exact ⟨by simp [gsN, hP, cntN, isTestDecl, ih1'], by simp [gsN, hP]⟩
  | .propSig k ty, hw, _, hcnt => by
    simp only [anyN, Bool.or_eq_false_iff] at hw
    have hty : isTestDecl ty = false := by simpa [wpBad] using hw.1
    simp [cntN, isTestDecl] at hcnt
    obtain ⟨ih1, ih2⟩ := gsN_rm al nv hal hnv ty hw.2 hty hcnt
    rcases hP : gsN al nv false ty with ⟨t2, r2⟩
    rw [hP] at ih1 ih2
    have ih1' : cntN isTestDecl t2 = 0 := ih1
    have ih2' : r2 = true := ih2
    subst ih2'
    exact ⟨by simp [gsN, hP, cntN, isTestDecl, ih1'], by simp [gsN, hP]⟩
  | .arrowFn ps body, hw, _, hcnt => by
    simp only [anyN, Bool.or_eq_false_iff] at hw
    simp [cntN, isTestDecl] at hcnt
    obtain ⟨ih1, ih2⟩ := gsL_rm al nv hal hnv body hw.2 hcnt
    rcases hQ : gsL al nv false body with ⟨b2, r2⟩
    rw [hQ] at ih1 ih2
    have ih1' : cntNL isTestDecl b2 = 0 := ih1
    have ih2' : r2 = true := ih2
    subst ih2'
    exact ⟨by simp [gsN, hQ, cntN, isTestDecl, ih1'], by simp [gsN, hQ]⟩
  | .funcExpr ps body, hw, _, hcnt => by
    simp only [anyN, Bool.or_eq_false_iff] at hw
    simp [cntN, isTestDecl] at hcnt
    obtain ⟨ih1, ih2⟩ := gsL_rm al nv hal hnv body hw.2 hcnt
    rcases hQ : gsL al nv false body with ⟨b2, r2⟩
    rw [hQ] at ih1 ih2
    have ih1' : cntNL isTestDecl b2 = 0 := ih1
    have ih2' : r2 = true := ih2
    subst ih2'
    exact ⟨by simp [gsN, hQ, cntN, isTestDecl, ih1'], by simp [gsN, hQ]⟩
  | .objectExpr props, hw, _, hcnt => by
    simp only [anyN, Bool.or_eq_false_iff] at hw
    simp [cntN, isTestDecl] at hcnt
    obtain ⟨ih1, ih2⟩ := gsL_rm al nv hal hnv props hw.2 hcnt
    rcases hQ : gsL al nv false props with ⟨p2, r2⟩
    rw [hQ] at ih1 ih2
    have ih1' : cntNL isTestDecl p2 = 0 := ih1
    have ih2' : r2 = true := ih2
    subst ih2'
    exact ⟨by simp [gsN, hQ, cntN, isTestDecl, ih1'], by simp [gsN, hQ]⟩
  | .typeParamInst ps, hw, _, hcnt => by
    simp only [anyN, Bool.or_eq_false_iff] at hw
    simp [cntN, isTestDecl] at hcnt
    obtain ⟨ih1, ih2⟩ := gsL_rm al nv hal hnv ps hw.2 hcnt
    rcases hQ : gsL al nv false ps with ⟨p2, r2⟩
    rw [hQ] at ih1 ih2
    have ih1' : cntNL isTestDecl p2 = 0 := ih1
    have ih2' : r2 = true := ih2
    subst ih2'
    exact ⟨by simp [gsN, hQ, cntN, isTestDecl, ih1'], by simp [gsN, hQ]⟩
  | .typeLit ms, hw, _, hcnt => by
    simp only [anyN, Bool.or_eq_false_iff] at hw
    simp [cntN, isTestDecl] at hcnt
    obtain ⟨ih1, ih2⟩ := gsL_rm al nv hal hnv ms hw.2 hcnt
    rcases hQ : gsL al nv false ms with ⟨m2, r2⟩
    rw [hQ] at ih1 ih2
    have ih1' : cntNL isTestDecl m2 = 0 := ih1
    have ih2' : r2 = true := ih2
    subst ih2'
    exact ⟨by simp [gsN, hQ, cntN, isTestDecl, ih1'], by simp [gsN, hQ]⟩
  | .tsAs e ann, hw, _, hcnt => by
    simp only [anyN, Bool.or_eq_false_iff] at hw
    have hpair : isTestDecl e = false ∧ isTestDecl ann = false := by
      simpa [wpBad] using hw.1.1
    simp [cntN, isTestDecl] at hcnt
    by_cases h1 : cntN isTestDecl e = 1
    · have hann0 : cntN isTestDecl ann = 0 := by omega
      obtain ⟨ih1, ih2⟩ := gsN_rm al nv hal hnv e hw.1.2 hpair.1 h1
      rcases hP : gsN al nv false e with ⟨e2, r2⟩
      rw [hP] at ih1 ih2
      have ih1' : cntN isTestDecl e2 = 0 := ih1
      have ih2' : r2 = true := ih2
      subst ih2'
      have hQ : gsN al nv true ann = (ann, true) :=
        gsN_id al nv true ann (by rw [← cntN_eq_zero]; exact hann0)
      exact ⟨by simp [gsN, hP, hQ, cntN, isTestDecl, ih1', hann0],
             by simp [gsN, hP, hQ]⟩
    · have he0 : cntN isTestDecl e = 0 := by omega
      have hann1 : cntN isTestDecl ann = 1 := by omega
      have hP : gsN al nv false e = (e, false) :=
        gsN_id al nv false e (by rw [← cntN_eq_zero]; exact he0)
      obtain ⟨ih1, ih2⟩ := gsN_rm al nv hal hnv ann hw.2 hpair.2 hann1
      rcases hQ : gsN al nv false ann with ⟨a2, r2⟩
      rw [hQ] at ih1 ih2
      have ih1' : cntN isTestDecl a2 = 0 := ih1
      have ih2' : r2 = true := ih2
      subst ih2'
      exact ⟨by simp [gsN, hP, hQ, cntN, isTestDecl, ih1', he0],
             by simp [gsN, hP, hQ]⟩
  | .varDecl k nm ty init, hw, ht, hcnt => by
    simp only [anyN, Bool.or_eq_false_iff] at hw
    have hpair : isTestDecl ty = false ∧ isTestDecl init = false := by
      simpa [wpBad] using hw.1.1
    have hnm : ¬ nm = "test" := by simpa [isTestDecl] using ht
    simp [cntN, ht] at hcnt
    by_cases h1 : cntN isTestDecl ty = 1
    · have hini0 : cntN isTestDecl init = 0 := by omega
      obtain ⟨ih1, ih2⟩ := gsN_rm al nv hal hnv ty hw.1.2 hpair.1 h1
      rcases hP : gsN al nv false ty with ⟨t2, r2⟩
      rw [hP] at ih1 ih2
      have ih1' : cntN isTestDecl t2 = 0 := ih1
      have ih2' : r2 = true := ih2
      subst ih2'
      have hQ : gsN al nv true init = (init, true) :=
        gsN_id al nv true init (by rw [← cntN_eq_zero]; exact hini0)
      exact ⟨by simp [gsN, hP, hQ, cntN, isTestDecl, hnm, ih1', hini0],
             by simp [gsN, hP, hQ]⟩
    · have hty0 : cntN isTestDecl ty = 0 := by omega
      have hini1 : cntN isTestDecl init = 1 := by omega
      have hP : gsN al nv false ty = (ty, false) :=
        gsN_id al nv false ty (by rw [← cntN_eq_zero]; exact hty0)
      obtain ⟨ih1, ih2⟩ := gsN_rm al nv hal hnv init hw.2 hpair.2 hini1
      rcases hQ : gsN al nv false init with ⟨i2, r2⟩
      rw [hQ] at ih1 ih2
      have ih1' : cntN isTestDecl i2 = 0 := ih1
      have ih2' : r2 = true := ih2
      subst ih2'
      exact ⟨by simp [gsN, hP, hQ, cntN, isTestDecl, hnm, ih1', hty0],
             by simp [gsN, hP, hQ]⟩
  | .call c args, hw, _, hcnt => by
    simp only [anyN, Bool.or_eq_false_iff] at hw
    have hc : isTestDecl c = false := by simpa [wpBad] using hw.1.1
    simp [cntN, isTestDecl] at hcnt
    by_cases h1 : cntN isTestDecl c = 1
    · have hargs0 : cntNL isTestDecl args = 0 := by omega
      obtain ⟨ih1, ih2⟩ := gsN_rm al nv hal hnv c hw.1.2 hc h1
      rcases hP : gsN al nv false c with ⟨c2, r2⟩
      rw [hP] at ih1 ih2
      have ih1' : cntN isTestDecl c2 = 0 := ih1
      have ih2' : r2 = true := ih2
      subst ih2'
      have hQ : gsL al nv true args = (args, true) :=
        gsL_id al nv true args (by rw [← cntNL_eq_zero]; exact hargs0)
      exact ⟨by simp [gsN, hP, hQ, cntN, isTestDecl, ih1', hargs0],
             by simp [gsN, hP, hQ]⟩
    · have hc0 : cntN isTestDecl c = 0 := by omega
      have hargs1 : cntNL isTestDecl args = 1 := by omega
      have hP : gsN al nv false c = (c, false) :=
        gsN_id al nv false c (by rw [← cntN_eq_zero]; exact hc0)
      obtain ⟨ih1, ih2⟩ := gsL_rm al nv hal hnv args hw.2 hargs1
      rcases hQ : gsL al nv false args with ⟨a2, r2⟩
      rw [hQ] at ih1 ih2
      have ih1' : cntNL isTestDecl a2 = 0 := ih1
      have ih2' : r2 = true := ih2
      subst ih2'
      exact ⟨by simp [gsN, hP, hQ, cntN, isTestDecl, ih1', hc0],
             by simp [gsN, hP, hQ]⟩

theorem gsL_rm (al nv : Node) (hal : cntN isTestDecl al = 0)
    (hnv : cntN isTestDecl nv = 0) :
    ∀ l : NodeList, anyNL wpBad l = false → cntNL isTestDecl l = 1 →
      cntNL isTestDecl (gsL al nv false l).1 = 0 ∧ (gsL al nv false l).2 = true
  | .nil, _, hcnt => by simp [cntNL] at hcnt
  | .cons hd t, hw, hcnt => by
    simp only [anyNL, Bool.or_eq_false_iff] at hw
    simp only [cntNL] at hcnt
    by_cases ht : isTestDecl hd = true
    · have h1 : 1 ≤ cntN isTestDecl hd := le_cntN_self _ hd ht
      have hct : cntNL isTestDecl t = 0 := by omega
      have hQ : gsL al nv true t = (t, true) :=
        gsL_id al nv true t (by rw [← cntNL_eq_zero]; exact hct)
      exact ⟨by simp [gsL, ht, hQ, cntNL, hal, hnv, hct],
             by simp [gsL, ht, hQ]⟩
    · have ht' : isTestDecl hd = false := by simpa using ht
      by_cases hc1 : cntN isTestDecl hd = 1
      · have hct : cntNL isTestDecl t = 0 := by omega
        obtain ⟨ih1, ih2⟩ := gsN_rm al nv hal hnv hd hw.1 ht' hc1
        rcases hP : gsN al nv false hd with ⟨h2, r2⟩
        rw [hP] at ih1 ih2
        have ih1' : cntN isTestDecl h2 = 0 := ih1
        have ih2' : r2 = true := ih2
        subst ih2'
        have hQ : gsL al nv true t = (t, true) :=
          gsL_id al nv true t (by rw [← cntNL_eq_zero]; exact hct)
        exact ⟨by simp [gsL, ht', hP, hQ, cntNL, ih1', hct],
               by simp [gsL, ht', hP, hQ]⟩
      · have hc0 : cntN isTestDecl hd = 0 := by omega
        have hct : cntNL isTestDecl t = 1 := by omega
        have hP : gsN al nv false hd = (hd, false) :=
          gsN_id al nv false hd (by rw [← cntN_eq_zero]; exact hc0)
        obtain ⟨ih1, ih2⟩ := gsL_rm al nv hal hnv t hw.2 hct
        rcases hQ : gsL al nv false t with ⟨t2, r2⟩
        rw [hQ] at ih1 ih2
        have ih1' : cntNL isTestDecl t2 = 0 := ih1
        have ih2' : r2 = true := ih2
        subst ih2'
        exact ⟨by simp [gsL, ht', hP, hQ, cntNL, ih1', hc0],
               by simp [gsL, ht', hP, hQ]⟩

end

theorem gsc_success_cnt (l : NodeList) (hwp : anyNL wpBad l = false)
    (hcnt : cntNL isTestDecl l ≤ 1) (d al nv : Node)
    (hf : findNL isTestDecl l = some d) (hcs : checkShape d = some (al, nv)) :
    cntNL isTestDecl (generateSharedContext l) = 0 := by
  have hp := findNL_some_p isTestDecl l d hf
  have hocc := (findNL_occ isTestDecl l d hf).2 isTestDecl
  have hd1 : 1 ≤ cntN isTestDecl d := le_cntN_self _ d hp
  have hc1 : cntNL isTestDecl l = 1 := by omega
  obtain ⟨k, nm, ty, e, n2, ms, rest, hdeq, hal, hnv⟩ :=
    checkShape_some_full d al nv hcs
  have hd_eq : cntN isTestDecl d = 1 := by omega
  have hnmt : nm = "test" := by
    rw [hdeq] at hp
    simpa [isTestDecl] using hp
  subst hnmt
  subst hdeq
  have hms : cntNL isTestDecl ms = 0 := by
    simp [cntN, cntNL, isTestDecl] at hd_eq
    omega
  have hal0 : cntN isTestDecl al = 0 := by
    subst hal
    simp [cntN, cntNL, isTestDecl, hms]
  have hnv0 : cntN isTestDecl nv = 0 := by
    subst hnv
    simp [cntN, cntNL, isTestDecl, cnt_mkProps]
  obtain ⟨h1, h2⟩ := gsL_rm al nv hal0 hnv0 l hwp hc1
  rw [gsc_succ l _ al nv hf hcs]
  exact h1

theorem wpBad_le_innerTest (x : Node) (h : wpBad x = true) : innerTest x = true := by
  cases x <;> simp only [wpBad] at h <;> try exact Bool.noConfusion h
  case member obj prop => simp [innerTest, anyC, anyN_self _ _ h]
  case call c args => simp [innerTest, anyC, anyN_self _ _ h]
  case objectProp k v => simp [innerTest, anyC, anyN_self _ _ h]
  case tsAs e ann =>
    rw [Bool.or_eq_true] at h
    rcases h with h | h <;> simp [innerTest, anyC, anyN_self _ _ h]
  case varDecl k n ty init =>
    rw [Bool.or_eq_true] at h
    rcases h with h | h <;> simp [innerTest, anyC, anyN_self _ _ h]
  case typeAlias n ty => simp [innerTest, anyC, anyN_self _ _ h]
  case exprStmt e => simp [innerTest, anyC, anyN_self _ _ h]
  case typeRef n ta => simp [innerTest, anyC, anyN_self _ _ h]
  case propSig k ty => simp [innerTest, anyC, anyN_self _ _ h]

theorem wp_of_top (x : NodeList) (h : anyNL innerTest x = false) :
    anyNL wpBad x = false :=
  anyNL_anti wpBad innerTest wpBad_le_innerTest x h

theorem uaNest_le_badUA (x : Node) (h : uaNest x = true) : badUA x = true := by
  cases x <;> try exact Bool.noConfusion h
  case call c args =>
    rw [show uaNest (.call c args) = (badUA (.call c args) && anyNL badUA args)
      from rfl, Bool.and_eq_true] at h
    exact h.1

theorem uaArgCrash_le_badUA (x : Node) (h : uaArgCrash x = true) :
    badUA x = true := by
  cases x <;> try exact Bool.noConfusion h
  case call c args =>
    cases htc : tCallProp c with
    | none => simp [uaArgCrash, htc] at h
    | some prop =>
      by_cases hnm : tPropertiesNotMapped prop = true
      · simp [uaArgCrash, htc, hnm] at h
      · cases hm : tPropertiesMap prop with
        | none => simp [uaArgCrash, htc, hnm, hm] at h
        | some dest => simp [badUA, htc, hnm, hm]

theorem anyN_of_found (p q : Node → Bool) (l : NodeList) (d : Node)
    (hf : findNL p l = some d) (h : anyNL q l = false) : anyN q d = false := by
  have hocc := (findNL_occ p l d hf).2 q
  have h0 : cntNL q l = 0 := by rw [cntNL_eq_zero]; exact h
  have h1 : cntN q d = 0 := by omega
  rw [← cntN_eq_zero]
  exact h1

theorem mkProps_free (q : Node → Bool)
    (hq : ∀ k, anyN q (.objectProp k .nullLit) = false) :
    ∀ ms : NodeList, anyNL q (mkProps ms) = false
  | .nil => rfl
  | .cons hd t => by
    have ih := mkProps_free q hq t
    cases hd <;> simp [mkProps, anyNL, ih, hq]

theorem gsN_of_anyC (al nv : Node) : ∀ (r : Bool) (n : Node),
    anyC isTestDecl n = false → gsN al nv r n = (n, r)
  | r, .ident s, _ => rfl
  | r, .strLit v, _ => rfl
  | r, .numLit v, _ => rfl
  | r, .nullLit, _ => rfl
  | r, .mkUndef, _ => rfl
  | r, .mkMissing, _ => rfl
  | r, .importDecl s, _ => rfl
  | r, .otherMember, _ => rfl
  | r, .numberKw, _ => rfl
  | r, .stringKw, _ => rfl
  | r, .member obj prop, h => by
    simp only [anyC] at h
    simp [gsN, gsN_id al nv r obj h]
  | r, .call c args, h => by
    simp only [anyC, Bool.or_eq_false_iff] at h
    simp [gsN, gsN_id al nv r c h.1, gsL_id al nv r args h.2]
  | r, .arrowFn ps body, h => by
    simp only [anyC] at h
    simp [gsN, gsL_id al nv r body h]
  | r, .funcExpr ps body, h => by
    simp only [anyC] at h
    simp [gsN, gsL_id al nv r body h]
  | r, .objectExpr props, h => by
    simp only [anyC] at h
    simp [gsN, gsL_id al nv r props h]
  | r, .objectProp k v, h => by
    simp only [anyC] at h
    simp [gsN, gsN_id al nv r v h]
  | r, .tsAs e ann, h => by
    simp only [anyC, Bool.or_eq_false_iff] at h
    simp [gsN, gsN_id al nv r e h.1, gsN_id al nv r ann h.2]
  | r, .varDecl k n ty init, h => by
    simp only [anyC, Bool.or_eq_false_iff] at h
    simp [gsN, gsN_id al nv r ty h.1, gsN_id al nv r init h.2]
  | r, .typeAlias n ty, h => by
    simp only [anyC] at h
    simp [gsN, gsN_id al nv r ty h]
  | r, .exprStmt e, h => by
    simp only [anyC] at h
    simp [gsN, gsN_id al nv r e h]
  | r, .typeRef n ta, h => by
    simp only [anyC] at h
    simp [gsN, gsN_id al nv r ta h]
  | r, .typeParamInst ps, h => by
    simp only [anyC] at h
    simp [gsN, gsL_id al nv r ps h]
  | r, .typeLit ms, h => by
    simp only [anyC] at h
    simp [gsN, gsL_id al nv r ms h]
  | r, .propSig k ty, h => by
    simp only [anyC] at h
    simp [gsN, gsN_id al nv r ty h]

theorem gsL_pres_q (q : Node → Bool) (al nv : Node)
    (hal : anyN q al = false) (hnv : anyN q nv = false) :
    ∀ (r : Bool) (l : NodeList), anyNL innerTest l = false → anyNL q l = false →
      anyNL q (gsL al nv r l).1 = false
  | r, .nil, _, h => h
  | r, .cons hd t, ht, h => by
    simp only [anyNL, Bool.or_eq_false_iff] at ht h
    have hin : innerTest hd = false := p_false_of_anyN _ _ ht.1
    have hgs : ∀ r2, gsN al nv r2 hd = (hd, r2) :=
      fun r2 => gsN_of_anyC al nv r2 hd hin
    by_cases htd : isTestDecl hd = true
    · by_cases hr : r = true
      · subst hr
        rcases hQ : gsL al nv true t with ⟨t2, r3⟩
        have ih := gsL_pres_q q al nv hal hnv true t ht.2 h.2
        rw [hQ] at ih
        simp [gsL, htd, hgs, hQ, anyNL, hal, hnv, h.1, ih]
      · have hr' : r = false := by simpa using hr
        subst hr'
        rcases hQ : gsL al nv true t with ⟨t2, r3⟩
        have ih := gsL_pres_q q al nv hal hnv true t ht.2 h.2
        rw [hQ] at ih
        simp [gsL, htd, hQ, anyNL, hal, hnv, ih]
    · rcases hQ : gsL al nv r t with ⟨t2, r3⟩
      have ih := gsL_pres_q q al nv hal hnv r t ht.2 h.2
      rw [hQ] at ih
      simp [gsL, htd, hgs, hQ, anyNL, h.1, ih]

theorem gsc_pres_q (q : Node → Bool) (hle : ∀ x, q x = true → badUA x = true)
    (l : NodeList) (htop : anyNL innerTest l = false) (h : anyNL q l = false) :
    anyNL q (generateSharedContext l) = false := by
  have hq0 : ∀ x, badUA x = false → q x = false := fun x hb => by
    cases hqq : q x with
    | false => rfl
    | true => rw [hle x hqq] at hb; exact Bool.noConfusion hb
  cases hf : findNL isTestDecl l with
  | none => rw [gsc_none l hf]; exact h
  | some d =>
    cases hcs : checkShape d with
    | none => rw [gsc_fail l d hf hcs]; exact h
    | some pr =>
      obtain ⟨al2, nv2⟩ := pr
      obtain ⟨k, nm, ty, e, n2, ms, rest, hdeq, hal, hnv⟩ :=
        checkShape_some_full d al2 nv2 hcs
      rw [gsc_succ l d al2 nv2 hf hcs]
      have hd0 : anyN q d = false := anyN_of_found isTestDecl q l d hf h
      have hms : anyNL q ms = false := by
        subst hdeq
        simp only [anyN, anyNL, Bool.or_eq_false_iff] at hd0
        tauto
      have htyq : q (.typeLit ms) = false := hq0 (.typeLit ms) rfl
      have halq : anyN q al2 = false := by
        subst hal
        have hA : q (.typeAlias "SharedContextType" (.typeLit ms)) = false :=
          hq0 (.typeAlias "SharedContextType" (.typeLit ms)) rfl
        simp [anyN, hA, htyq, hms]
      have hmk := mkProps_free q (fun k2 => by
        have hO : q (.objectProp k2 .nullLit) = false :=
          hq0 (.objectProp k2 .nullLit) rfl
        have hN : q .nullLit = false := hq0 .nullLit rfl
        simp [anyN, hO, hN])
      have hnvq : anyN q nv2 = false := by
        subst hnv
        have h1 : q (.varDecl "const" "sharedContext"
            (.typeRef "SharedContextType" .mkMissing)
            (.objectExpr (mkProps ms))) = false := hq0 _ rfl
        have h2 : q (.typeRef "SharedContextType" .mkMissing) = false := hq0 _ rfl
        have h3 : q .mkMissing = false := hq0 _ rfl
        have h4 : q (.objectExpr (mkProps ms)) = false := hq0 _ rfl
        simp [anyN, anyNL, h1, h2, h3, h4, hmk]
      exact gsL_pres_q q al2 nv2 halq hnvq false l htop h

theorem rm_pres (q : Node → Bool) : ∀ l : NodeList, anyNL q l = false →
    anyNL q (removeImport l) = false
  | .nil, h => h
  | .cons hd t, h => by
    simp only [anyNL, Bool.or_eq_false_iff] at h
    by_cases ha : isAvaImport hd = true
    · simp [removeImport, ha, rm_pres q t h.2]
    · simp [removeImport, ha, anyNL, h.1, rm_pres q t h.2]

theorem mapBU_uscr_ident_t (x : Node) (h : mapBU uscrStep x = .ident "t") :
    x = .ident "t" := by
  rw [mapBU_eq] at h
  rcases uscrStep_cases (mapC (mapBU uscrStep) x) with heq | heq
  · rw [heq] at h
    exact mapC_ident_inv _ _ _ h
  · rw [heq] at h
    exact absurd h (by decide)

theorem mapBU_uscr_member_t (c : Node) (prop : String)
    (h : mapBU uscrStep c = .member (.ident "t") prop) :
    c = .member (.ident "t") prop := by
  rw [mapBU_eq] at h
  rcases uscrStep_cases (mapC (mapBU uscrStep) c) with heq | heq
  · rw [heq] at h
    obtain ⟨c0, hc0, hobj⟩ := mapC_member_inv _ c _ _ h
    have hc00 : c0 = .ident "t" := mapBU_uscr_ident_t c0 hobj.symm
    subst hc00
    subst hc0
    rfl
  · rw [heq] at h
    exact Node.noConfusion h

theorem mapBU_adj_member_t (c : Node) (prop : String)
    (h : mapBU adjStep c = .member (.ident "t") prop) :
    c = .member (.ident "t") prop := by
  rw [mapBU_eq] at h
  rcases adjStep_cases (mapC (mapBU adjStep) c) with heq | ⟨args2, heq⟩
  · rw [heq] at h
    obtain ⟨c0, hc0, hobj⟩ := mapC_member_inv _ c _ _ h
    have hc00 : c0 = .ident "t" :=
      mapBU_ident_inv adjStep adjStep_fix_ident c0 "t" hobj.symm
    subst hc00
    subst hc0
    rfl
  · rw [heq] at h
    exact Node.noConfusion h

theorem badUA_mapC_gen (f : Node → Node)
    (hmem : ∀ c prop, mapBU f c = .member (.ident "t") prop →
      c = .member (.ident "t") prop) :
    ∀ x, badUA x = false → badUA (mapC (mapBU f) x) = false := by
  intro x h1
  match x with
  | .call c args =>
    rw [show mapC (mapBU f) (.call c args) =
        .call (mapBU f c) (nlMap (mapBU f) args) from rfl]
    cases htc : tCallProp (mapBU f c) with
    | none => simp [badUA, htc]
    | some prop =>
      have hc := hmem c prop (tCallProp_inv _ prop htc)
      subst hc
      simp only [badUA, tCallProp, if_pos rfl] at h1
      simp only [badUA, htc]
      exact h1
  | .ident s => rfl
  | .strLit v => rfl
  | .numLit v => rfl
  | .nullLit => rfl
  | .mkUndef => rfl
  | .mkMissing => rfl
  | .member obj pr => rfl
  | .arrowFn ps b => rfl
  | .funcExpr ps b => rfl
  | .objectExpr ps => rfl
  | .objectProp k v => rfl
  | .tsAs e a => rfl
  | .importDecl s => rfl
  | .varDecl k n ty init => rfl
  | .typeAlias n ty => rfl
  | .exprStmt e => rfl
  | .typeRef n ta => rfl
  | .typeParamInst ps => rfl
  | .typeLit ms => rfl
  | .propSig k ty => rfl
  | .otherMember => rfl
  | .numberKw => rfl
  | .stringKw => rfl

theorem uaNest_mapC_gen (f : Node → Node)
    (hmem : ∀ c prop, mapBU f c = .member (.ident "t") prop →
      c = .member (.ident "t") prop)
    (hpres : ∀ args, anyNL badUA args = false →
      anyNL badUA (nlMap (mapBU f) args) = false) :
    ∀ x, uaNest x = false → uaNest (mapC (mapBU f) x) = false := by
  intro x h1
  match x with
  | .call c args =>
    rw [show mapC (mapBU f) (.call c args) =
        .call (mapBU f c) (nlMap (mapBU f) args) from rfl]
    cases hb : badUA (.call (mapBU f c) (nlMap (mapBU f) args)) with
    | false =>
      rw [show uaNest (.call (mapBU f c) (nlMap (mapBU f) args)) =
        (badUA (.call (mapBU f c) (nlMap (mapBU f) args)) &&
          anyNL badUA (nlMap (mapBU f) args)) from rfl, hb, Bool.false_and]
    | true =>
      have htc : ∃ prop, tCallProp (mapBU f c) = some prop := by
        cases htc0 : tCallProp (mapBU f c) with
        | none => simp [badUA, htc0] at hb
        | some prop => exact ⟨prop, rfl⟩
      obtain ⟨prop, htc0⟩ := htc
      have hc := hmem c prop (tCallProp_inv _ prop htc0)
      subst hc
      have hpre : badUA (.call (.member (.ident "t") prop) args) = true := by
        simp only [badUA, htc0] at hb
        simp only [badUA, tCallProp, if_pos rfl]
        exact hb
      have hargs : anyNL badUA args = false := by
        rw [show uaNest (.call (.member (.ident "t") prop) args) =
          (badUA (.call (.member (.ident "t") prop) args) && anyNL badUA args)
          from rfl, hpre, Bool.true_and] at h1
        exact h1
      have himg := hpres args hargs
      rw [show uaNest (.call (mapBU f (.member (.ident "t") prop))
          (nlMap (mapBU f) args)) =
        (badUA (.call (mapBU f (.member (.ident "t") prop))
          (nlMap (mapBU f) args)) &&
          anyNL badUA (nlMap (mapBU f) args)) from rfl, himg, Bool.and_false]
  | .ident s => rfl
  | .strLit v => rfl
  | .numLit v => rfl
  | .nullLit => rfl
  | .mkUndef => rfl
  | .mkMissing => rfl
  | .member obj pr => rfl
  | .arrowFn ps b => rfl
  | .funcExpr ps b => rfl
  | .objectExpr ps => rfl
  | .objectProp k v => rfl
  | .tsAs e a => rfl
  | .importDecl s => rfl
  | .varDecl k n ty init => rfl
  | .typeAlias n ty => rfl
  | .exprStmt e => rfl
  | .typeRef n ta => rfl
  | .typeParamInst ps => rfl
  | .typeLit ms => rfl
  | .propSig k ty => rfl
  | .otherMember => rfl
  | .numberKw => rfl
  | .stringKw => rfl

theorem uaArgCrash_mapC_gen (f : Node → Node)
    (hmem : ∀ c prop, mapBU f c = .member (.ident "t") prop →
      c = .member (.ident "t") prop) :
    ∀ x, uaArgCrash x = false → uaArgCrash (mapC (mapBU f) x) = false := by
  intro x h1
  match x with
  | .call c args =>
    rw [show mapC (mapBU f) (.call c args) =
        .call (mapBU f c) (nlMap (mapBU f) args) from rfl]
    cases htc : tCallProp (mapBU f c) with
    | none => simp [uaArgCrash, htc]
    | some prop =>
      have hc := hmem c prop (tCallProp_inv _ prop htc)
      subst hc
      have hlen : nlLen (nlMap (mapBU f) args) = nlLen args :=
        nlLen_nlMap (mapBU f) args
      simp only [uaArgCrash, tCallProp, if_pos rfl] at h1
      simp only [uaArgCrash, htc, hlen]
      exact h1
  | .ident s => rfl
  | .strLit v => rfl
  | .numLit v => rfl
  | .nullLit => rfl
  | .mkUndef => rfl
  | .mkMissing => rfl
  | .member obj pr => rfl
  | .arrowFn ps b => rfl
  | .funcExpr ps b => rfl
  | .objectExpr ps => rfl
  | .objectProp k v => rfl
  | .tsAs e a => rfl
  | .importDecl s => rfl
  | .varDecl k n ty init => rfl
  | .typeAlias n ty => rfl
  | .exprStmt e => rfl
  | .typeRef n ta => rfl
  | .typeParamInst ps => rfl
  | .typeLit ms => rfl
  | .propSig k ty => rfl
  | .otherMember => rfl
  | .numberKw => rfl
  | .stringKw => rfl

theorem badUA_uscrL (l : NodeList) (h : anyNL badUA l = false) :
    anyNL badUA (uscrL l) = false :=
  anyNL_mapBUL_pres badUA uscrStep (uscr_hstep badUA rfl)
    (badUA_mapC_gen uscrStep mapBU_uscr_member_t) l h

theorem badUA_adjL (l : NodeList) (h : anyNL badUA l = false) :
    anyNL badUA (adjL l) = false :=
  anyNL_mapBUL_pres badUA adjStep
    (adj_hstep badUA (fun args => rfl) (fun s => rfl)
      (fun ps b => rfl) (fun ps b => rfl))
    (badUA_mapC_gen adjStep mapBU_adj_member_t) l h

theorem uaNest_uscrL (l : NodeList) (h : anyNL uaNest l = false) :
    anyNL uaNest (uscrL l) = false :=
  anyNL_mapBUL_pres uaNest uscrStep (uscr_hstep uaNest rfl)
    (uaNest_mapC_gen uscrStep mapBU_uscr_member_t
      (fun args ha => by
        rw [← mapBUL_eq_nlMap]
        exact badUA_uscrL args ha)) l h

theorem uaNest_adjL (l : NodeList) (h : anyNL uaNest l = false) :
    anyNL uaNest (adjL l) = false :=
  anyNL_mapBUL_pres uaNest adjStep
    (adj_hstep uaNest (fun args => rfl) (fun s => rfl)
      (fun ps b => rfl) (fun ps b => rfl))
    (uaNest_mapC_gen adjStep mapBU_adj_member_t
      (fun args ha => by
        rw [← mapBUL_eq_nlMap]
        exact badUA_adjL args ha)) l h

theorem uaArgCrash_uscrL (l : NodeList) (h : anyNL uaArgCrash l = false) :
    anyNL uaArgCrash (uscrL l) = false :=
  anyNL_mapBUL_pres uaArgCrash uscrStep (uscr_hstep uaArgCrash rfl)
    (uaArgCrash_mapC_gen uscrStep mapBU_uscr_member_t) l h

theorem uaArgCrash_adjL (l : NodeList) (h : anyNL uaArgCrash l = false) :
    anyNL uaArgCrash (adjL l) = false :=
  anyNL_mapBUL_pres uaArgCrash adjStep
    (adj_hstep uaArgCrash (fun args => rfl) (fun s => rfl)
      (fun ps b => rfl) (fun ps b => rfl))
    (uaArgCrash_mapC_gen adjStep mapBU_adj_member_t) l h

theorem uaN_id (n : Node) (h : anyN badUA n = false) : uaN n = n := by
  refine mapBU_id badUA uaStep ?_ n h
  intro x h1 _
  rcases uaStep_eq x with h2 | ⟨args, prop, dest, hxx, hnm, hm, h2⟩
  · exact h2
  · subst hxx
    exfalso
    simp [badUA, tCallProp, hnm, hm] at h1

mutual

theorem cvN_id : ∀ (b : Bool) (n : Node), anyN badUA n = false → cvN b n = n
  | b, .ident s, _ => rfl
  | b, .strLit v, _ => rfl
  | b, .numLit v, _ => rfl
  | b, .nullLit, _ => rfl
  | b, .mkUndef, _ => rfl
  | b, .mkMissing, _ => rfl
  | b, .importDecl s, _ => rfl
  | b, .otherMember, _ => rfl
  | b, .numberKw, _ => rfl
  | b, .stringKw, _ => rfl
  | b, .member obj prop, h => by
    simp only [anyN, Bool.or_eq_false_iff] at h
    simp [cvN, cvN_id false obj h.2]
  | b, .call c args, h => by
    simp only [anyN, Bool.or_eq_false_iff] at h
    have hc := cvN_id false c h.1.2
    have ha := cvL_id args h.2
    cases htc : tCallProp c with
    | none => simp [cvN, htc, hc, ha]
    | some prop =>
      by_cases hnm : tPropertiesNotMapped prop = true
      · simp [cvN, htc, hnm, hc, ha]
      · cases hm : tPropertiesMap prop with
        | none => simp [cvN, htc, hnm, hm, hc, ha]
        | some dest =>
          exfalso
          have hbu : badUA (.call c args) = true := by
            simp [badUA, htc, hnm, hm]
          rw [h.1.1] at hbu
          exact Bool.noConfusion hbu
  | b, .arrowFn ps body, h => by
    simp only [anyN, Bool.or_eq_false_iff] at h
    simp [cvN, cvL_id body h.2]
  | b, .funcExpr ps body, h => by
    simp only [anyN, Bool.or_eq_false_iff] at h
    simp [cvN, cvL_id body h.2]
  | b, .objectExpr props, h => by
    simp only [anyN, Bool.or_eq_false_iff] at h
    simp [cvN, cvL_id props h.2]
  | b, .objectProp k v, h => by
    simp only [anyN, Bool.or_eq_false_iff] at h
    simp [cvN, cvN_id false v h.2]
  | b, .tsAs e ann, h => by
    simp only [anyN, Bool.or_eq_false_iff] at h
    simp [cvN, cvN_id false e h.1.2, cvN_id false ann h.2]
  | b, .varDecl k n ty init, h => by
    simp only [anyN, Bool.or_eq_false_iff] at h
    simp [cvN, cvN_id false ty h.1.2, cvN_id false init h.2]
  | b, .typeAlias n ty, h => by
    simp only [anyN, Bool.or_eq_false_iff] at h
    simp [cvN, cvN_id false ty h.2]
  | b, .exprStmt e, h => by
    simp only [anyN, Bool.or_eq_false_iff] at h
    simp [cvN, cvN_id false e h.2]
  | b, .typeRef n ta, h => by
    simp only [anyN, Bool.or_eq_false_iff] at h
    simp [cvN, cvN_id false ta h.2]
  | b, .typeParamInst ps, h => by
    simp only [anyN, Bool.or_eq_false_iff] at h
    simp [cvN, cvL_id ps h.2]
  | b, .typeLit ms, h => by
    simp only [anyN, Bool.or_eq_false_iff] at h
    simp [cvN, cvL_id ms h.2]
  | b, .propSig k ty, h => by
    simp only [anyN, Bool.or_eq_false_iff] at h
    simp [cvN, cvN_id false ty h.2]

theorem cvL_id : ∀ l : NodeList, anyNL badUA l = false → cvL l = l
  | .nil, _ => rfl
  | .cons hd t, h => by
    simp only [anyNL, Bool.or_eq_false_iff] at h
    simp [cvL, cvN_id false hd h.1, cvL_id t h.2]

end

theorem cvD_id : ∀ l : NodeList, anyNL badUA l = false → cvD l = l
  | .nil, _ => rfl
  | .cons hd t, h => by
    simp only [anyNL, Bool.or_eq_false_iff] at h
    simp [cvD, cvN_id true hd h.1, cvD_id t h.2]

theorem tCallProp_uaN (c : Node) : tCallProp (uaN c) = tCallProp c := by
  cases htc : tCallProp c with
  | some prop =>
    have hc := tCallProp_inv c prop htc
    subst hc
    have hfix : uaN (.member (.ident "t") prop) = .member (.ident "t") prop := rfl
    rw [hfix]
    simp [tCallProp]
  | none =>
    cases hM : tCallProp (uaN c) with
    | none => rfl
    | some prop =>
      exfalso
      have hc0 := tCallProp_inv _ prop hM
      have hc' : uaStep (mapC (mapBU uaStep) c) = .member (.ident "t") prop := by
        rw [← mapBU_eq uaStep c]
        exact hc0
      rcases uaStep_cases (mapC (mapBU uaStep) c) with heq | ⟨e2, heq⟩
      · rw [heq] at hc'
        obtain ⟨c0, hc0, hobj⟩ := mapC_member_inv _ c _ _ hc'
        have hc00 : c0 = .ident "t" :=
          mapBU_ident_inv uaStep uaStep_fix_ident c0 "t" hobj.symm
        subst hc00
        subst hc0
        simp [tCallProp] at htc
      · rw [heq] at hc'
        exact Node.noConfusion hc'

mutual

theorem cvN_eq_uaN : ∀ n : Node, anyN uaNest n = false → cvN false n = uaN n
  | .ident s, _ => rfl
  | .strLit v, _ => rfl
  | .numLit v, _ => rfl
  | .nullLit, _ => rfl
  | .mkUndef, _ => rfl
  | .mkMissing, _ => rfl
  | .importDecl s, _ => rfl
  | .otherMember, _ => rfl
  | .numberKw, _ => rfl
  | .stringKw, _ => rfl
  | .member obj prop, h => by
    simp only [anyN, Bool.or_eq_false_iff] at h
    have hu : uaN (.member obj prop) = .member (uaN obj) prop := rfl
    simp [cvN, hu, cvN_eq_uaN obj h.2]
  | .arrowFn ps body, h => by
    simp only [anyN, Bool.or_eq_false_iff] at h
    have hu : uaN (.arrowFn ps body) = .arrowFn ps (uaL body) := rfl
    simp [cvN, hu, cvL_eq_uaL body h.2]
  | .funcExpr ps body, h => by
    simp only [anyN, Bool.or_eq_false_iff] at h
    have hu : uaN (.funcExpr ps body) = .funcExpr ps (uaL body) := rfl
    simp [cvN, hu, cvL_eq_uaL body h.2]
  | .objectExpr props, h => by
    simp only [anyN, Bool.or_eq_false_iff] at h
    have hu : uaN (.objectExpr props) = .objectExpr (uaL props) := rfl
    simp [cvN, hu, cvL_eq_uaL props h.2]
  | .objectProp k v, h => by
    simp only [anyN, Bool.or_eq_false_iff] at h
    have hu : uaN (.objectProp k v) = .objectProp k (uaN v) := rfl
    simp [cvN, hu, cvN_eq_uaN v h.2]
  | .tsAs e ann, h => by
    simp only [anyN, Bool.or_eq_false_iff] at h
    have hu : uaN (.tsAs e ann) = .tsAs (uaN e) (uaN ann) := rfl
    simp [cvN, hu, cvN_eq_uaN e h.1.2, cvN_eq_uaN ann h.2]
  | .varDecl k n ty init, h => by
    simp only [anyN, Bool.or_eq_false_iff] at h
    have hu : uaN (.varDecl k n ty init) = .varDecl k n (uaN ty) (uaN init) := rfl
    simp [cvN, hu, cvN_eq_uaN ty h.1.2, cvN_eq_uaN init h.2]
  | .typeAlias n ty, h => by
    simp only [anyN, Bool.or_eq_false_iff] at h
    have hu : uaN (.typeAlias n ty) = .typeAlias n (uaN ty) := rfl
    simp [cvN, hu, cvN_eq_uaN ty h.2]
  | .exprStmt e, h => by
    simp only [anyN, Bool.or_eq_false_iff] at h
    have hu : uaN (.exprStmt e) = .exprStmt (uaN e) := rfl
    simp [cvN, hu, cvN_eq_uaN e h.2]
  | .typeRef n ta, h => by
    simp only [anyN, Bool.or_eq_false_iff] at h
    have hu : uaN (.typeRef n ta) = .typeRef n (uaN ta) := rfl
    simp [cvN, hu, cvN_eq_uaN ta h.2]
  | .typeParamInst ps, h => by
    simp only [anyN, Bool.or_eq_false_iff] at h
    have hu : uaN (.typeParamInst ps) = .typeParamInst (uaL ps) := rfl
    simp [cvN, hu, cvL_eq_uaL ps h.2]
  | .typeLit ms, h => by
    simp only [anyN, Bool.or_eq_false_iff] at h
    have hu : uaN (.typeLit ms) = .typeLit (uaL ms) := rfl
    simp [cvN, hu, cvL_eq_uaL ms h.2]
  | .propSig k ty, h => by
    simp only [anyN, Bool.or_eq_false_iff] at h
    have hu : uaN (.propSig k ty) = .propSig k (uaN ty) := rfl
    simp [cvN, hu, cvN_eq_uaN ty h.2]
  | .call c args, h => by
    simp only [anyN, Bool.or_eq_false_iff] at h
    have hc := cvN_eq_uaN c h.1.2
    have ha := cvL_eq_uaL args h.2
    cases htc : tCallProp c with
    | none =>
      have htc' : tCallProp (uaN c) = none := by rw [tCallProp_uaN]; exact htc
      have hu : uaN (.call c args) = .call (uaN c) (uaL args) := by
        rw [show uaN (.call c args) = uaStep (.call (uaN c) (uaL args)) from rfl]
        simp [uaStep, htc']
      simp [cvN, htc, hc, ha, hu]
    | some prop =>
      have htc' : tCallProp (uaN c) = some prop := by rw [tCallProp_uaN]; exact htc
      by_cases hnm : tPropertiesNotMapped prop = true
      · have hu : uaN (.call c args) = .call (uaN c) (uaL args) := by
          rw [show uaN (.call c args) = uaStep (.call (uaN c) (uaL args)) from rfl]
          simp [uaStep, htc', hnm]
        simp [cvN, htc, hnm, hc, ha, hu]
      · cases hm : tPropertiesMap prop with
        | none =>
          have hu : uaN (.call c args) = .call (uaN c) (uaL args) := by
            rw [show uaN (.call c args) = uaStep (.call (uaN c) (uaL args)) from rfl]
            simp [uaStep, htc', hnm, hm]
          simp [cvN, htc, hnm, hm, hc, ha, hu]
        | some dest =>
          have hbu : badUA (.call c args) = true := by
            simp [badUA, htc, hnm, hm]
          have hargsB : anyNL badUA args = false := by
            have h0 := h.1.1
            rw [show uaNest (.call c args) =
              (badUA (.call c args) && anyNL badUA args) from rfl,
              hbu, Bool.true_and] at h0
            exact h0
          have haid : uaL args = args := uaL_id args hargsB
          have hu : uaN (.call c args) = uaBuild prop dest args := by
            rw [show uaN (.call c args) = uaStep (.call (uaN c) (uaL args)) from rfl,
              haid]
            simp [uaStep, htc', hnm, hm]
          have hD : cvD args = args := cvD_id args hargsB
          rw [hu]
          simp [cvN, htc, hnm, hm, hD]

theorem cvL_eq_uaL : ∀ l : NodeList, anyNL uaNest l = false → cvL l = uaL l
  | .nil, _ => rfl
  | .cons hd t, h => by
    simp only [anyNL, Bool.or_eq_false_iff] at h
    have hu : uaL (.cons hd t) = .cons (uaN hd) (uaL t) := rfl
    simp [cvL, hu, cvN_eq_uaN hd h.1, cvL_eq_uaL t h.2]

end

theorem pipeline_fix (z : NodeList)
    (h1 : removeImport z = z) (h2 : generateSharedContext z = z)
    (h3 : uscrL z = z) (h4 : adjL z = z) (h5 : uaL z = z) (h6 : rwL z = z) :
    pipeline z = z := by
  unfold pipeline
  rw [h1, h2, h3, h4, h5, h6]

/-- Counterexample for claim C7: on the program consisting of two
well-formed test declarators, the second run of the faithful pipeline
inserts a further shared-context declaration pair around the surviving
declarator, so the output of the first run is not a fixed point: the
pipeline is not idempotent on every input. -/
theorem c7_counterexample :
    (pipelineR prog7).bind pipelineR ≠ pipelineR prog7 := by decide

/-- Claim C7 as amended: for every input tree in which at most one
variable declarator named test occurs and only as a top-level statement,
no convertible assertion call occurs inside the argument list of another
convertible assertion call (the shape on which the stale-path
replacement of the assertion pass loses a conversion), and every
convertible assertion call carries the arguments its builder reads (so
no builder throws), the six-pass pipeline succeeds and its output is a
fixed point: running it a second time on its own output changes
nothing. -/
theorem c7_amended (x : NodeList)
    (hcnt : cntNL isTestDecl x ≤ 1)
    (htop : anyNL innerTest x = false)
    (hnest : anyNL uaNest x = false)
    (hcrash : anyNL uaArgCrash x = false) :
    pipelineR x = some (pipeline x) ∧
    pipelineR (pipeline x) = some (pipeline x) := by
  have hwp : anyNL wpBad x = false := wp_of_top x htop
  have hwp_y : anyNL wpBad (removeImport x) = false := rm_wp x hwp
  have hcnt_y : cntNL isTestDecl (removeImport x) ≤ 1 := by
    rw [rm_cnt_test x]; exact hcnt
  have htop_y : anyNL innerTest (removeImport x) = false := rm_pres innerTest x htop
  have hnest_y : anyNL uaNest (removeImport x) = false := rm_pres uaNest x hnest
  have hcrash_y : anyNL uaArgCrash (removeImport x) = false :=
    rm_pres uaArgCrash x hcrash
  have hnest_z : anyNL uaNest (generateSharedContext (removeImport x)) = false :=
    gsc_pres_q uaNest uaNest_le_badUA _ htop_y hnest_y
  have hcrash_z : anyNL uaArgCrash (generateSharedContext (removeImport x)) = false :=
    gsc_pres_q uaArgCrash uaArgCrash_le_badUA _ htop_y hcrash_y
  have hnest_w :
      anyNL uaNest (adjL (uscrL (generateSharedContext (removeImport x)))) = false :=
    uaNest_adjL _ (uaNest_uscrL _ hnest_z)
  have hcrash_w :
      anyNL uaArgCrash (adjL (uscrL (generateSharedContext (removeImport x)))) = false :=
    uaArgCrash_adjL _ (uaArgCrash_uscrL _ hcrash_z)
  have hrun : uaRunL (adjL (uscrL (generateSharedContext (removeImport x)))) =
      some (uaL (adjL (uscrL (generateSharedContext (removeImport x))))) := by
    simp [uaRunL, hcrash_w, cvL_eq_uaL _ hnest_w]
  have h1 : pipelineR x = some (pipeline x) := by
    unfold pipelineR
    rw [hrun]
    rfl
  refine ⟨h1, ?_⟩
  have hava_P : anyTop isAvaImport (pipeline x) = false := by
    unfold pipeline
    exact ava_rwL _ (ava_uaL _ (ava_adjL _ (ava_uscrL _ (gsc_ava _ (rm_clean x)))))
  have htc : anyNL isTCtx (pipeline x) = false := by
    unfold pipeline
    exact tc_rwL _ (tc_uaL _ (tc_adjL _ (uscrL_est _)))
  have hadj : anyNL badAdj (pipeline x) = false := by
    unfold pipeline
    exact badAdj_rwL _ (badAdj_uaL _ (adjL_est _))
  have hua : anyNL badUA (pipeline x) = false := by
    unfold pipeline
    exact badUA_rwL _ (uaL_est _)
  have hrw : anyNL badRW (pipeline x) = false := by
    unfold pipeline
    exact rwL_est _
  have h2 : generateSharedContext (pipeline x) = pipeline x := by
    cases hf : findNL isTestDecl (removeImport x) with
    | none =>
      have htz : anyNL isTestDecl (generateSharedContext (removeImport x)) = false := by
        rw [gsc_none _ hf]
        exact (findNL_none isTestDecl _).mp hf
      have htP : anyNL isTestDecl (pipeline x) = false := by
        unfold pipeline
        exact test_rwL _ (test_uaL _ (test_adjL _ (test_uscrL _ htz)))
      exact gsc_id_of_none _ htP
    | some d =>
      cases hcs : checkShape d with
      | none =>
        have hbs : anyNL badShape (removeImport x) = false :=
          shape_clean_of _ hcnt_y (fun d2 hf2 => by
            rw [hf] at hf2
            injection hf2 with he
            rw [← he]
            exact hcs)
        have hbsP : anyNL badShape (pipeline x) = false := by
          unfold pipeline
          rw [gsc_fail _ d hf hcs]
          exact shape_rwL _ (shape_uaL _ (shape_adjL _ (shape_uscrL _ hbs)))
        exact gsc_id_of_shape _ hbsP
      | some pr =>
        obtain ⟨al2, nv2⟩ := pr
        have htz : anyNL isTestDecl (generateSharedContext (removeImport x)) = false := by
          rw [← cntNL_eq_zero]
          exact gsc_success_cnt _ hwp_y hcnt_y d al2 nv2 hf hcs
        have htP : anyNL isTestDecl (pipeline x) = false := by
          unfold pipeline
          exact test_rwL _ (test_uaL _ (test_adjL _ (test_uscrL _ htz)))
        exact gsc_id_of_none _ htP
  have hrm2 : removeImport (pipeline x) = pipeline x := rm_noop _ hava_P
  have hus2 : uscrL (pipeline x) = pipeline x := uscrL_id _ htc
  have had2 : adjL (pipeline x) = pipeline x := adjL_id _ hadj
  have hw2 : rwL (pipeline x) = pipeline x := rwL_id _ hrw
  have hrun2 : uaRunL (pipeline x) = some (pipeline x) := by
    have hcr : anyNL uaArgCrash (pipeline x) = false :=
      anyNL_anti _ _ uaArgCrash_le_badUA _ hua
    simp [uaRunL, hcr, cvL_id _ hua]
  show pipelineR (pipeline x) = some (pipeline x)
  unfold pipelineR
  rw [hrm2, h2, hus2, had2, hrun2]
  simp [hw2]

/-- Witness for the amended C7: the program with an ava import, one
well-formed top-level test declarator, a context reference and a
two-argument un-nested assertion satisfies all four hypotheses, and the
faithful pipeline succeeds on it and fixes its own output. -/
theorem c7_witness :
    cntNL isTestDecl prog7W ≤ 1 ∧ anyNL innerTest prog7W = false ∧
    anyNL uaNest prog7W = false ∧ anyNL uaArgCrash prog7W = false ∧
    pipelineR prog7W = some (pipeline prog7W) ∧
    pipelineR (pipeline prog7W) = some (pipeline prog7W) :=
  ⟨by decide, by decide, by decide, by decide,
    (c7_amended prog7W (by decide) (by decide) (by decide) (by decide)).1,
    (c7_amended prog7W (by decide) (by decide) (by decide) (by decide)).2⟩

end AvaToJest
